import Mathlib

/-!
Shallow embedding of the move generator in src/src/movegen.cpp (a chess
engine move generator) together with the parts of the Position interface
it consumes.  The generator source is embedded function by function; the
Position capabilities (attack sets, pins, legality test, ...) are not part
of the given source tree, so they are modelled from the specification
(sections 3, 4.9 and 6 of spec.md), which fixes their bit-exact semantics.

Conventions:
  - a Square is a Nat in 0..63, file = s % 8, rank = s / 8;
  - a Bitboard is a Nat whose bits 0..63 are the set of squares;
  - a MoveStack buffer written left to right becomes a Lean List Move,
    produced in pop_1st_bit order (least significant bit first), which is
    increasing square order;
  - the MOVE_NONE sentinel becomes Option.none.
-/

namespace Movegen

inductive Color where
  | white
  | black
deriving DecidableEq, Repr

inductive PieceType where
  | pawn
  | knight
  | bishop
  | rook
  | queen
  | king
deriving DecidableEq, Repr

def opposite_color : Color → Color
  | Color.white => Color.black
  | Color.black => Color.white

/-- Move kinds, following the data model of the spec: normal, en passant,
short castle, long castle, or promotion to a given piece. -/
inductive MoveKind where
  | normal
  | promo (pt : PieceType)
  | ep
  | shortCastle
  | longCastle
deriving DecidableEq, Repr

structure Move where
  mfrom : Nat
  mto : Nat
  kind : MoveKind
deriving DecidableEq, Repr

def make_move (f t : Nat) : Move := ⟨f, t, MoveKind.normal⟩

def make_promotion_move (f t : Nat) (p : PieceType) : Move := ⟨f, t, MoveKind.promo p⟩

def make_ep_move (f t : Nat) : Move := ⟨f, t, MoveKind.ep⟩

/-- Modelled from the spec: a castle move encodes king to rook square as its
from and to pair; kingside (short) castling has the rook on a higher file
than the king, queenside (long) the converse. -/
def make_castle_move (ksq rsq : Nat) : Move :=
  ⟨ksq, rsq, if ksq < rsq then MoveKind.shortCastle else MoveKind.longCastle⟩

def move_from (m : Move) : Nat := m.mfrom

def move_to (m : Move) : Nat := m.mto

def move_is_ep (m : Move) : Bool := m.kind = MoveKind.ep

def move_is_short_castle (m : Move) : Bool := m.kind = MoveKind.shortCastle

def move_is_long_castle (m : Move) : Bool := m.kind = MoveKind.longCastle

def move_promotion (m : Move) : Bool :=
  match m.kind with
  | MoveKind.promo _ => true
  | _ => false

/-! Square geometry.  Files and ranks as integers, for delta arithmetic. -/

def square_file (s : Nat) : Nat := s % 8

def square_rank (s : Nat) : Nat := s / 8

def fi (s : Nat) : Int := (square_file s : Int)

def ri (s : Nat) : Int := (square_rank s : Int)

/-- Two distinct squares on a common rank, file or diagonal. -/
def sqAligned (a b : Nat) : Bool :=
  a ≠ b && (fi a = fi b || ri a = ri b || (fi a - fi b).natAbs = (ri a - ri b).natAbs)

/-- Distinct squares on a common diagonal. -/
def diagAligned (a b : Nat) : Bool :=
  fi a ≠ fi b && (fi a - fi b).natAbs = (ri a - ri b).natAbs

/-- Distinct squares on a common rank or file. -/
def rookAligned (a b : Nat) : Bool :=
  a ≠ b && (fi a = fi b || ri a = ri b)

/-- Square c lies strictly between a and b on the line through a and b
(which must be a rank, file or diagonal). -/
def onOpenSeg (a b c : Nat) : Bool :=
  sqAligned a b && c ≠ a && c ≠ b &&
  (fi c - fi a) * (ri b - ri a) = (ri c - ri a) * (fi b - fi a) &&
  min (fi a) (fi b) ≤ fi c && fi c ≤ max (fi a) (fi b) &&
  min (ri a) (ri b) ≤ ri c && ri c ≤ max (ri a) (ri b)

/-! Bitboard infrastructure.  A bitboard is a Nat; all constants and
derived boards only set bits 0..63. -/

def mask64 : Nat := 2 ^ 64 - 1

/-- Bitboard of the squares 0..63 satisfying a predicate. -/
def bbOfPred (p : Nat → Bool) : Nat :=
  ((List.range 64).filter p).foldr (fun s acc => acc ||| (1 <<< s)) 0

/-- List of set squares in pop_1st_bit order (least significant first). -/
def bbSquares (b : Nat) : List Nat :=
  (List.range 64).filter b.testBit

/-- Left shift with the 64-bit truncation of the source (uint64). -/
def shl (k : Nat) (b : Nat) : Nat := (b <<< k) &&& mask64

def shr (k : Nat) (b : Nat) : Nat := b >>> k

/-- Bitwise complement within 64 bits (uint64 tilde). -/
def bnot (b : Nat) : Nat := mask64 ^^^ (b &&& mask64)

def clear_bit (b : Nat) (s : Nat) : Nat := b &&& bnot (1 <<< s)

def bit_is_set (b : Nat) (s : Nat) : Bool := b.testBit s

def first_1 (b : Nat) : Nat := ((List.range 64).filter b.testBit).headD 64

def EmptyBoardBB : Nat := 0

def FileABB : Nat := bbOfPred (fun s => square_file s = 0)

def FileHBB : Nat := bbOfPred (fun s => square_file s = 7)

def Rank1BB : Nat := bbOfPred (fun s => square_rank s = 0)

def Rank3BB : Nat := bbOfPred (fun s => square_rank s = 2)

def Rank4BB : Nat := bbOfPred (fun s => square_rank s = 3)

def Rank5BB : Nat := bbOfPred (fun s => square_rank s = 4)

def Rank6BB : Nat := bbOfPred (fun s => square_rank s = 5)

def Rank8BB : Nat := bbOfPred (fun s => square_rank s = 7)

/-- Modelled from the spec: file bitboard of the file holding a square. -/
def file_bb (sq : Nat) : Nat := bbOfPred (fun s => square_file s = square_file sq)

/-- Modelled from the spec: the files adjacent to the file of a square
(used for pawns on files neighbouring the enemy king file). -/
def neighboring_files_bb (sq : Nat) : Nat :=
  bbOfPred (fun s => (fi s - fi sq).natAbs = 1)

/-! Attack sets.  Modelled from the spec (section 6): precomputed attack
tables for pawn, knight and king, and occupancy parameterised sliding
attacks with the usual ray semantics: a slider on a attacks b when a and b
are aligned in its movement directions and every square strictly between
them is unoccupied. -/

def knightStep (a b : Nat) : Bool :=
  (fi a - fi b).natAbs * (ri a - ri b).natAbs = 2

def kingStep (a b : Nat) : Bool :=
  a ≠ b && (fi a - fi b).natAbs ≤ 1 && (ri a - ri b).natAbs ≤ 1

/-- White pawn on a attacks b. -/
def wPawnStep (a b : Nat) : Bool :=
  ri b = ri a + 1 && (fi a - fi b).natAbs = 1

/-- Black pawn on a attacks b. -/
def bPawnStep (a b : Nat) : Bool :=
  ri b = ri a - 1 && (fi a - fi b).natAbs = 1

def pawnStep (c : Color) (a b : Nat) : Bool :=
  match c with
  | Color.white => wPawnStep a b
  | Color.black => bPawnStep a b

def knight_attacks_bb (s : Nat) : Nat := bbOfPred (knightStep s)

def king_attacks_bb (s : Nat) : Nat := bbOfPred (kingStep s)

def white_pawn_attacks_bb (s : Nat) : Nat := bbOfPred (wPawnStep s)

def black_pawn_attacks_bb (s : Nat) : Nat := bbOfPred (bPawnStep s)

def pawn_attacks_bb (c : Color) (s : Nat) : Nat := bbOfPred (pawnStep c s)

/-- Modelled from the spec: squares_between, the open segment between two
collinear squares, the empty bitboard when they are not aligned. -/
def squares_between (a b : Nat) : Nat := bbOfPred (onOpenSeg a b)

/-- Modelled from the spec: occupancy parameterised bishop attacks. -/
def bishop_attacks_bb (s : Nat) (occ : Nat) : Nat :=
  bbOfPred (fun t => diagAligned s t && squares_between s t &&& occ = 0)

/-- Modelled from the spec: occupancy parameterised rook attacks. -/
def rook_attacks_bb (s : Nat) (occ : Nat) : Nat :=
  bbOfPred (fun t => rookAligned s t && squares_between s t &&& occ = 0)

def queen_attacks_bb (s : Nat) (occ : Nat) : Nat :=
  bishop_attacks_bb s occ ||| rook_attacks_bb s occ

/-- Modelled from the spec: queen attacks on an empty board. -/
def QueenPseudoAttacks (s : Nat) : Nat := bbOfPred (sqAligned s)

def relative_square (c : Color) (s : Nat) : Nat :=
  match c with
  | Color.white => s
  | Color.black => s ^^^ 56

def relative_rank (c : Color) (s : Nat) : Nat :=
  match c with
  | Color.white => square_rank s
  | Color.black => 7 - square_rank s

/-! The Position.  Modelled from the spec: the generator consumes an
immutable position through the capability set of section 6.  We represent
it by its board function (what piece, if any, each square holds), the side
to move, the en passant square, the castling rights and the initial rook
squares; every bitboard and query of section 6 is derived from these. -/

structure Position where
  board : Nat → Option (Color × PieceType)
  stm : Color
  epSq : Option Nat
  castleKW : Bool
  castleQW : Bool
  castleKB : Bool
  castleQB : Bool
  initialKR : Color → Nat
  initialQR : Color → Nat

def Position.side_to_move (pos : Position) : Color := pos.stm

def Position.piece_on (pos : Position) (s : Nat) : Option (Color × PieceType) := pos.board s

def Position.color_of_piece_on (pos : Position) (s : Nat) : Option Color :=
  (pos.board s).map Prod.fst

def Position.square_is_empty (pos : Position) (s : Nat) : Bool := pos.board s = none

def Position.square_is_occupied (pos : Position) (s : Nat) : Bool := !(pos.board s = none)

def Position.piecesBB (pos : Position) (c : Color) (pt : PieceType) : Nat :=
  bbOfPred (fun s => pos.board s = some (c, pt))

def Position.pawns (pos : Position) (c : Color) : Nat := pos.piecesBB c PieceType.pawn

def Position.knights (pos : Position) (c : Color) : Nat := pos.piecesBB c PieceType.knight

def Position.bishops (pos : Position) (c : Color) : Nat := pos.piecesBB c PieceType.bishop

def Position.rooks (pos : Position) (c : Color) : Nat := pos.piecesBB c PieceType.rook

def Position.queens (pos : Position) (c : Color) : Nat := pos.piecesBB c PieceType.queen

def Position.kings (pos : Position) (c : Color) : Nat := pos.piecesBB c PieceType.king

def Position.pieces_of_color (pos : Position) (c : Color) : Nat :=
  bbOfPred (fun s => (pos.board s).map Prod.fst = some c)

def Position.occupied_squares (pos : Position) : Nat :=
  bbOfPred (fun s => !(pos.board s = none))

def Position.empty_squares (pos : Position) : Nat := bnot pos.occupied_squares

def Position.bishops_and_queens (pos : Position) (c : Color) : Nat :=
  pos.bishops c ||| pos.queens c

def Position.rooks_and_queens (pos : Position) (c : Color) : Nat :=
  pos.rooks c ||| pos.queens c

def Position.sliders (pos : Position) : Nat :=
  pos.bishops_and_queens Color.white ||| pos.rooks_and_queens Color.white |||
  pos.bishops_and_queens Color.black ||| pos.rooks_and_queens Color.black

def Position.king_square (pos : Position) (c : Color) : Nat :=
  ((List.range 64).filter (fun s => pos.board s = some (c, PieceType.king))).headD 64

def Position.ep_square (pos : Position) : Option Nat := pos.epSq

def Position.can_castle_kingside (pos : Position) (c : Color) : Bool :=
  match c with
  | Color.white => pos.castleKW
  | Color.black => pos.castleKB

def Position.can_castle_queenside (pos : Position) (c : Color) : Bool :=
  match c with
  | Color.white => pos.castleQW
  | Color.black => pos.castleQB

def Position.can_castle (pos : Position) (c : Color) : Bool :=
  pos.can_castle_kingside c || pos.can_castle_queenside c

def Position.initial_kr_square (pos : Position) (c : Color) : Nat := pos.initialKR c

def Position.initial_qr_square (pos : Position) (c : Color) : Nat := pos.initialQR c

/-- Squares in the occupancy parameterised piece list order used by
generate_piece_moves: we model the piece list as the squares holding the
given piece, in increasing square order. -/
def Position.piece_squares (pos : Position) (c : Color) (pt : PieceType) : List Nat :=
  (List.range 64).filter (fun s => pos.board s = some (c, pt))

def Position.knight_attacks (_pos : Position) (s : Nat) : Nat := knight_attacks_bb s

def Position.king_attacks (_pos : Position) (s : Nat) : Nat := king_attacks_bb s

def Position.white_pawn_attacks (_pos : Position) (s : Nat) : Nat := white_pawn_attacks_bb s

def Position.black_pawn_attacks (_pos : Position) (s : Nat) : Nat := black_pawn_attacks_bb s

def Position.pawn_attacks (_pos : Position) (c : Color) (s : Nat) : Nat := pawn_attacks_bb c s

def Position.bishop_attacks (pos : Position) (s : Nat) : Nat :=
  bishop_attacks_bb s pos.occupied_squares

def Position.rook_attacks (pos : Position) (s : Nat) : Nat :=
  rook_attacks_bb s pos.occupied_squares

def Position.queen_attacks (pos : Position) (s : Nat) : Nat :=
  queen_attacks_bb s pos.occupied_squares

/-- Per piece type attack bitboard from a square, the piece_attacks_fn
table of the source for knight, bishop, rook and queen. -/
def Position.piece_attacks_of (pos : Position) (pt : PieceType) (s : Nat) : Nat :=
  match pt with
  | PieceType.knight => pos.knight_attacks s
  | PieceType.bishop => pos.bishop_attacks s
  | PieceType.rook => pos.rook_attacks s
  | PieceType.queen => pos.queen_attacks s
  | PieceType.king => pos.king_attacks s
  | PieceType.pawn => pos.pawn_attacks Color.white s

/-- Modelled from the spec: whether the piece on square f attacks square t,
with slider attacks over the current occupancy. -/
def Position.piece_attacks_square (pos : Position) (f t : Nat) : Bool :=
  match pos.board f with
  | none => false
  | some (c, pt) =>
    match pt with
    | PieceType.pawn => pawnStep c f t
    | PieceType.knight => knightStep f t
    | PieceType.king => kingStep f t
    | PieceType.bishop => (bishop_attacks_bb f pos.occupied_squares).testBit t
    | PieceType.rook => (rook_attacks_bb f pos.occupied_squares).testBit t
    | PieceType.queen => (queen_attacks_bb f pos.occupied_squares).testBit t

/-- Modelled from the spec: whether a square is attacked by a given color,
over an explicitly supplied occupancy for the slider rays. -/
def attackedWithOcc (pos : Position) (c : Color) (sq : Nat) (occ : Nat) : Bool :=
  (pawn_attacks_bb (opposite_color c) sq &&& pos.pawns c ≠ 0) ||
  (knight_attacks_bb sq &&& pos.knights c ≠ 0) ||
  (king_attacks_bb sq &&& pos.kings c ≠ 0) ||
  (bishop_attacks_bb sq occ &&& pos.bishops_and_queens c ≠ 0) ||
  (rook_attacks_bb sq occ &&& pos.rooks_and_queens c ≠ 0)

/-- Modelled from the spec: square_is_attacked over the full occupancy. -/
def Position.square_is_attacked (pos : Position) (sq : Nat) (c : Color) : Bool :=
  attackedWithOcc pos c sq pos.occupied_squares

/-- Modelled from the spec: the bitboard of enemy pieces attacking the king
of the side to move. -/
def Position.checkers (pos : Position) : Nat :=
  bbOfPred (fun s =>
    (pos.board s).map Prod.fst = some (opposite_color pos.stm) &&
    pos.piece_attacks_square s (pos.king_square pos.stm))

def Position.is_check (pos : Position) : Bool := pos.checkers ≠ 0

/-- Modelled from the spec: pinned_pieces us, the own pieces that, if moved
off their pin ray, would expose the own king: an enemy slider is aligned
with the king in one of its movement directions and the moved piece is the
only piece in between. -/
def Position.pinned_pieces (pos : Position) (us : Color) : Nat :=
  bbOfPred (fun s =>
    let them := opposite_color us
    let ksq := pos.king_square us
    (pos.board s).map Prod.fst = some us &&
    (List.range 64).any (fun x =>
      ((pos.bishops_and_queens them).testBit x && diagAligned x ksq ||
       (pos.rooks_and_queens them).testBit x && rookAligned x ksq) &&
      squares_between x ksq &&& pos.occupied_squares = 1 <<< s))

/-- Modelled from the spec: discovered_check_candidates us, the own pieces
whose departure from their line to the enemy king would discover a check
by an own slider. -/
def Position.discovered_check_candidates (pos : Position) (us : Color) : Nat :=
  bbOfPred (fun s =>
    let ksq := pos.king_square (opposite_color us)
    (pos.board s).map Prod.fst = some us &&
    (List.range 64).any (fun x =>
      ((pos.bishops_and_queens us).testBit x && diagAligned x ksq ||
       (pos.rooks_and_queens us).testBit x && rookAligned x ksq) &&
      squares_between x ksq &&& pos.occupied_squares = 1 <<< s))

/-- Modelled from the spec (section 4.9): move_is_legal m pinned.  A move
is legal iff it is a king move whose destination is not attacked with the
king removed from the occupancy, or an en passant move whose combined
double removal does not expose the king to a bishop or rook ray, or
otherwise a move of a piece that is not pinned or stays on the line
through its square and the king square. -/
def Position.move_is_legal (pos : Position) (m : Move) (pinned : Nat) : Bool :=
  let us := pos.stm
  let them := opposite_color us
  let ksq := pos.king_square us
  if m.kind = MoveKind.ep then
    let capsq := if us = Color.white then m.mto - 8 else m.mto + 8
    let occ2 := clear_bit (clear_bit pos.occupied_squares m.mfrom) capsq
    (bishop_attacks_bb ksq occ2 &&& pos.bishops_and_queens them = 0) &&
    (rook_attacks_bb ksq occ2 &&& pos.rooks_and_queens them = 0)
  else if pos.board m.mfrom = some (us, PieceType.king) then
    !(attackedWithOcc pos them m.mto (clear_bit pos.occupied_squares ksq))
  else
    !(pinned.testBit m.mfrom) ||
    (fi m.mto - fi m.mfrom) * (ri ksq - ri m.mfrom) =
      (ri m.mto - ri m.mfrom) * (fi ksq - fi m.mfrom)

/-- The one argument form computes the pin set itself. -/
def Position.move_is_legal1 (pos : Position) (m : Move) : Bool :=
  pos.move_is_legal m (pos.pinned_pieces pos.stm)

/-! The generator functions, embedded from src/src/movegen.cpp.  Each
MoveStack writing loop becomes a List of moves in emission order. -/

/-- Embeds generate_white_pawn_captures (movegen.cpp lines 776-836). -/
def generate_white_pawn_captures (pos : Position) : List Move :=
  let pawns := pos.pawns Color.white
  let enemyPieces := pos.pieces_of_color Color.black
  let b1a := shl 9 pawns &&& bnot FileABB &&& enemyPieces
  let b1b := shl 7 pawns &&& bnot FileHBB &&& enemyPieces
  (bbSquares (b1a &&& Rank8BB)).map (fun sq => make_promotion_move (sq - 9) sq PieceType.queen)
  ++ (bbSquares (b1a &&& bnot Rank8BB)).map (fun sq => make_move (sq - 9) sq)
  ++ (bbSquares (b1b &&& Rank8BB)).map (fun sq => make_promotion_move (sq - 7) sq PieceType.queen)
  ++ (bbSquares (b1b &&& bnot Rank8BB)).map (fun sq => make_move (sq - 7) sq)
  ++ (bbSquares (shl 8 pawns &&& pos.empty_squares &&& Rank8BB)).map
       (fun sq => make_promotion_move (sq - 8) sq PieceType.queen)
  ++ (match pos.ep_square with
      | some ep => (bbSquares (pawns &&& black_pawn_attacks_bb ep)).map
          (fun sq => make_ep_move sq ep)
      | none => [])

/-- Embeds generate_black_pawn_captures (movegen.cpp lines 839-899). -/
def generate_black_pawn_captures (pos : Position) : List Move :=
  let pawns := pos.pawns Color.black
  let enemyPieces := pos.pieces_of_color Color.white
  let b1a := shr 7 pawns &&& bnot FileABB &&& enemyPieces
  let b1b := shr 9 pawns &&& bnot FileHBB &&& enemyPieces
  (bbSquares (b1a &&& Rank1BB)).map (fun sq => make_promotion_move (sq + 7) sq PieceType.queen)
  ++ (bbSquares (b1a &&& bnot Rank1BB)).map (fun sq => make_move (sq + 7) sq)
  ++ (bbSquares (b1b &&& Rank1BB)).map (fun sq => make_promotion_move (sq + 9) sq PieceType.queen)
  ++ (bbSquares (b1b &&& bnot Rank1BB)).map (fun sq => make_move (sq + 9) sq)
  ++ (bbSquares (shr 8 pawns &&& pos.empty_squares &&& Rank1BB)).map
       (fun sq => make_promotion_move (sq + 8) sq PieceType.queen)
  ++ (match pos.ep_square with
      | some ep => (bbSquares (pawns &&& white_pawn_attacks_bb ep)).map
          (fun sq => make_ep_move sq ep)
      | none => [])

/-- Embeds generate_white_pawn_noncaptures (movegen.cpp lines 902-951). -/
def generate_white_pawn_noncaptures (pos : Position) : List Move :=
  let pawns := pos.pawns Color.white
  let enemyPieces := pos.pieces_of_color Color.black
  let emptySquares := pos.empty_squares
  let b1 := shl 8 pawns &&& emptySquares
  (bbSquares (shl 9 pawns &&& bnot FileABB &&& enemyPieces &&& Rank8BB)).flatMap
    (fun sq => [make_promotion_move (sq - 9) sq PieceType.rook,
                make_promotion_move (sq - 9) sq PieceType.bishop,
                make_promotion_move (sq - 9) sq PieceType.knight])
  ++ (bbSquares (shl 7 pawns &&& bnot FileHBB &&& enemyPieces &&& Rank8BB)).flatMap
    (fun sq => [make_promotion_move (sq - 7) sq PieceType.rook,
                make_promotion_move (sq - 7) sq PieceType.bishop,
                make_promotion_move (sq - 7) sq PieceType.knight])
  ++ (bbSquares (b1 &&& Rank8BB)).flatMap
    (fun sq => [make_promotion_move (sq - 8) sq PieceType.rook,
                make_promotion_move (sq - 8) sq PieceType.bishop,
                make_promotion_move (sq - 8) sq PieceType.knight])
  ++ (bbSquares (b1 &&& bnot Rank8BB)).map (fun sq => make_move (sq - 8) sq)
  ++ (bbSquares (shl 8 (b1 &&& Rank3BB) &&& emptySquares)).map
       (fun sq => make_move (sq - 16) sq)

/-- Embeds generate_black_pawn_noncaptures (movegen.cpp lines 954-1003). -/
def generate_black_pawn_noncaptures (pos : Position) : List Move :=
  let pawns := pos.pawns Color.black
  let enemyPieces := pos.pieces_of_color Color.white
  let emptySquares := pos.empty_squares
  let b1 := shr 8 pawns &&& emptySquares
  (bbSquares (shr 7 pawns &&& bnot FileABB &&& enemyPieces &&& Rank1BB)).flatMap
    (fun sq => [make_promotion_move (sq + 7) sq PieceType.rook,
                make_promotion_move (sq + 7) sq PieceType.bishop,
                make_promotion_move (sq + 7) sq PieceType.knight])
  ++ (bbSquares (shr 9 pawns &&& bnot FileHBB &&& enemyPieces &&& Rank1BB)).flatMap
    (fun sq => [make_promotion_move (sq + 9) sq PieceType.rook,
                make_promotion_move (sq + 9) sq PieceType.bishop,
                make_promotion_move (sq + 9) sq PieceType.knight])
  ++ (bbSquares (b1 &&& Rank1BB)).flatMap
    (fun sq => [make_promotion_move (sq + 8) sq PieceType.rook,
                make_promotion_move (sq + 8) sq PieceType.bishop,
                make_promotion_move (sq + 8) sq PieceType.knight])
  ++ (bbSquares (b1 &&& bnot Rank1BB)).map (fun sq => make_move (sq + 8) sq)
  ++ (bbSquares (shr 8 (b1 &&& Rank6BB) &&& emptySquares)).map
       (fun sq => make_move (sq + 16) sq)

/-- Embeds generate_piece_moves (movegen.cpp lines 1005-1024): for each
piece of the given type from the piece list, attacks intersected with the
target bitboard. -/
def generate_piece_moves (piece : PieceType) (pos : Position) (side : Color)
    (target : Nat) : List Move :=
  (pos.piece_squares side piece).flatMap (fun f =>
    (bbSquares (pos.piece_attacks_of piece f &&& target)).map (fun t => make_move f t))

/-- Embeds generate_king_moves (movegen.cpp lines 1027-1039). -/
def generate_king_moves (pos : Position) (f : Nat) (target : Nat) : List Move :=
  (bbSquares (pos.king_attacks f &&& target)).map (fun t => make_move f t)

/-- Closed interval of squares, the loop for s from lo to hi of the castle
checks in the source. -/
def sqInterval (a b : Nat) : List Nat := List.range' (min a b) (max a b + 1 - min a b)

/-- The kingside illegal flag of generate_castle_moves (movegen.cpp lines
1059-1065): a square of the king path is occupied by a third piece or
attacked, or a square of the rook path is occupied by a third piece. -/
def castle_kingside_illegal (pos : Position) (us : Color) : Bool :=
  let them := opposite_color us
  let ksq := pos.king_square us
  let rsq := pos.initial_kr_square us
  ((sqInterval ksq (relative_square us 6)).any (fun s =>
    (s ≠ ksq && s ≠ rsq && pos.square_is_occupied s) ||
    pos.square_is_attacked s them)) ||
  ((sqInterval rsq (relative_square us 5)).any (fun s =>
    s ≠ ksq && s ≠ rsq && pos.square_is_occupied s))

/-- The queenside illegal flag of generate_castle_moves (movegen.cpp lines
1080-1090), including the b file corner rule: when the rook file is the b
file, the relative a1 square must not hold an enemy rook or queen. -/
def castle_queenside_illegal (pos : Position) (us : Color) : Bool :=
  let them := opposite_color us
  let ksq := pos.king_square us
  let rsq := pos.initial_qr_square us
  ((sqInterval ksq (relative_square us 2)).any (fun s =>
    (s ≠ ksq && s ≠ rsq && pos.square_is_occupied s) ||
    pos.square_is_attacked s them)) ||
  ((sqInterval rsq (relative_square us 3)).any (fun s =>
    s ≠ ksq && s ≠ rsq && pos.square_is_occupied s)) ||
  (square_file rsq = 1 &&
    ((pos.board (relative_square us 0) = some (them, PieceType.rook)) ||
     (pos.board (relative_square us 0) = some (them, PieceType.queen))))

/-- Embeds generate_castle_moves (movegen.cpp lines 1042-1098). -/
def generate_castle_moves (pos : Position) (us : Color) : List Move :=
  if pos.can_castle us then
    (if pos.can_castle_kingside us && !castle_kingside_illegal pos us then
      [make_castle_move (pos.king_square us) (pos.initial_kr_square us)] else [])
    ++ (if pos.can_castle_queenside us && !castle_queenside_illegal pos us then
      [make_castle_move (pos.king_square us) (pos.initial_qr_square us)] else [])
  else []

/-- Embeds generate_captures (movegen.cpp lines 54-73). -/
def generate_captures (pos : Position) : List Move :=
  let us := pos.side_to_move
  let target := pos.pieces_of_color (opposite_color us)
  (if us = Color.white then generate_white_pawn_captures pos
   else generate_black_pawn_captures pos)
  ++ generate_piece_moves PieceType.knight pos us target
  ++ generate_piece_moves PieceType.bishop pos us target
  ++ generate_piece_moves PieceType.rook pos us target
  ++ generate_piece_moves PieceType.queen pos us target
  ++ generate_king_moves pos (pos.king_square us) target

/-- Embeds generate_noncaptures (movegen.cpp lines 79-99). -/
def generate_noncaptures (pos : Position) : List Move :=
  let us := pos.side_to_move
  let target := pos.empty_squares
  (if us = Color.white then generate_white_pawn_noncaptures pos
   else generate_black_pawn_noncaptures pos)
  ++ generate_piece_moves PieceType.knight pos us target
  ++ generate_piece_moves PieceType.bishop pos us target
  ++ generate_piece_moves PieceType.rook pos us target
  ++ generate_piece_moves PieceType.queen pos us target
  ++ generate_king_moves pos (pos.king_square us) target
  ++ generate_castle_moves pos us

/-- Embeds generate_checks (movegen.cpp lines 106-326).  The dc parameter
is overwritten with discovered_check_candidates before any use, exactly as
in the source (line 122). -/
def generate_checks (pos : Position) (_dc : Nat) : List Move :=
  let us := pos.side_to_move
  let them := opposite_color us
  let ksq := pos.king_square them
  let dc := pos.discovered_check_candidates us
  let emptyBB := pos.empty_squares
  let pawnMoves :=
    if us = Color.white then
      let b1 := pos.pawns us &&& bnot (file_bb ksq)
      let b2 := shl 8 (b1 &&& dc) &&& bnot Rank8BB &&& emptyBB
      let b1d := b1 &&& bnot dc &&& neighboring_files_bb ksq
      let b2d := shl 8 b1d &&& emptyBB
      (bbSquares b2).map (fun t => make_move (t - 8) t)
      ++ (bbSquares (shl 8 (b2 &&& Rank3BB) &&& emptyBB)).map (fun t => make_move (t - 16) t)
      ++ (bbSquares (b2d &&& black_pawn_attacks_bb ksq)).map (fun t => make_move (t - 8) t)
      ++ (bbSquares (shl 8 (b2d &&& Rank3BB) &&& emptyBB &&& black_pawn_attacks_bb ksq)).map
           (fun t => make_move (t - 16) t)
    else
      let b1 := pos.pawns us &&& bnot (file_bb ksq)
      let b2 := shr 8 (b1 &&& dc) &&& bnot Rank1BB &&& emptyBB
      let b1d := b1 &&& bnot dc &&& neighboring_files_bb ksq
      let b2d := shr 8 b1d &&& emptyBB
      (bbSquares b2).map (fun t => make_move (t + 8) t)
      ++ (bbSquares (shr 8 (b2 &&& Rank6BB) &&& emptyBB)).map (fun t => make_move (t + 16) t)
      ++ (bbSquares (b2d &&& white_pawn_attacks_bb ksq)).map (fun t => make_move (t + 8) t)
      ++ (bbSquares (shr 8 (b2d &&& Rank6BB) &&& emptyBB &&& black_pawn_attacks_bb ksq)).map
           (fun t => make_move (t + 16) t)
  let knightMoves :=
    let b1 := pos.knights us
    (bbSquares (b1 &&& dc)).flatMap (fun f =>
      (bbSquares (pos.knight_attacks f &&& emptyBB)).map (fun t => make_move f t))
    ++ (bbSquares (b1 &&& bnot dc)).flatMap (fun f =>
      (bbSquares (pos.knight_attacks f &&& (pos.knight_attacks ksq &&& emptyBB))).map
        (fun t => make_move f t))
  let bishopMoves :=
    let b1 := pos.bishops us
    (bbSquares (b1 &&& dc)).flatMap (fun f =>
      (bbSquares (pos.bishop_attacks f &&& emptyBB)).map (fun t => make_move f t))
    ++ (bbSquares (b1 &&& bnot dc)).flatMap (fun f =>
      (bbSquares (pos.bishop_attacks f &&& (pos.bishop_attacks ksq &&& emptyBB))).map
        (fun t => make_move f t))
  let rookMoves :=
    let b1 := pos.rooks us
    (bbSquares (b1 &&& dc)).flatMap (fun f =>
      (bbSquares (pos.rook_attacks f &&& emptyBB)).map (fun t => make_move f t))
    ++ (bbSquares (b1 &&& bnot dc)).flatMap (fun f =>
      (bbSquares (pos.rook_attacks f &&& (pos.rook_attacks ksq &&& emptyBB))).map
        (fun t => make_move f t))
  let queenMoves :=
    (bbSquares (pos.queens us)).flatMap (fun f =>
      (bbSquares (pos.queen_attacks f &&& (pos.queen_attacks ksq &&& emptyBB))).map
        (fun t => make_move f t))
  let kingMoves :=
    let f := pos.king_square us
    if bit_is_set dc f then
      (bbSquares (pos.king_attacks f &&& emptyBB &&& bnot (QueenPseudoAttacks ksq))).map
        (fun t => make_move f t)
    else []
  pawnMoves ++ knightMoves ++ bishopMoves ++ rookMoves ++ queenMoves ++ kingMoves

/-- The safety test of a king evasion destination (movegen.cpp lines
363-368): the destination must not be attacked by the other side, over
the occupancy with the own king removed. -/
def evasion_safe (pos : Position) (t : Nat) : Bool :=
  let us := pos.side_to_move
  let them := opposite_color us
  let occNoKing := clear_bit pos.occupied_squares (pos.king_square us)
  (pos.pawn_attacks us t &&& pos.pawns them = 0) &&
  (pos.knight_attacks t &&& pos.knights them = 0) &&
  (pos.king_attacks t &&& pos.kings them = 0) &&
  (bishop_attacks_bb t occNoKing &&& pos.bishops_and_queens them = 0) &&
  (rook_attacks_bb t occNoKing &&& pos.rooks_and_queens them = 0)

/-- The king evasion loop of generate_evasions (movegen.cpp lines 351-370). -/
def evasion_king_moves (pos : Position) : List Move :=
  let ksq := pos.king_square pos.side_to_move
  (bbSquares (pos.king_attacks ksq &&& bnot (pos.pieces_of_color pos.side_to_move))).filterMap
    (fun t => if evasion_safe pos t then some (make_move ksq t) else none)

/-- The capture the checker loops of generate_evasions (movegen.cpp lines
383-420). -/
def evasion_captures (pos : Position) (checksq pinned : Nat) : List Move :=
  let us := pos.side_to_move
  let them := opposite_color us
  (bbSquares (pos.pawn_attacks them checksq &&& pos.pawns us &&& bnot pinned)).flatMap
    (fun f =>
      if relative_rank us checksq = 7 then
        [make_promotion_move f checksq PieceType.queen,
         make_promotion_move f checksq PieceType.rook,
         make_promotion_move f checksq PieceType.bishop,
         make_promotion_move f checksq PieceType.knight]
      else [make_move f checksq])
  ++ (bbSquares (pos.knight_attacks checksq &&& pos.knights us &&& bnot pinned)).map
       (fun f => make_move f checksq)
  ++ (bbSquares (pos.bishop_attacks checksq &&& pos.bishops_and_queens us &&& bnot pinned)).map
       (fun f => make_move f checksq)
  ++ (bbSquares (pos.rook_attacks checksq &&& pos.rooks_and_queens us &&& bnot pinned)).map
       (fun f => make_move f checksq)

/-- The blocking evasion loops of generate_evasions (movegen.cpp lines
424-531), entered only when the checker is a slider. -/
def evasion_blocks (pos : Position) (checksq pinned : Nat) : List Move :=
  let us := pos.side_to_move
  let ksq := pos.king_square us
  if pos.checkers &&& pos.sliders ≠ 0 then
    let blockSquares := squares_between checksq ksq
    let pawnBlocks :=
      if us = Color.white then
        let b1 := pos.pawns Color.white &&& bnot pinned
        (bbSquares (shl 8 b1 &&& blockSquares)).flatMap (fun t =>
          if square_rank t = 7 then
            [make_promotion_move (t - 8) t PieceType.queen,
             make_promotion_move (t - 8) t PieceType.rook,
             make_promotion_move (t - 8) t PieceType.bishop,
             make_promotion_move (t - 8) t PieceType.knight]
          else [make_move (t - 8) t])
        ++ (bbSquares (shl 8 (shl 8 b1 &&& pos.empty_squares &&& Rank3BB) &&& blockSquares)).map
             (fun t => make_move (t - 16) t)
      else
        let b1 := pos.pawns Color.black &&& bnot pinned
        (bbSquares (shr 8 b1 &&& blockSquares)).flatMap (fun t =>
          if square_rank t = 0 then
            [make_promotion_move (t + 8) t PieceType.queen,
             make_promotion_move (t + 8) t PieceType.rook,
             make_promotion_move (t + 8) t PieceType.bishop,
             make_promotion_move (t + 8) t PieceType.knight]
          else [make_move (t + 8) t])
        ++ (bbSquares (shr 8 (shr 8 b1 &&& pos.empty_squares &&& Rank6BB) &&& blockSquares)).map
             (fun t => make_move (t + 16) t)
    pawnBlocks
    ++ (bbSquares (pos.knights us &&& bnot pinned)).flatMap (fun f =>
         (bbSquares (pos.knight_attacks f &&& blockSquares)).map (fun t => make_move f t))
    ++ (bbSquares (pos.bishops us &&& bnot pinned)).flatMap (fun f =>
         (bbSquares (pos.bishop_attacks f &&& blockSquares)).map (fun t => make_move f t))
    ++ (bbSquares (pos.rooks us &&& bnot pinned)).flatMap (fun f =>
         (bbSquares (pos.rook_attacks f &&& blockSquares)).map (fun t => make_move f t))
    ++ (bbSquares (pos.queens us &&& bnot pinned)).flatMap (fun f =>
         (bbSquares (pos.queen_attacks f &&& blockSquares)).map (fun t => make_move f t))
  else []

/-- The safety test of an en passant evasion (movegen.cpp lines 551-557):
remove the capturing pawn and the checking pawn from the occupancy and
verify no bishop or rook ray from the own king square reaches an enemy
slider. -/
def evasion_ep_safe (pos : Position) (checksq f : Nat) : Bool :=
  let them := opposite_color pos.side_to_move
  let ksq := pos.king_square pos.side_to_move
  let occ2 := clear_bit (clear_bit pos.occupied_squares f) checksq
  (bishop_attacks_bb ksq occ2 &&& pos.bishops_and_queens them = 0) &&
  (rook_attacks_bb ksq occ2 &&& pos.rooks_and_queens them = 0)

/-- The en passant evasion loop of generate_evasions (movegen.cpp lines
538-560). -/
def evasion_ep (pos : Position) (checksq pinned : Nat) : List Move :=
  let us := pos.side_to_move
  let them := opposite_color us
  match pos.ep_square with
  | some ep =>
    if pos.checkers &&& pos.pawns them ≠ 0 then
      (bbSquares (pos.pawn_attacks them ep &&& pos.pawns us &&& bnot pinned)).filterMap
        (fun f => if evasion_ep_safe pos checksq f then some (make_ep_move f ep) else none)
    else []
  | none => []

/-- Embeds generate_evasions (movegen.cpp lines 334-564). -/
def generate_evasions (pos : Position) : List Move :=
  let checkersBB := pos.checkers
  evasion_king_moves pos ++
  (if checkersBB &&& (checkersBB - 1) = 0 then
    let checksq := first_1 checkersBB
    let pinned := pos.pinned_pieces pos.side_to_move
    evasion_captures pos checksq pinned
    ++ evasion_blocks pos checksq pinned
    ++ evasion_ep pos checksq pinned
  else [])

/-- Recursion core of the in place compaction loop, with a fuel argument
that makes the recursion structural; the fuel is always the list length. -/
def swapCompactAux (legal : Move → Bool) : Nat → List Move → List Move
  | _, [] => []
  | 0, _ :: _ => []
  | fuel + 1, x :: xs =>
    if legal x then x :: swapCompactAux legal fuel xs
    else if h : xs = [] then []
    else swapCompactAux legal fuel (xs.getLast h :: xs.dropLast)

/-- Embeds the in place compaction loop of generate_legal_moves (movegen.cpp
lines 587-589): an illegal entry is overwritten with the final entry of the
buffer and re-examined, shrinking the buffer by one. -/
def swapCompact (legal : Move → Bool) (l : List Move) : List Move :=
  swapCompactAux legal l.length l

/-- Embeds generate_legal_moves (movegen.cpp lines 573-592). -/
def generate_legal_moves (pos : Position) : List Move :=
  if pos.is_check then generate_evasions pos
  else
    let pinned := pos.pinned_pieces pos.side_to_move
    swapCompact (fun m => pos.move_is_legal m pinned)
      (generate_captures pos ++ generate_noncaptures pos)

/-- The short castle illegal flag of generate_move_if_legal (movegen.cpp
lines 648-664), over the from and to squares of the probed move. -/
def probe_short_castle_illegal (pos : Position) (f t : Nat) : Bool :=
  let us := pos.side_to_move
  let them := opposite_color us
  ((sqInterval f (relative_square us 6)).any (fun s =>
    (s ≠ f && s ≠ t && !(pos.square_is_empty s)) ||
    pos.square_is_attacked s them)) ||
  ((sqInterval t (relative_square us 5)).any (fun s =>
    s ≠ f && s ≠ t && !(pos.square_is_empty s)))

/-- The long castle illegal flag of generate_move_if_legal (movegen.cpp
lines 681-698), including the b file corner rule on the square one file
west of the to square. -/
def probe_long_castle_illegal (pos : Position) (f t : Nat) : Bool :=
  let us := pos.side_to_move
  let them := opposite_color us
  ((sqInterval f (relative_square us 2)).any (fun s =>
    (s ≠ f && s ≠ t && !(pos.square_is_empty s)) ||
    pos.square_is_attacked s them)) ||
  ((sqInterval t (relative_square us 3)).any (fun s =>
    s ≠ f && s ≠ t && !(pos.square_is_empty s))) ||
  (square_file t = 1 &&
    ((pos.board (t - 1) = some (them, PieceType.rook)) ||
     (pos.board (t - 1) = some (them, PieceType.queen))))

/-- Embeds generate_move_if_legal (movegen.cpp lines 601-771).  The
MOVE_NONE sentinel is Option.none.  The pinned parameter of the source is
never read: every legality test in the body calls the one argument
pos.move_is_legal(m), which recomputes the pin set. -/
def generate_move_if_legal (pos : Position) (m : Move) (_pinned : Nat) : Option Move :=
  let us := pos.side_to_move
  let them := opposite_color us
  let f := m.mfrom
  if (pos.board f).map Prod.fst ≠ some us then none
  else
    let t := m.mto
    if move_is_ep m then
      if ((pos.board f).map Prod.snd ≠ some PieceType.pawn) ||
         (pos.ep_square ≠ some t) then none
      else if pos.move_is_legal1 m then some m else none
    else if move_is_short_castle m then
      if ((pos.board f).map Prod.snd ≠ some PieceType.king) ||
         !(pos.can_castle_kingside us) then none
      else if !(probe_short_castle_illegal pos f t) then some m else none
    else if move_is_long_castle m then
      if ((pos.board f).map Prod.snd ≠ some PieceType.king) ||
         !(pos.can_castle_queenside us) then none
      else if !(probe_long_castle_illegal pos f t) then some m else none
    else if pos.color_of_piece_on t = some us then none
    else if (pos.board f).map Prod.snd = some PieceType.pawn then
      if ((square_rank t = 7 && us = Color.white) ||
          (square_rank t = 0 && us ≠ Color.white)) && !(move_promotion m) then none
      else
        let d : Int := (t : Int) - (f : Int)
        if d = 7 || d = 9 || d = -9 || d = -7 then
          if pos.color_of_piece_on t ≠ some them then none
          else if pos.move_is_legal1 m then some m else none
        else if d = 8 || d = -8 then
          if !(pos.square_is_empty t) then none
          else if pos.move_is_legal1 m then some m else none
        else if d = 16 then
          if square_rank t ≠ 3 || !(pos.square_is_empty t) ||
             !(pos.square_is_empty (f + 8)) then none
          else if pos.move_is_legal1 m then some m else none
        else if d = -16 then
          if square_rank t ≠ 4 || !(pos.square_is_empty t) ||
             !(pos.square_is_empty (f - 8)) then none
          else if pos.move_is_legal1 m then some m else none
        else none
    else
      if pos.piece_attacks_square f t && pos.move_is_legal1 m && !(move_promotion m)
      then some m else none

/-- Modelled from the spec: the part of the well-formedness contract
pos.is_ok that the theorems below consume: each side has exactly one
king on the board. -/
def Position.is_ok (pos : Position) : Bool :=
  ((List.range 64).countP (fun s => pos.board s = some (Color.white, PieceType.king)) = 1) &&
  ((List.range 64).countP (fun s => pos.board s = some (Color.black, PieceType.king)) = 1)

/-! Concrete positions used as witnesses and failing inputs below. -/

/-- Black to move, black pawn a3, black king h8, white king h1. -/
def posBackPawn : Position :=
  ⟨(fun s => if s = 16 then some (Color.black, PieceType.pawn)
             else if s = 63 then some (Color.black, PieceType.king)
             else if s = 7 then some (Color.white, PieceType.king)
             else none),
   Color.black, none, false, false, false, false,
   (fun c => relative_square c 7), (fun c => relative_square c 0)⟩

/-- Black to move, black pawn d7, white king c6, black king h8. -/
def posDoublePush : Position :=
  ⟨(fun s => if s = 51 then some (Color.black, PieceType.pawn)
             else if s = 42 then some (Color.white, PieceType.king)
             else if s = 63 then some (Color.black, PieceType.king)
             else none),
   Color.black, none, false, false, false, false,
   (fun c => relative_square c 7), (fun c => relative_square c 0)⟩

/-- White to move, white pawn e2, white king h1, black king a8. -/
def posMidPawn : Position :=
  ⟨(fun s => if s = 12 then some (Color.white, PieceType.pawn)
             else if s = 7 then some (Color.white, PieceType.king)
             else if s = 56 then some (Color.black, PieceType.king)
             else none),
   Color.white, none, false, false, false, false,
   (fun c => relative_square c 7), (fun c => relative_square c 0)⟩

/-- White to move and in check: white king e1, black rook e8, black king a8. -/
def posRookCheck : Position :=
  ⟨(fun s => if s = 4 then some (Color.white, PieceType.king)
             else if s = 60 then some (Color.black, PieceType.rook)
             else if s = 56 then some (Color.black, PieceType.king)
             else none),
   Color.white, none, false, false, false, false,
   (fun c => relative_square c 7), (fun c => relative_square c 0)⟩

/-- White to move, in check from the just double pushed black pawn d5,
with the white pawn e5 able to capture en passant on d6: white king e4,
white pawn e5, black pawn d5, black king a8, ep square d6. -/
def posEpEvasion : Position :=
  ⟨(fun s => if s = 28 then some (Color.white, PieceType.king)
             else if s = 36 then some (Color.white, PieceType.pawn)
             else if s = 35 then some (Color.black, PieceType.pawn)
             else if s = 56 then some (Color.black, PieceType.king)
             else none),
   Color.white, some 43, false, false, false, false,
   (fun c => relative_square c 7), (fun c => relative_square c 0)⟩

/-- White to move with queenside castling rights in a Chess960 style setup
whose queenside rook starts on b1: white king e1, white rook b1, black
king h8. -/
def posCastleB : Position :=
  ⟨(fun s => if s = 4 then some (Color.white, PieceType.king)
             else if s = 1 then some (Color.white, PieceType.rook)
             else if s = 63 then some (Color.black, PieceType.king)
             else none),
   Color.white, none, false, true, false, false,
   (fun c => relative_square c 7), (fun _ => 1)⟩

/-- A second definition, following the words of the spec rather than the
source: a pseudo-legal move (glossary and testable property 8.3) satisfies
the piece movement rules of chess and the basic target constraints, but
may leave the own king in check; castles follow the conditions of section
4.4, promotions are required exactly on the last rank, en passant requires
the capturing pawn to attack the en passant square.  The theorems below
compare it with the generated move lists. -/
def pseudo_legal (pos : Position) (m : Move) : Bool :=
  match pos.board m.mfrom with
  | none => false
  | some (c, pt) =>
    c = pos.side_to_move && decide (m.mfrom < 64) &&
    match m.kind with
    | MoveKind.normal =>
      decide (m.mto < 64) &&
      (match pt with
       | PieceType.pawn =>
         (match c with
          | Color.white =>
            (m.mto = m.mfrom + 8 && pos.square_is_empty m.mto && square_rank m.mto ≠ 7) ||
            (m.mto = m.mfrom + 16 && square_rank m.mfrom = 1 &&
              pos.square_is_empty (m.mfrom + 8) && pos.square_is_empty m.mto) ||
            (wPawnStep m.mfrom m.mto && pos.color_of_piece_on m.mto = some Color.black &&
              square_rank m.mto ≠ 7)
          | Color.black =>
            (m.mto + 8 = m.mfrom && pos.square_is_empty m.mto && square_rank m.mto ≠ 0) ||
            (m.mto + 16 = m.mfrom && square_rank m.mfrom = 6 &&
              pos.square_is_empty (m.mto + 8) && pos.square_is_empty m.mto) ||
            (bPawnStep m.mfrom m.mto && pos.color_of_piece_on m.mto = some Color.white &&
              square_rank m.mto ≠ 0))
       | PieceType.knight =>
         knightStep m.mfrom m.mto && !(pos.color_of_piece_on m.mto = some c)
       | PieceType.bishop =>
         (bishop_attacks_bb m.mfrom pos.occupied_squares).testBit m.mto &&
         !(pos.color_of_piece_on m.mto = some c)
       | PieceType.rook =>
         (rook_attacks_bb m.mfrom pos.occupied_squares).testBit m.mto &&
         !(pos.color_of_piece_on m.mto = some c)
       | PieceType.queen =>
         (queen_attacks_bb m.mfrom pos.occupied_squares).testBit m.mto &&
         !(pos.color_of_piece_on m.mto = some c)
       | PieceType.king =>
         kingStep m.mfrom m.mto && !(pos.color_of_piece_on m.mto = some c))
    | MoveKind.promo p =>
      (pt = PieceType.pawn : Bool) && decide (m.mto < 64) &&
      (p = PieceType.queen || p = PieceType.rook || p = PieceType.bishop ||
        p = PieceType.knight) &&
      (match c with
       | Color.white =>
         (square_rank m.mto = 7 : Bool) &&
         ((m.mto = m.mfrom + 8 && pos.square_is_empty m.mto) ||
          (wPawnStep m.mfrom m.mto && pos.color_of_piece_on m.mto = some Color.black))
       | Color.black =>
         (square_rank m.mto = 0 : Bool) &&
         ((m.mto + 8 = m.mfrom && pos.square_is_empty m.mto) ||
          (bPawnStep m.mfrom m.mto && pos.color_of_piece_on m.mto = some Color.white)))
    | MoveKind.ep =>
      (pt = PieceType.pawn : Bool) && pos.ep_square = some m.mto &&
      pawnStep c m.mfrom m.mto
    | MoveKind.shortCastle =>
      (m.mfrom = pos.king_square c : Bool) && m.mto = pos.initial_kr_square c &&
      decide (m.mfrom < m.mto) && pos.can_castle_kingside c &&
      !(castle_kingside_illegal pos c)
    | MoveKind.longCastle =>
      (m.mfrom = pos.king_square c : Bool) && m.mto = pos.initial_qr_square c &&
      decide (m.mto < m.mfrom) && pos.can_castle_queenside c &&
      !(castle_queenside_illegal pos c)

/-! Theorems.  First the bitboard infrastructure lemmas. -/

/-- Modelled from the spec (sections 4.1-4.5): the board after executing a
move.  The moving piece leaves its from square; a normal move places it on
the to square, a promotion places the promotion piece instead, an en
passant capture also removes the captured pawn on the square behind the
target, and a castle places king and rook on their fixed home-relative
destination squares after clearing both encoded squares. -/
def board_after (pos : Position) (m : Move) : Nat → Option (Color × PieceType) :=
  let us := pos.side_to_move
  match m.kind with
  | MoveKind.normal => fun s =>
    if s = m.mfrom then none
    else if s = m.mto then pos.board m.mfrom
    else pos.board s
  | MoveKind.promo p => fun s =>
    if s = m.mfrom then none
    else if s = m.mto then some (us, p)
    else pos.board s
  | MoveKind.ep => fun s =>
    let cap := if us = Color.white then m.mto - 8 else m.mto + 8
    if s = m.mfrom then none
    else if s = cap then none
    else if s = m.mto then some (us, PieceType.pawn)
    else pos.board s
  | MoveKind.shortCastle => fun s =>
    let home := if us = Color.white then 0 else 56
    if s = home + 6 then some (us, PieceType.king)
    else if s = home + 5 then some (us, PieceType.rook)
    else if s = m.mfrom ∨ s = m.mto then none
    else pos.board s
  | MoveKind.longCastle => fun s =>
    let home := if us = Color.white then 0 else 56
    if s = home + 2 then some (us, PieceType.king)
    else if s = home + 3 then some (us, PieceType.rook)
    else if s = m.mfrom ∨ s = m.mto then none
    else pos.board s

/-- Modelled from the spec: the position after executing a move: the board
is updated, the side to move flips, the en passant square is set by a pawn
double push and cleared otherwise.  The check and attack queries read only
the board, so the castling bookkeeping is carried over unchanged. -/
def position_after (pos : Position) (m : Move) : Position :=
  { pos with
    board := board_after pos m,
    stm := opposite_color pos.side_to_move,
    epSq :=
      match m.kind with
      | MoveKind.normal =>
        if (pos.board m.mfrom).map Prod.snd = some PieceType.pawn ∧
            (m.mto = m.mfrom + 16 ∨ m.mfrom = m.mto + 16) then
          some (min m.mfrom m.mto + 8)
        else none
      | _ => none }


theorem testBit_foldOr (l : List Nat) (i : Nat) :
    (List.foldr (fun s acc => acc ||| (1 <<< s)) 0 l).testBit i = l.any (fun s => s == i) := by
  induction l with
  | nil => simp
  | cons a l ih =>
      simp only [List.foldr_cons, Nat.testBit_lor, ih, List.any_cons]
      rw [Nat.one_shiftLeft, Nat.testBit_two_pow]
      by_cases h : a = i <;> simp [h]

theorem testBit_bbOfPred (p : Nat → Bool) (i : Nat) :
    (bbOfPred p).testBit i = (decide (i < 64) && p i) := by
  rw [bbOfPred, testBit_foldOr, Bool.eq_iff_iff]
  simp only [List.any_eq_true, List.mem_filter, List.mem_range, beq_iff_eq,
    Bool.and_eq_true, decide_eq_true_eq]
  constructor
  · rintro ⟨s, ⟨hs, hp⟩, rfl⟩; exact ⟨hs, hp⟩
  · rintro ⟨hs, hp⟩; exact ⟨i, ⟨hs, hp⟩, rfl⟩

theorem testBit_bbOfPred_iff {p : Nat → Bool} {i : Nat} :
    (bbOfPred p).testBit i = true ↔ i < 64 ∧ p i = true := by
  rw [testBit_bbOfPred]
  simp

theorem mem_bbSquares {b : Nat} {i : Nat} :
    i ∈ bbSquares b ↔ i < 64 ∧ b.testBit i = true := by
  rw [bbSquares, List.mem_filter, List.mem_range]

theorem eq_zero_iff_testBit (n : Nat) : n = 0 ↔ ∀ i, n.testBit i = false := by
  constructor
  · rintro rfl i; exact Nat.zero_testBit i
  · intro h
    exact Nat.eq_of_testBit_eq (fun i => by rw [h, Nat.zero_testBit])

theorem testBit_mask64 (i : Nat) : mask64.testBit i = decide (i < 64) :=
  Nat.testBit_two_pow_sub_one 64 i

theorem testBit_one_shl (s i : Nat) : (1 <<< s).testBit i = decide (s = i) := by
  rw [Nat.one_shiftLeft, Nat.testBit_two_pow]

theorem testBit_bnot (b i : Nat) :
    (bnot b).testBit i = (decide (i < 64) && !(b.testBit i)) := by
  rw [bnot, Nat.testBit_xor, testBit_mask64, Nat.testBit_land, testBit_mask64]
  by_cases h : i < 64 <;> simp [h]

theorem testBit_shl (k b i : Nat) :
    (shl k b).testBit i = (decide (i < 64) && decide (k ≤ i) && b.testBit (i - k)) := by
  rw [shl, Nat.testBit_land, testBit_mask64, Nat.testBit_shiftLeft]
  by_cases h : i < 64 <;> by_cases hk : k ≤ i <;> simp [h, hk, ge_iff_le]

theorem testBit_shr (k b i : Nat) : (shr k b).testBit i = b.testBit (k + i) := by
  rw [shr, Nat.testBit_shiftRight]

theorem testBit_clear_bit (b s i : Nat) :
    (clear_bit b s).testBit i = (b.testBit i && decide (i < 64) && !(decide (s = i))) := by
  rw [clear_bit, Nat.testBit_land, testBit_bnot, testBit_one_shl]
  by_cases h : i < 64 <;> by_cases hs : s = i <;> simp [h, hs]

/-- C10: the output of generate_checks is independent of its dc argument:
the function overwrites the parameter with the discovered check candidates
of the position before any use, so two calls with different dc bitboards
return identical move lists. -/
theorem c10_checks_ignore_dc (pos : Position) (dc1 dc2 : Nat)
    (h : pos.is_check = false) :
    generate_checks pos dc1 = generate_checks pos dc2 := rfl

/-- Witness for c10_checks_ignore_dc at a concrete position. -/
theorem c10_checks_ignore_dc_witness :
    generate_checks posMidPawn 0 = generate_checks posMidPawn 987654321 :=
  c10_checks_ignore_dc posMidPawn 0 987654321 (by decide)

/-- C4 failing input: in the position with a black pawn on a3, black king
h8, white king h1 and black to move, the probe accepts the northward
(backwards) pawn move a3a4, because the pawn delta switch of
generate_move_if_legal is colour blind; the full legal move list does not
contain that move, refuting the stated equivalence.  This contradicts the
documented purpose of the probe, which is to return a move only when it
is legal. -/
theorem c4_probe_accepts_backward_pawn_push :
    generate_move_if_legal posBackPawn (make_move 16 24) 0 = some (make_move 16 24) ∧
    make_move 16 24 ∉ generate_legal_moves posBackPawn ∧
    posBackPawn.is_check = false ∧ posBackPawn.is_ok = true := by
  refine ⟨by decide, by decide, by decide, by decide⟩

/-- C5 failing input: black to move with a black pawn on d7, white king on
c6, black king on h8 (the side to move is not in check).  The black double
push branch of generate_checks intersects with the wrong pawn attack set
(black_pawn_attacks of the enemy king square instead of
white_pawn_attacks, movegen.cpp line 208), so d7d5 is emitted as a direct
check although d5 is not a square from which a black pawn attacks the
white king, and the move gives no check at all. -/
theorem c5_black_double_push_wrong_checkset :
    make_move 51 35 ∈ generate_checks posDoublePush 0 ∧
    (white_pawn_attacks_bb (posDoublePush.king_square
      (opposite_color posDoublePush.side_to_move))).testBit 35 = false ∧
    pawnStep Color.black 35 (posDoublePush.king_square
      (opposite_color posDoublePush.side_to_move)) = false ∧
    posDoublePush.is_check = false ∧ posDoublePush.is_ok = true := by
  refine ⟨by decide, by decide, by decide, by decide, by decide⟩

/-- C6 failing input: white pawn e2, white king h1, black king a8, white
to move.  The probe only rejects a missing promotion flag on the last
rank (movegen.cpp lines 714-717); it never rejects a promotion flag on a
non last rank destination, so the promotion flagged push e2e3 is accepted
although the claim requires MOVE_NONE. -/
theorem c6_probe_accepts_midboard_promotion :
    generate_move_if_legal posMidPawn (make_promotion_move 12 20 PieceType.queen) 0 =
      some (make_promotion_move 12 20 PieceType.queen) ∧
    square_rank 20 ≠ 7 ∧
    posMidPawn.is_check = false ∧ posMidPawn.is_ok = true := by
  refine ⟨by decide, by decide, by decide, by decide⟩

/-- C7: with queenside castling rights and the queenside rook starting on
the relative b1 square, the queenside castle is emitted by
generate_castle_moves, and accepted by generate_move_if_legal, only if
the square one file left of the rook square of the move (the relative a1
square) does not hold an enemy rook or an enemy queen. -/
theorem c7_queenside_corner_rule (pos : Position) (us : Color)
    (hq : pos.can_castle_queenside us = true)
    (hb : pos.initial_qr_square us = relative_square us 1)
    (hkr : pos.initial_kr_square us ≠ pos.initial_qr_square us) :
    (make_castle_move (pos.king_square us) (pos.initial_qr_square us) ∈
        generate_castle_moves pos us →
      pos.board (relative_square us 0) ≠ some (opposite_color us, PieceType.rook) ∧
      pos.board (relative_square us 0) ≠ some (opposite_color us, PieceType.queen)) ∧
    (∀ (m : Move) (pinned : Nat), m.kind = MoveKind.longCastle →
      m.mto = pos.initial_qr_square us → pos.side_to_move = us →
      generate_move_if_legal pos m pinned = some m →
      pos.board (relative_square us 0) ≠ some (opposite_color us, PieceType.rook) ∧
      pos.board (relative_square us 0) ≠ some (opposite_color us, PieceType.queen)) := by
  have hfile : square_file (pos.initial_qr_square us) = 1 := by
    rw [hb]; cases us <;> decide
  constructor
  · intro hm
    unfold generate_castle_moves at hm
    by_cases hc : pos.can_castle us = true
    · rw [if_pos hc, List.mem_append] at hm
      have hq2 : ¬ castle_queenside_illegal pos us = true := by
        rcases hm with hm | hm
        · exfalso
          split at hm
          · simp only [List.mem_singleton] at hm
            exact hkr (congrArg Move.mto hm).symm
          · simp at hm
        · split at hm
          · rename_i hcond
            rw [Bool.and_eq_true, Bool.not_eq_true'] at hcond
            simp [hcond.2]
          · simp at hm
      unfold castle_queenside_illegal at hq2
      simp only [Bool.or_eq_true, not_or, Bool.and_eq_true, decide_eq_true_eq] at hq2
      have h3 := hq2.2
      rw [not_and] at h3
      have := h3 hfile
      exact ⟨fun hc2 => this (Or.inl hc2), fun hc2 => this (Or.inr hc2)⟩
    · rw [if_neg hc] at hm; simp at hm
  · intro m pinned hkind hto hstm hacc
    unfold generate_move_if_legal at hacc
    have hep : move_is_ep m = false := by
      rw [move_is_ep, hkind]; decide
    have hsc : move_is_short_castle m = false := by
      rw [move_is_short_castle, hkind]; decide
    have hlc : move_is_long_castle m = true := by
      rw [move_is_long_castle, hkind]; decide
    rw [hep, hsc, hlc] at hacc
    simp only [Bool.false_eq_true, if_false, if_true] at hacc
    split at hacc
    · exact absurd hacc (by simp)
    · split at hacc
      · exact absurd hacc (by simp)
      · rename_i hflag
        split at hacc
        · rename_i hnotil
          rw [Bool.not_eq_eq_eq_not, Bool.not_true] at hnotil
          unfold probe_long_castle_illegal at hnotil
          rw [hstm] at hnotil
          simp only [Bool.or_eq_false_iff, Bool.and_eq_false_iff, decide_eq_false_iff_not] at hnotil
          have h3 := hnotil.2
          have hfile2 : square_file m.mto = 1 := by rw [hto]; exact hfile
          rcases h3 with h3 | h3
          · exact absurd hfile2 h3
          · have ha1 : m.mto - 1 = relative_square us 0 := by
              rw [hto, hb]; cases us <;> decide
            rw [ha1] at h3
            constructor <;> intro hcontra <;> simp [hcontra] at h3
        · exact absurd hacc (by simp)

/-- Witness for c7_queenside_corner_rule: in posCastleB the queenside
castle is generated, so the relative a1 square holds no enemy rook or
queen there. -/
theorem c7_queenside_corner_rule_witness :
    posCastleB.board 0 ≠ some (Color.black, PieceType.rook) ∧
    posCastleB.board 0 ≠ some (Color.black, PieceType.queen) := by
  have h := (c7_queenside_corner_rule posCastleB Color.white (by decide) (by decide)
    (by decide)).1 (by decide)
  simpa using h

theorem king_square_spec {pos : Position} (h : pos.is_ok = true) (c : Color) :
    pos.king_square c < 64 ∧ pos.board (pos.king_square c) = some (c, PieceType.king) := by
  rw [Position.is_ok, Bool.and_eq_true, decide_eq_true_eq, decide_eq_true_eq] at h
  have hc : (List.range 64).countP
      (fun s => decide (pos.board s = some (c, PieceType.king))) = 1 := by
    cases c
    · exact h.1
    · exact h.2
  rw [List.countP_eq_length_filter] at hc
  obtain ⟨a, ha⟩ := List.length_eq_one.mp hc
  have hmem : a ∈ (List.range 64).filter
      (fun s => decide (pos.board s = some (c, PieceType.king))) := by
    rw [ha]; exact List.mem_singleton.mpr rfl
  rw [List.mem_filter, List.mem_range, decide_eq_true_eq] at hmem
  have hks : pos.king_square c = a := by
    rw [Position.king_square, ha]; rfl
  rw [hks]
  exact ⟨hmem.1, hmem.2⟩

theorem piecesBB_testBit (pos : Position) (c : Color) (pt : PieceType) (s : Nat) :
    (pos.piecesBB c pt).testBit s =
      (decide (s < 64) && decide (pos.board s = some (c, pt))) := by
  rw [Position.piecesBB, testBit_bbOfPred]

theorem piecesBB_testBit_board {pos : Position} {c : Color} {pt : PieceType} {s : Nat}
    (h : (pos.piecesBB c pt).testBit s = true) : pos.board s = some (c, pt) := by
  rw [piecesBB_testBit, Bool.and_eq_true, decide_eq_true_eq, decide_eq_true_eq] at h
  exact h.2

/-- Every move of the capture the checker loops starts from a square
holding a non king piece of the side to move. -/
theorem evasion_captures_from_not_king {pos : Position} {checksq pinned : Nat} {m : Move}
    (hm : m ∈ evasion_captures pos checksq pinned) :
    pos.board m.mfrom ≠ some (pos.side_to_move, PieceType.king) := by
  unfold evasion_captures at hm
  simp only [List.mem_append] at hm
  rcases hm with ((hm | hm) | hm) | hm
  · rw [List.mem_flatMap] at hm
    obtain ⟨f, hf, hin⟩ := hm
    rw [mem_bbSquares] at hf
    have hpawn : (pos.pawns pos.side_to_move).testBit f = true := by
      have := hf.2
      rw [Nat.testBit_land, Nat.testBit_land, Bool.and_eq_true, Bool.and_eq_true] at this
      exact this.1.2
    have hb : pos.board f = some (pos.side_to_move, PieceType.pawn) :=
      piecesBB_testBit_board hpawn
    have hfrom : m.mfrom = f := by
      split at hin
      · simp only [List.mem_cons, List.not_mem_nil, or_false] at hin
        rcases hin with rfl | rfl | rfl | rfl <;> rfl
      · simp only [List.mem_singleton] at hin
        rw [hin]; rfl
    rw [hfrom, hb]
    simp
  · rw [List.mem_map] at hm
    obtain ⟨f, hf, rfl⟩ := hm
    rw [mem_bbSquares] at hf
    have := hf.2
    rw [Nat.testBit_land, Nat.testBit_land, Bool.and_eq_true, Bool.and_eq_true] at this
    have hb := piecesBB_testBit_board this.1.2
    rw [make_move, hb]
    simp
  · rw [List.mem_map] at hm
    obtain ⟨f, hf, rfl⟩ := hm
    rw [mem_bbSquares] at hf
    have := hf.2
    rw [Nat.testBit_land, Nat.testBit_land, Bool.and_eq_true, Bool.and_eq_true] at this
    have hbq := this.1.2
    rw [Position.bishops_and_queens, Nat.testBit_lor, Bool.or_eq_true] at hbq
    rw [make_move]
    rcases hbq with hb | hb <;> have := piecesBB_testBit_board hb <;> rw [this] <;> simp
  · rw [List.mem_map] at hm
    obtain ⟨f, hf, rfl⟩ := hm
    rw [mem_bbSquares] at hf
    have := hf.2
    rw [Nat.testBit_land, Nat.testBit_land, Bool.and_eq_true, Bool.and_eq_true] at this
    have hbq := this.1.2
    rw [Position.rooks_and_queens, Nat.testBit_lor, Bool.or_eq_true] at hbq
    rw [make_move]
    rcases hbq with hb | hb <;> have := piecesBB_testBit_board hb <;> rw [this] <;> simp

/-- Every move of the blocking evasion loops starts from a square holding
a non king piece of the side to move. -/
theorem evasion_blocks_from_not_king {pos : Position} {checksq pinned : Nat} {m : Move}
    (hm : m ∈ evasion_blocks pos checksq pinned) :
    pos.board m.mfrom ≠ some (pos.side_to_move, PieceType.king) := by
  unfold evasion_blocks at hm
  split at hm
  · simp only [List.mem_append] at hm
    rcases hm with ((((hp | hm) | hm) | hm) | hm)
    · -- pawn blocks, white or black
      split at hp
      · rename_i hw
        rw [List.mem_append] at hp
        rcases hp with hp | hp
        · rw [List.mem_flatMap] at hp
          obtain ⟨t, ht, hin⟩ := hp
          rw [mem_bbSquares] at ht
          have := ht.2
          rw [Nat.testBit_land, Bool.and_eq_true] at this
          have hsh := this.1
          rw [testBit_shl, Bool.and_eq_true, Bool.and_eq_true] at hsh
          have hpw := hsh.2
          rw [Nat.testBit_land, Bool.and_eq_true] at hpw
          have hb := piecesBB_testBit_board hpw.1
          have hfrom : m.mfrom = t - 8 := by
            split at hin
            · simp only [List.mem_cons, List.not_mem_nil, or_false] at hin
              rcases hin with rfl | rfl | rfl | rfl <;> rfl
            · simp only [List.mem_singleton] at hin
              rw [hin]; rfl
          rw [hfrom, hb, hw]
          simp
        · rw [List.mem_map] at hp
          obtain ⟨t, ht, rfl⟩ := hp
          rw [mem_bbSquares] at ht
          have := ht.2
          rw [Nat.testBit_land, Bool.and_eq_true] at this
          have hsh := this.1
          rw [testBit_shl, Bool.and_eq_true, Bool.and_eq_true] at hsh
          have h8 : (8 : Nat) ≤ t := of_decide_eq_true hsh.1.2
          have hsh2 := hsh.2
          rw [Nat.testBit_land, Nat.testBit_land, Bool.and_eq_true, Bool.and_eq_true] at hsh2
          have hsh3 := hsh2.1.1
          rw [testBit_shl, Bool.and_eq_true, Bool.and_eq_true] at hsh3
          have h16 : (8 : Nat) ≤ t - 8 := of_decide_eq_true hsh3.1.2
          have hpw := hsh3.2
          have heq : t - 8 - 8 = t - 16 := by omega
          rw [heq, Nat.testBit_land, Bool.and_eq_true] at hpw
          have hb := piecesBB_testBit_board hpw.1
          have hfrom : (make_move (t - 16) t).mfrom = t - 16 := rfl
          rw [hfrom, hb, hw]
          simp
      · rename_i hw
        have hbk : pos.side_to_move = Color.black := by
          cases hc : pos.side_to_move
          · exact absurd hc hw
          · rfl
        rw [List.mem_append] at hp
        rcases hp with hp | hp
        · rw [List.mem_flatMap] at hp
          obtain ⟨t, ht, hin⟩ := hp
          rw [mem_bbSquares] at ht
          have := ht.2
          rw [Nat.testBit_land, Bool.and_eq_true] at this
          have hsh := this.1
          rw [testBit_shr] at hsh
          rw [Nat.testBit_land, Bool.and_eq_true] at hsh
          have hb := piecesBB_testBit_board hsh.1
          have hfrom : m.mfrom = t + 8 := by
            split at hin
            · simp only [List.mem_cons, List.not_mem_nil, or_false] at hin
              rcases hin with rfl | rfl | rfl | rfl <;> rfl
            · simp only [List.mem_singleton] at hin
              rw [hin]; rfl
          have heq : (8 : Nat) + t = t + 8 := by omega
          rw [heq] at hb
          rw [hfrom, hb, hbk]
          simp
        · rw [List.mem_map] at hp
          obtain ⟨t, ht, rfl⟩ := hp
          rw [mem_bbSquares] at ht
          have := ht.2
          rw [Nat.testBit_land, Bool.and_eq_true] at this
          have hsh := this.1
          rw [testBit_shr, Nat.testBit_land, Nat.testBit_land, Bool.and_eq_true,
            Bool.and_eq_true] at hsh
          have hsh3 := hsh.1.1
          rw [testBit_shr, Nat.testBit_land, Bool.and_eq_true] at hsh3
          have hb := piecesBB_testBit_board hsh3.1
          have heq : (8 : Nat) + (8 + t) = t + 16 := by omega
          rw [heq] at hb
          have hfrom : (make_move (t + 16) t).mfrom = t + 16 := rfl
          rw [hfrom, hb, hbk]
          simp
    · rw [List.mem_flatMap] at hm
      obtain ⟨f, hf, hin⟩ := hm
      rw [List.mem_map] at hin
      obtain ⟨t, _, rfl⟩ := hin
      rw [mem_bbSquares] at hf
      have := hf.2
      rw [Nat.testBit_land, Bool.and_eq_true] at this
      have hb := piecesBB_testBit_board this.1
      rw [make_move, hb]
      simp
    · rw [List.mem_flatMap] at hm
      obtain ⟨f, hf, hin⟩ := hm
      rw [List.mem_map] at hin
      obtain ⟨t, _, rfl⟩ := hin
      rw [mem_bbSquares] at hf
      have := hf.2
      rw [Nat.testBit_land, Bool.and_eq_true] at this
      have hb := piecesBB_testBit_board this.1
      rw [make_move, hb]
      simp
    · rw [List.mem_flatMap] at hm
      obtain ⟨f, hf, hin⟩ := hm
      rw [List.mem_map] at hin
      obtain ⟨t, _, rfl⟩ := hin
      rw [mem_bbSquares] at hf
      have := hf.2
      rw [Nat.testBit_land, Bool.and_eq_true] at this
      have hb := piecesBB_testBit_board this.1
      rw [make_move, hb]
      simp
    · rw [List.mem_flatMap] at hm
      obtain ⟨f, hf, hin⟩ := hm
      rw [List.mem_map] at hin
      obtain ⟨t, _, rfl⟩ := hin
      rw [mem_bbSquares] at hf
      have := hf.2
      rw [Nat.testBit_land, Bool.and_eq_true] at this
      have hb := piecesBB_testBit_board this.1
      rw [make_move, hb]
      simp
  · simp at hm

/-- Every move of the en passant evasion loop has the en passant kind. -/
theorem evasion_ep_kind {pos : Position} {checksq pinned : Nat} {m : Move}
    (hm : m ∈ evasion_ep pos checksq pinned) : m.kind = MoveKind.ep := by
  unfold evasion_ep at hm
  split at hm
  · simp only [] at hm
    split at hm
    · rw [List.mem_filterMap] at hm
      obtain ⟨f, _, he⟩ := hm
      split at he
      · injection he with he2
        rw [← he2]; rfl
      · exact absurd he (by simp)
    · simp at hm
  · simp at hm

/-- C8: in a check position, generate_evasions emits the king move from
the king square to a square t exactly when t is in king_attacks and not
occupied by an own piece, and, over the occupancy with the king removed,
no enemy pawn attacks t, no enemy knight reaches t, no enemy king reaches
t, no bishop or queen ray from t hits an enemy bishop or queen, and no
rook or queen ray from t hits an enemy rook or queen. -/
theorem c8_king_evasion_iff (pos : Position) (hok : pos.is_ok = true)
    (hchk : pos.is_check = true) (t : Nat) :
    make_move (pos.king_square pos.side_to_move) t ∈ generate_evasions pos ↔
      ((pos.king_attacks (pos.king_square pos.side_to_move) &&&
          bnot (pos.pieces_of_color pos.side_to_move)).testBit t = true ∧
       pos.pawn_attacks pos.side_to_move t &&& pos.pawns (opposite_color pos.side_to_move) = 0 ∧
       pos.knight_attacks t &&& pos.knights (opposite_color pos.side_to_move) = 0 ∧
       pos.king_attacks t &&& pos.kings (opposite_color pos.side_to_move) = 0 ∧
       bishop_attacks_bb t (clear_bit pos.occupied_squares (pos.king_square pos.side_to_move)) &&&
         pos.bishops_and_queens (opposite_color pos.side_to_move) = 0 ∧
       rook_attacks_bb t (clear_bit pos.occupied_squares (pos.king_square pos.side_to_move)) &&&
         pos.rooks_and_queens (opposite_color pos.side_to_move) = 0) := by
  have hking := (king_square_spec hok pos.side_to_move).2
  constructor
  · intro hm
    unfold generate_evasions at hm
    simp only [] at hm
    rw [List.mem_append] at hm
    rcases hm with hm | hm
    · unfold evasion_king_moves at hm
      rw [List.mem_filterMap] at hm
      obtain ⟨a, ha, he⟩ := hm
      split at he
      · rename_i hsafe
        injection he with he2
        have hat : a = t := congrArg Move.mto he2
        subst hat
        rw [mem_bbSquares] at ha
        refine ⟨ha.2, ?_⟩
        unfold evasion_safe at hsafe
        simp only [Bool.and_eq_true, decide_eq_true_eq] at hsafe
        exact ⟨hsafe.1.1.1.1, hsafe.1.1.1.2, hsafe.1.1.2, hsafe.1.2, hsafe.2⟩
      · exact absurd he (by simp)
    · exfalso
      split at hm
      · rw [List.mem_append, List.mem_append] at hm
        rcases hm with (hm | hm) | hm
        · exact evasion_captures_from_not_king hm hking
        · exact evasion_blocks_from_not_king hm hking
        · have := evasion_ep_kind hm
          rw [make_move] at this
          exact absurd this (by simp)
      · simp at hm
  · rintro ⟨h1, h2, h3, h4, h5, h6⟩
    unfold generate_evasions
    simp only []
    rw [List.mem_append]
    left
    unfold evasion_king_moves
    rw [List.mem_filterMap]
    refine ⟨t, ?_, ?_⟩
    · rw [mem_bbSquares]
      refine ⟨?_, h1⟩
      have := h1
      rw [Nat.testBit_land, Bool.and_eq_true] at this
      have hka := this.1
      rw [Position.king_attacks, king_attacks_bb, testBit_bbOfPred, Bool.and_eq_true,
        decide_eq_true_eq] at hka
      exact hka.1
    · have hsafe : evasion_safe pos t = true := by
        unfold evasion_safe
        simp only [Bool.and_eq_true, decide_eq_true_eq]
        exact ⟨⟨⟨⟨h2, h3⟩, h4⟩, h5⟩, h6⟩
      rw [if_pos hsafe]

/-- Witness for c8_king_evasion_iff: with the white king on e1 checked by
a black rook on e8 (black king a8), the evasion Kd1 is generated. -/
theorem c8_king_evasion_iff_witness :
    make_move (posRookCheck.king_square posRookCheck.side_to_move) 3 ∈
      generate_evasions posRookCheck :=
  (c8_king_evasion_iff posRookCheck (by decide) (by decide) 3).mpr (by decide)

theorem shl_one_land_sub_one : ∀ c < 64, (1 <<< c) &&& ((1 <<< c) - 1) = 0 := by decide

theorem first1_shl_one : ∀ c < 64, first_1 (1 <<< c) = c := by decide

theorem evasion_king_moves_kind {pos : Position} {m : Move}
    (hm : m ∈ evasion_king_moves pos) : m.kind = MoveKind.normal := by
  unfold evasion_king_moves at hm
  rw [List.mem_filterMap] at hm
  obtain ⟨a, _, he⟩ := hm
  split at he
  · injection he with he2
    rw [← he2]; rfl
  · exact absurd he (by simp)

theorem evasion_captures_not_ep {pos : Position} {checksq pinned : Nat} {m : Move}
    (hm : m ∈ evasion_captures pos checksq pinned) : m.kind ≠ MoveKind.ep := by
  unfold evasion_captures at hm
  simp only [List.mem_append] at hm
  rcases hm with ((hm | hm) | hm) | hm
  · rw [List.mem_flatMap] at hm
    obtain ⟨f, _, hin⟩ := hm
    split at hin
    · simp only [List.mem_cons, List.not_mem_nil, or_false] at hin
      rcases hin with rfl | rfl | rfl | rfl <;> simp [make_promotion_move]
    · simp only [List.mem_singleton] at hin
      rw [hin]; simp [make_move]
  · rw [List.mem_map] at hm
    obtain ⟨g, _, rfl⟩ := hm
    simp [make_move]
  · rw [List.mem_map] at hm
    obtain ⟨g, _, rfl⟩ := hm
    simp [make_move]
  · rw [List.mem_map] at hm
    obtain ⟨g, _, rfl⟩ := hm
    simp [make_move]

theorem evasion_blocks_not_ep {pos : Position} {checksq pinned : Nat} {m : Move}
    (hm : m ∈ evasion_blocks pos checksq pinned) : m.kind ≠ MoveKind.ep := by
  unfold evasion_blocks at hm
  split at hm
  · simp only [List.mem_append] at hm
    rcases hm with ((((hp | hm) | hm) | hm) | hm)
    · split at hp <;> rw [List.mem_append] at hp <;> rcases hp with hp | hp <;>
        first
        | (rw [List.mem_flatMap] at hp
           obtain ⟨t, _, hin⟩ := hp
           split at hin
           · simp only [List.mem_cons, List.not_mem_nil, or_false] at hin
             rcases hin with rfl | rfl | rfl | rfl <;> simp [make_promotion_move]
           · simp only [List.mem_singleton] at hin
             rw [hin]; simp [make_move])
        | (rw [List.mem_map] at hp
           obtain ⟨t, _, rfl⟩ := hp
           simp [make_move])
    all_goals
      rw [List.mem_flatMap] at hm
      obtain ⟨g, _, hin⟩ := hm
      rw [List.mem_map] at hin
      obtain ⟨t, _, rfl⟩ := hin
      simp [make_move]
  · simp at hm

/-- C9: in a position in check by exactly one checker at square csq which
is an enemy pawn, with the en passant square set, generate_evasions emits
the en passant capture of a non pinned own pawn on f attacking the en
passant square exactly when, after removing both f and csq from the
occupancy, no bishop or queen ray and no rook or queen ray from the own
king square reaches an enemy bishop or queen, or rook or queen. -/
theorem c9_ep_evasion_iff (pos : Position) (csq ep f : Nat)
    (hok : pos.is_ok = true)
    (hck : pos.checkers = 1 <<< csq) (hcs : csq < 64)
    (hpw : pos.board csq = some (opposite_color pos.side_to_move, PieceType.pawn))
    (hep : pos.ep_square = some ep)
    (hatt : (pos.pawn_attacks (opposite_color pos.side_to_move) ep).testBit f = true)
    (hown : (pos.pawns pos.side_to_move).testBit f = true)
    (hnp : (pos.pinned_pieces pos.side_to_move).testBit f = false) :
    make_ep_move f ep ∈ generate_evasions pos ↔
      (bishop_attacks_bb (pos.king_square pos.side_to_move)
          (clear_bit (clear_bit pos.occupied_squares f) csq) &&&
        pos.bishops_and_queens (opposite_color pos.side_to_move) = 0 ∧
       rook_attacks_bb (pos.king_square pos.side_to_move)
          (clear_bit (clear_bit pos.occupied_squares f) csq) &&&
        pos.rooks_and_queens (opposite_color pos.side_to_move) = 0) := by
  have hf64 : f < 64 := by
    have := hown
    rw [Position.pawns, piecesBB_testBit, Bool.and_eq_true, decide_eq_true_eq] at this
    exact this.1
  have hsingle : pos.checkers &&& (pos.checkers - 1) = 0 := by
    rw [hck]; exact shl_one_land_sub_one csq hcs
  have hfirst : first_1 pos.checkers = csq := by
    rw [hck]; exact first1_shl_one csq hcs
  have hguard : pos.checkers &&& pos.pawns (opposite_color pos.side_to_move) ≠ 0 := by
    intro h0
    rw [eq_zero_iff_testBit] at h0
    have := h0 csq
    rw [Nat.testBit_land, hck, testBit_one_shl, Position.pawns, piecesBB_testBit] at this
    simp [hcs, hpw] at this
  constructor
  · intro hm
    unfold generate_evasions at hm
    simp only [] at hm
    rw [List.mem_append] at hm
    rcases hm with hm | hm
    · have := evasion_king_moves_kind hm
      rw [make_ep_move] at this
      exact absurd this (by simp)
    · rw [if_pos hsingle] at hm
      rw [List.mem_append, List.mem_append] at hm
      rcases hm with (hm | hm) | hm
      · exact absurd rfl (evasion_captures_not_ep hm)
      · exact absurd rfl (evasion_blocks_not_ep hm)
      · unfold evasion_ep at hm
        simp only [hep] at hm
        rw [if_pos hguard] at hm
        rw [List.mem_filterMap] at hm
        obtain ⟨f2, _, he⟩ := hm
        split at he
        · rename_i hsafe
          injection he with he2
          have hff : f2 = f := congrArg Move.mfrom he2
          subst hff
          rw [hfirst] at hsafe
          unfold evasion_ep_safe at hsafe
          simp only [Bool.and_eq_true, decide_eq_true_eq] at hsafe
          exact hsafe
        · exact absurd he (by simp)
  · rintro ⟨hb1, hb2⟩
    unfold generate_evasions
    simp only []
    rw [List.mem_append]
    right
    rw [if_pos hsingle]
    rw [List.mem_append, List.mem_append]
    right
    unfold evasion_ep
    simp only [hep]
    rw [if_pos hguard, List.mem_filterMap]
    refine ⟨f, ?_, ?_⟩
    · rw [mem_bbSquares]
      refine ⟨hf64, ?_⟩
      rw [Nat.testBit_land, Nat.testBit_land, testBit_bnot]
      rw [hatt, hown, hnp]
      simp [hf64]
    · have hsafe : evasion_ep_safe pos (first_1 pos.checkers) f = true := by
        rw [hfirst]
        unfold evasion_ep_safe
        simp only [Bool.and_eq_true, decide_eq_true_eq]
        exact ⟨hb1, hb2⟩
      rw [if_pos hsafe]

/-- Witness for c9_ep_evasion_iff: in posEpEvasion the en passant evasion
e5xd6 is generated. -/
theorem c9_ep_evasion_iff_witness :
    make_ep_move 36 43 ∈ generate_evasions posEpEvasion :=
  (c9_ep_evasion_iff posEpEvasion 35 43 36 (by decide) (by decide) (by decide)
    (by decide) (by decide) (by decide) (by decide) (by decide)).mpr (by decide)

/-- Counting in a flatMap over a duplicate free list of squares, when
every emitted move determines its source square through a projection. -/
theorem count_flat_proj (pr : Move → Nat) (l : List Nat) (g : Nat → List Move)
    (hl : l.Nodup) (hg : ∀ s, ∀ m2 ∈ g s, pr m2 = s) (hg2 : ∀ s, (g s).Nodup) (m : Move) :
    (l.flatMap g).count m = if pr m ∈ l ∧ m ∈ g (pr m) then 1 else 0 := by
  induction l with
  | nil => simp
  | cons a l ih =>
    have hanotin : a ∉ l := (List.nodup_cons.mp hl).1
    rw [List.flatMap_cons, List.count_append, ih (List.nodup_cons.mp hl).2]
    by_cases hma : m ∈ g a
    · have hpr : pr m = a := hg a m hma
      rw [List.count_eq_one_of_mem (hg2 a) hma]
      rw [if_neg (fun hc => hanotin (hpr ▸ hc.1)),
        if_pos ⟨by rw [hpr]; exact List.mem_cons_self a l, by rw [hpr]; exact hma⟩]
    · rw [List.count_eq_zero_of_not_mem hma]
      by_cases hpra : pr m = a
      · rw [if_neg (fun hc => hma (hpra ▸ hc.2)), if_neg (fun hc => hma (hpra ▸ hc.2))]
      · simp only [List.mem_cons, hpra, false_or, Nat.zero_add]

/-- The map special case of count_flat_proj. -/
theorem count_map_proj (pr : Move → Nat) (l : List Nat) (g : Nat → Move)
    (hl : l.Nodup) (hg : ∀ s, pr (g s) = s) (m : Move) :
    (l.map g).count m = if pr m ∈ l ∧ m = g (pr m) then 1 else 0 := by
  have hconv : ∀ l2 : List Nat, l2.map g = l2.flatMap (fun s => [g s]) := by
    intro l2
    induction l2 with
    | nil => rfl
    | cons a t ih => rw [List.map_cons, List.flatMap_cons, ih, List.singleton_append]
  rw [hconv, count_flat_proj pr l _ hl
    (fun s m2 hm2 => by rw [List.mem_singleton] at hm2; rw [hm2]; exact hg s)
    (fun s => List.nodup_singleton _) m]
  simp only [List.mem_singleton]

theorem bbSquares_nodup (b : Nat) : (bbSquares b).Nodup :=
  (List.nodup_range 64).filter _

theorem empty_squares_testBit {pos : Position} {t : Nat} :
    (pos.empty_squares).testBit t = true ↔ t < 64 ∧ pos.board t = none := by
  rw [Position.empty_squares, testBit_bnot, Position.occupied_squares, testBit_bbOfPred]
  by_cases h : t < 64 <;> by_cases hb : pos.board t = none <;> simp [h, hb]

theorem pieces_of_color_testBit {pos : Position} {c : Color} {t : Nat} :
    (pos.pieces_of_color c).testBit t = true ↔
      t < 64 ∧ (pos.board t).map Prod.fst = some c := by
  rw [Position.pieces_of_color, testBit_bbOfPred]
  simp

theorem occupied_squares_testBit {pos : Position} {t : Nat} :
    (pos.occupied_squares).testBit t = true ↔ t < 64 ∧ pos.board t ≠ none := by
  rw [Position.occupied_squares, testBit_bbOfPred]
  simp

theorem knight_attacks_testBit {s t : Nat} :
    (knight_attacks_bb s).testBit t = true ↔ t < 64 ∧ knightStep s t = true := by
  rw [knight_attacks_bb, testBit_bbOfPred]; simp

theorem king_attacks_testBit {s t : Nat} :
    (king_attacks_bb s).testBit t = true ↔ t < 64 ∧ kingStep s t = true := by
  rw [king_attacks_bb, testBit_bbOfPred]; simp

theorem FileABB_testBit {t : Nat} : FileABB.testBit t = true ↔ t < 64 ∧ t % 8 = 0 := by
  rw [FileABB, testBit_bbOfPred]; simp [square_file]

theorem FileHBB_testBit {t : Nat} : FileHBB.testBit t = true ↔ t < 64 ∧ t % 8 = 7 := by
  rw [FileHBB, testBit_bbOfPred]; simp [square_file]

theorem Rank8BB_testBit {t : Nat} : Rank8BB.testBit t = true ↔ t < 64 ∧ t / 8 = 7 := by
  rw [Rank8BB, testBit_bbOfPred]; simp [square_rank]

theorem Rank1BB_testBit {t : Nat} : Rank1BB.testBit t = true ↔ t < 64 ∧ t / 8 = 0 := by
  rw [Rank1BB, testBit_bbOfPred]; simp [square_rank]

theorem Rank3BB_testBit {t : Nat} : Rank3BB.testBit t = true ↔ t < 64 ∧ t / 8 = 2 := by
  rw [Rank3BB, testBit_bbOfPred]; simp [square_rank]

theorem Rank6BB_testBit {t : Nat} : Rank6BB.testBit t = true ↔ t < 64 ∧ t / 8 = 5 := by
  rw [Rank6BB, testBit_bbOfPred]; simp [square_rank]

theorem mem_piece_squares {pos : Position} {c : Color} {pt : PieceType} {f : Nat} :
    f ∈ pos.piece_squares c pt ↔ f < 64 ∧ pos.board f = some (c, pt) := by
  rw [Position.piece_squares, List.mem_filter, List.mem_range]
  simp

theorem piece_squares_nodup (pos : Position) (c : Color) (pt : PieceType) :
    (pos.piece_squares c pt).Nodup :=
  (List.nodup_range 64).filter _

theorem move_eq_make_iff {m : Move} {a b : Nat} :
    m = make_move a b ↔ m.mfrom = a ∧ m.mto = b ∧ m.kind = MoveKind.normal := by
  cases m
  rw [make_move, Move.mk.injEq]

theorem move_eq_promo_iff {m : Move} {a b : Nat} {p : PieceType} :
    m = make_promotion_move a b p ↔
      m.mfrom = a ∧ m.mto = b ∧ m.kind = MoveKind.promo p := by
  cases m
  rw [make_promotion_move, Move.mk.injEq]

theorem move_eq_ep_iff {m : Move} {a b : Nat} :
    m = make_ep_move a b ↔ m.mfrom = a ∧ m.mto = b ∧ m.kind = MoveKind.ep := by
  cases m
  rw [make_ep_move, Move.mk.injEq]

/-- Counting in the per piece type move generator. -/
theorem count_piece_moves (pt : PieceType) (pos : Position) (side : Color)
    (target : Nat) (m : Move) :
    (generate_piece_moves pt pos side target).count m =
      if m.kind = MoveKind.normal ∧ m.mfrom < 64 ∧
         pos.board m.mfrom = some (side, pt) ∧ m.mto < 64 ∧
         (pos.piece_attacks_of pt m.mfrom &&& target).testBit m.mto = true
      then 1 else 0 := by
  rw [generate_piece_moves, count_flat_proj Move.mfrom _ _
    (piece_squares_nodup pos side pt)
    (fun f m2 hm2 => by
      rw [List.mem_map] at hm2
      obtain ⟨t, _, rfl⟩ := hm2
      rfl)
    (fun f => List.Nodup.map
      (fun a b hab => congrArg Move.mto hab) (bbSquares_nodup _))]
  by_cases hc : m.kind = MoveKind.normal ∧ m.mfrom < 64 ∧
      pos.board m.mfrom = some (side, pt) ∧ m.mto < 64 ∧
      (pos.piece_attacks_of pt m.mfrom &&& target).testBit m.mto = true
  · rw [if_pos hc, if_pos]
    refine ⟨mem_piece_squares.mpr ⟨hc.2.1, hc.2.2.1⟩, ?_⟩
    rw [List.mem_map]
    exact ⟨m.mto, mem_bbSquares.mpr ⟨hc.2.2.2.1, hc.2.2.2.2⟩,
      (move_eq_make_iff.mpr ⟨rfl, rfl, hc.1⟩).symm⟩
  · rw [if_neg hc, if_neg]
    intro ⟨h1, h2⟩
    rw [List.mem_map] at h2
    obtain ⟨t, ht, he⟩ := h2
    rw [mem_piece_squares] at h1
    rw [mem_bbSquares] at ht
    have he2 := move_eq_make_iff.mp he.symm
    exact hc ⟨he2.2.2, h1.1, h1.2, he2.2.1 ▸ ht.1, he2.2.1 ▸ ht.2⟩

/-- Counting in the king move generator. -/
theorem count_king_moves (pos : Position) (f target : Nat) (m : Move) :
    (generate_king_moves pos f target).count m =
      if m.kind = MoveKind.normal ∧ m.mfrom = f ∧ m.mto < 64 ∧
         (king_attacks_bb f &&& target).testBit m.mto = true
      then 1 else 0 := by
  rw [generate_king_moves, Position.king_attacks,
    count_map_proj Move.mto _ _ (bbSquares_nodup _) (fun s => rfl)]
  by_cases hc : m.kind = MoveKind.normal ∧ m.mfrom = f ∧ m.mto < 64 ∧
      (king_attacks_bb f &&& target).testBit m.mto = true
  · rw [if_pos hc, if_pos]
    exact ⟨mem_bbSquares.mpr ⟨hc.2.2.1, hc.2.2.2⟩,
      move_eq_make_iff.mpr ⟨hc.2.1, rfl, hc.1⟩⟩
  · rw [if_neg hc, if_neg]
    intro ⟨h1, h2⟩
    rw [mem_bbSquares] at h1
    have he2 := move_eq_make_iff.mp h2
    exact hc ⟨he2.2.2, he2.1, h1.1, h1.2⟩

/-- Counting in the castle move generator. -/
theorem count_castle_moves (pos : Position) (us : Color) (m : Move) :
    (generate_castle_moves pos us).count m =
      (if pos.can_castle_kingside us = true ∧ castle_kingside_illegal pos us = false ∧
          m = make_castle_move (pos.king_square us) (pos.initial_kr_square us)
        then 1 else 0) +
      (if pos.can_castle_queenside us = true ∧ castle_queenside_illegal pos us = false ∧
          m = make_castle_move (pos.king_square us) (pos.initial_qr_square us)
        then 1 else 0) := by
  rw [generate_castle_moves]
  by_cases hcc : pos.can_castle us = true
  · rw [if_pos hcc, List.count_append]
    congr 1
    · by_cases hcond : (pos.can_castle_kingside us && !castle_kingside_illegal pos us) = true
      · rw [if_pos hcond]
        rw [Bool.and_eq_true, Bool.not_eq_true'] at hcond
        by_cases hm : m = make_castle_move (pos.king_square us) (pos.initial_kr_square us)
        · rw [if_pos ⟨hcond.1, hcond.2, hm⟩, hm]
          simp [List.count_cons]
        · rw [if_neg (fun hc => hm hc.2.2),
            List.count_eq_zero_of_not_mem (fun hmem => hm (List.mem_singleton.mp hmem))]
      · rw [if_neg hcond]
        rw [Bool.and_eq_true, Bool.not_eq_true'] at hcond
        rw [if_neg (fun hc => hcond ⟨hc.1, hc.2.1⟩)]
        rfl
    · by_cases hcond : (pos.can_castle_queenside us && !castle_queenside_illegal pos us) = true
      · rw [if_pos hcond]
        rw [Bool.and_eq_true, Bool.not_eq_true'] at hcond
        by_cases hm : m = make_castle_move (pos.king_square us) (pos.initial_qr_square us)
        · rw [if_pos ⟨hcond.1, hcond.2, hm⟩, hm]
          simp [List.count_cons]
        · rw [if_neg (fun hc => hm hc.2.2),
            List.count_eq_zero_of_not_mem (fun hmem => hm (List.mem_singleton.mp hmem))]
      · rw [if_neg hcond]
        rw [Bool.and_eq_true, Bool.not_eq_true'] at hcond
        rw [if_neg (fun hc => hcond ⟨hc.1, hc.2.1⟩)]
        rfl
  · rw [if_neg hcc]
    rw [Position.can_castle, Bool.or_eq_true] at hcc
    push_neg at hcc
    rw [if_neg (fun hc => hcc.1 hc.1), if_neg (fun hc => hcc.2 hc.1)]
    rfl

theorem nodup_promo_triple (a b : Nat) :
    ([make_promotion_move a b PieceType.rook,
      make_promotion_move a b PieceType.bishop,
      make_promotion_move a b PieceType.knight] : List Move).Nodup := by
  simp [make_promotion_move]

theorem mto_promo_triple {a s : Nat} {m2 : Move}
    (hm2 : m2 ∈ ([make_promotion_move a s PieceType.rook,
      make_promotion_move a s PieceType.bishop,
      make_promotion_move a s PieceType.knight] : List Move)) : m2.mto = s := by
  simp only [List.mem_cons, List.not_mem_nil, or_false] at hm2
  rcases hm2 with rfl | rfl | rfl <;> rfl

/-- Counting in the white pawn capture generator. -/
theorem count_wpc (pos : Position) (m : Move) :
    (generate_white_pawn_captures pos).count m =
      (if m.mto ∈ bbSquares (shl 9 (pos.pawns Color.white) &&& bnot FileABB &&&
           pos.pieces_of_color Color.black &&& Rank8BB) ∧
         m = make_promotion_move (m.mto - 9) m.mto PieceType.queen then 1 else 0) +
      (if m.mto ∈ bbSquares (shl 9 (pos.pawns Color.white) &&& bnot FileABB &&&
           pos.pieces_of_color Color.black &&& bnot Rank8BB) ∧
         m = make_move (m.mto - 9) m.mto then 1 else 0) +
      (if m.mto ∈ bbSquares (shl 7 (pos.pawns Color.white) &&& bnot FileHBB &&&
           pos.pieces_of_color Color.black &&& Rank8BB) ∧
         m = make_promotion_move (m.mto - 7) m.mto PieceType.queen then 1 else 0) +
      (if m.mto ∈ bbSquares (shl 7 (pos.pawns Color.white) &&& bnot FileHBB &&&
           pos.pieces_of_color Color.black &&& bnot Rank8BB) ∧
         m = make_move (m.mto - 7) m.mto then 1 else 0) +
      (if m.mto ∈ bbSquares (shl 8 (pos.pawns Color.white) &&& pos.empty_squares &&&
           Rank8BB) ∧
         m = make_promotion_move (m.mto - 8) m.mto PieceType.queen then 1 else 0) +
      (match pos.ep_square with
       | some ep =>
         if m.mfrom ∈ bbSquares (pos.pawns Color.white &&& black_pawn_attacks_bb ep) ∧
            m = make_ep_move m.mfrom ep then 1 else 0
       | none => 0) := by
  rw [generate_white_pawn_captures]
  simp only [List.count_append]
  rw [count_map_proj Move.mto _ _ (bbSquares_nodup _) (fun s => rfl),
    count_map_proj Move.mto _ _ (bbSquares_nodup _) (fun s => rfl),
    count_map_proj Move.mto _ _ (bbSquares_nodup _) (fun s => rfl),
    count_map_proj Move.mto _ _ (bbSquares_nodup _) (fun s => rfl),
    count_map_proj Move.mto _ _ (bbSquares_nodup _) (fun s => rfl)]
  cases pos.ep_square with
  | none => simp
  | some ep =>
    rw [count_map_proj Move.mfrom _ _ (bbSquares_nodup _) (fun s => rfl)]

/-- Counting in the black pawn capture generator. -/
theorem count_bpc (pos : Position) (m : Move) :
    (generate_black_pawn_captures pos).count m =
      (if m.mto ∈ bbSquares (shr 7 (pos.pawns Color.black) &&& bnot FileABB &&&
           pos.pieces_of_color Color.white &&& Rank1BB) ∧
         m = make_promotion_move (m.mto + 7) m.mto PieceType.queen then 1 else 0) +
      (if m.mto ∈ bbSquares (shr 7 (pos.pawns Color.black) &&& bnot FileABB &&&
           pos.pieces_of_color Color.white &&& bnot Rank1BB) ∧
         m = make_move (m.mto + 7) m.mto then 1 else 0) +
      (if m.mto ∈ bbSquares (shr 9 (pos.pawns Color.black) &&& bnot FileHBB &&&
           pos.pieces_of_color Color.white &&& Rank1BB) ∧
         m = make_promotion_move (m.mto + 9) m.mto PieceType.queen then 1 else 0) +
      (if m.mto ∈ bbSquares (shr 9 (pos.pawns Color.black) &&& bnot FileHBB &&&
           pos.pieces_of_color Color.white &&& bnot Rank1BB) ∧
         m = make_move (m.mto + 9) m.mto then 1 else 0) +
      (if m.mto ∈ bbSquares (shr 8 (pos.pawns Color.black) &&& pos.empty_squares &&&
           Rank1BB) ∧
         m = make_promotion_move (m.mto + 8) m.mto PieceType.queen then 1 else 0) +
      (match pos.ep_square with
       | some ep =>
         if m.mfrom ∈ bbSquares (pos.pawns Color.black &&& white_pawn_attacks_bb ep) ∧
            m = make_ep_move m.mfrom ep then 1 else 0
       | none => 0) := by
  rw [generate_black_pawn_captures]
  simp only [List.count_append]
  rw [count_map_proj Move.mto _ _ (bbSquares_nodup _) (fun s => rfl),
    count_map_proj Move.mto _ _ (bbSquares_nodup _) (fun s => rfl),
    count_map_proj Move.mto _ _ (bbSquares_nodup _) (fun s => rfl),
    count_map_proj Move.mto _ _ (bbSquares_nodup _) (fun s => rfl),
    count_map_proj Move.mto _ _ (bbSquares_nodup _) (fun s => rfl)]
  cases pos.ep_square with
  | none => simp
  | some ep =>
    rw [count_map_proj Move.mfrom _ _ (bbSquares_nodup _) (fun s => rfl)]

/-- Counting in the white pawn noncapture generator. -/
theorem count_wpn (pos : Position) (m : Move) :
    (generate_white_pawn_noncaptures pos).count m =
      (if m.mto ∈ bbSquares (shl 9 (pos.pawns Color.white) &&& bnot FileABB &&&
           pos.pieces_of_color Color.black &&& Rank8BB) ∧
         m ∈ [make_promotion_move (m.mto - 9) m.mto PieceType.rook,
              make_promotion_move (m.mto - 9) m.mto PieceType.bishop,
              make_promotion_move (m.mto - 9) m.mto PieceType.knight] then 1 else 0) +
      (if m.mto ∈ bbSquares (shl 7 (pos.pawns Color.white) &&& bnot FileHBB &&&
           pos.pieces_of_color Color.black &&& Rank8BB) ∧
         m ∈ [make_promotion_move (m.mto - 7) m.mto PieceType.rook,
              make_promotion_move (m.mto - 7) m.mto PieceType.bishop,
              make_promotion_move (m.mto - 7) m.mto PieceType.knight] then 1 else 0) +
      (if m.mto ∈ bbSquares (shl 8 (pos.pawns Color.white) &&& pos.empty_squares &&&
           Rank8BB) ∧
         m ∈ [make_promotion_move (m.mto - 8) m.mto PieceType.rook,
              make_promotion_move (m.mto - 8) m.mto PieceType.bishop,
              make_promotion_move (m.mto - 8) m.mto PieceType.knight] then 1 else 0) +
      (if m.mto ∈ bbSquares (shl 8 (pos.pawns Color.white) &&& pos.empty_squares &&&
           bnot Rank8BB) ∧
         m = make_move (m.mto - 8) m.mto then 1 else 0) +
      (if m.mto ∈ bbSquares (shl 8 (shl 8 (pos.pawns Color.white) &&&
           pos.empty_squares &&& Rank3BB) &&& pos.empty_squares) ∧
         m = make_move (m.mto - 16) m.mto then 1 else 0) := by
  rw [generate_white_pawn_noncaptures]
  simp only [List.count_append]
  rw [count_flat_proj Move.mto _ _ (bbSquares_nodup _)
      (fun s m2 hm2 => mto_promo_triple hm2) (fun s => nodup_promo_triple _ _),
    count_flat_proj Move.mto _ _ (bbSquares_nodup _)
      (fun s m2 hm2 => mto_promo_triple hm2) (fun s => nodup_promo_triple _ _),
    count_flat_proj Move.mto _ _ (bbSquares_nodup _)
      (fun s m2 hm2 => mto_promo_triple hm2) (fun s => nodup_promo_triple _ _),
    count_map_proj Move.mto _ _ (bbSquares_nodup _) (fun s => rfl),
    count_map_proj Move.mto _ _ (bbSquares_nodup _) (fun s => rfl)]

/-- Counting in the black pawn noncapture generator. -/
theorem count_bpn (pos : Position) (m : Move) :
    (generate_black_pawn_noncaptures pos).count m =
      (if m.mto ∈ bbSquares (shr 7 (pos.pawns Color.black) &&& bnot FileABB &&&
           pos.pieces_of_color Color.white &&& Rank1BB) ∧
         m ∈ [make_promotion_move (m.mto + 7) m.mto PieceType.rook,
              make_promotion_move (m.mto + 7) m.mto PieceType.bishop,
              make_promotion_move (m.mto + 7) m.mto PieceType.knight] then 1 else 0) +
      (if m.mto ∈ bbSquares (shr 9 (pos.pawns Color.black) &&& bnot FileHBB &&&
           pos.pieces_of_color Color.white &&& Rank1BB) ∧
         m ∈ [make_promotion_move (m.mto + 9) m.mto PieceType.rook,
              make_promotion_move (m.mto + 9) m.mto PieceType.bishop,
              make_promotion_move (m.mto + 9) m.mto PieceType.knight] then 1 else 0) +
      (if m.mto ∈ bbSquares (shr 8 (pos.pawns Color.black) &&& pos.empty_squares &&&
           Rank1BB) ∧
         m ∈ [make_promotion_move (m.mto + 8) m.mto PieceType.rook,
              make_promotion_move (m.mto + 8) m.mto PieceType.bishop,
              make_promotion_move (m.mto + 8) m.mto PieceType.knight] then 1 else 0) +
      (if m.mto ∈ bbSquares (shr 8 (pos.pawns Color.black) &&& pos.empty_squares &&&
           bnot Rank1BB) ∧
         m = make_move (m.mto + 8) m.mto then 1 else 0) +
      (if m.mto ∈ bbSquares (shr 8 (shr 8 (pos.pawns Color.black) &&&
           pos.empty_squares &&& Rank6BB) &&& pos.empty_squares) ∧
         m = make_move (m.mto + 16) m.mto then 1 else 0) := by
  rw [generate_black_pawn_noncaptures]
  simp only [List.count_append]
  rw [count_flat_proj Move.mto _ _ (bbSquares_nodup _)
      (fun s m2 hm2 => mto_promo_triple hm2) (fun s => nodup_promo_triple _ _),
    count_flat_proj Move.mto _ _ (bbSquares_nodup _)
      (fun s m2 hm2 => mto_promo_triple hm2) (fun s => nodup_promo_triple _ _),
    count_flat_proj Move.mto _ _ (bbSquares_nodup _)
      (fun s m2 hm2 => mto_promo_triple hm2) (fun s => nodup_promo_triple _ _),
    count_map_proj Move.mto _ _ (bbSquares_nodup _) (fun s => rfl),
    count_map_proj Move.mto _ _ (bbSquares_nodup _) (fun s => rfl)]

theorem testBit_shl_iff {k b i : Nat} :
    (shl k b).testBit i = true ↔ i < 64 ∧ k ≤ i ∧ b.testBit (i - k) = true := by
  rw [testBit_shl]
  simp [and_assoc]

theorem testBit_shr_iff {k b i : Nat} :
    (shr k b).testBit i = true ↔ b.testBit (k + i) = true := by
  rw [testBit_shr]

theorem piecesBB_testBit_iff {pos : Position} {c : Color} {pt : PieceType} {k : Nat} :
    (pos.piecesBB c pt).testBit k = true ↔ k < 64 ∧ pos.board k = some (c, pt) := by
  rw [piecesBB_testBit]
  simp

theorem testBit_bnot_iff {b i : Nat} :
    (bnot b).testBit i = true ↔ i < 64 ∧ b.testBit i = false := by
  rw [testBit_bnot]
  by_cases h : i < 64 <;> simp [h]

theorem bnotFileA_testBit {t : Nat} :
    (bnot FileABB).testBit t = true ↔ t < 64 ∧ t % 8 ≠ 0 := by
  rw [testBit_bnot_iff]
  constructor
  · rintro ⟨h64, hf⟩
    refine ⟨h64, fun hc => ?_⟩
    rw [Bool.eq_false_iff] at hf
    exact hf (FileABB_testBit.mpr ⟨h64, hc⟩)
  · rintro ⟨h64, hf⟩
    refine ⟨h64, ?_⟩
    rw [Bool.eq_false_iff]
    intro hc
    exact hf (FileABB_testBit.mp hc).2

theorem bnotFileH_testBit {t : Nat} :
    (bnot FileHBB).testBit t = true ↔ t < 64 ∧ t % 8 ≠ 7 := by
  rw [testBit_bnot_iff]
  constructor
  · rintro ⟨h64, hf⟩
    refine ⟨h64, fun hc => ?_⟩
    rw [Bool.eq_false_iff] at hf
    exact hf (FileHBB_testBit.mpr ⟨h64, hc⟩)
  · rintro ⟨h64, hf⟩
    refine ⟨h64, ?_⟩
    rw [Bool.eq_false_iff]
    intro hc
    exact hf (FileHBB_testBit.mp hc).2

theorem bnotRank8_testBit {t : Nat} :
    (bnot Rank8BB).testBit t = true ↔ t < 64 ∧ t / 8 ≠ 7 := by
  rw [testBit_bnot_iff]
  constructor
  · rintro ⟨h64, hf⟩
    refine ⟨h64, fun hc => ?_⟩
    rw [Bool.eq_false_iff] at hf
    exact hf (Rank8BB_testBit.mpr ⟨h64, hc⟩)
  · rintro ⟨h64, hf⟩
    refine ⟨h64, ?_⟩
    rw [Bool.eq_false_iff]
    intro hc
    exact hf (Rank8BB_testBit.mp hc).2

theorem bnotRank1_testBit {t : Nat} :
    (bnot Rank1BB).testBit t = true ↔ t < 64 ∧ t / 8 ≠ 0 := by
  rw [testBit_bnot_iff]
  constructor
  · rintro ⟨h64, hf⟩
    refine ⟨h64, fun hc => ?_⟩
    rw [Bool.eq_false_iff] at hf
    exact hf (Rank1BB_testBit.mpr ⟨h64, hc⟩)
  · rintro ⟨h64, hf⟩
    refine ⟨h64, ?_⟩
    rw [Bool.eq_false_iff]
    intro hc
    exact hf (Rank1BB_testBit.mp hc).2

/-- Flattened condition of the white pawn capture segment in the a1h8
direction without promotion. -/
theorem wpc_ne_cond (pos : Position) (m : Move) :
    (m.mto ∈ bbSquares (shl 9 (pos.pawns Color.white) &&& bnot FileABB &&&
        pos.pieces_of_color Color.black &&& bnot Rank8BB) ∧
      m = make_move (m.mto - 9) m.mto) ↔
    (m.kind = MoveKind.normal ∧ m.mto = m.mfrom + 9 ∧ m.mfrom < 64 ∧ m.mto < 64 ∧
      m.mto % 8 ≠ 0 ∧ pos.board m.mfrom = some (Color.white, PieceType.pawn) ∧
      (pos.board m.mto).map Prod.fst = some Color.black ∧ m.mto / 8 ≠ 7) := by
  rw [mem_bbSquares, move_eq_make_iff, Position.pawns]
  simp only [Nat.testBit_land, Bool.and_eq_true, testBit_shl_iff, piecesBB_testBit_iff,
    bnotFileA_testBit, bnotRank8_testBit, pieces_of_color_testBit]
  constructor
  · rintro ⟨⟨h64, ⟨⟨⟨_, h9, _, hb1⟩, _, hA⟩, _, hB⟩, _, hR⟩, hf, _, hk⟩
    have hf2 : m.mto = m.mfrom + 9 := by omega
    have hb2 : pos.board m.mfrom = some (Color.white, PieceType.pawn) := by
      rw [hf]; exact hb1
    exact ⟨hk, hf2, by omega, h64, hA, hb2, hB, hR⟩
  · rintro ⟨hk, hto, hf64, h64, hA, hb, hB, hR⟩
    have hf : m.mfrom = m.mto - 9 := by omega
    exact ⟨⟨h64, ⟨⟨⟨h64, by omega, by omega, by rw [← hf]; exact hb⟩, h64, hA⟩,
      h64, hB⟩, h64, hR⟩, hf, trivial, hk⟩

/-- With a unique king, a square holding the king is the king square. -/
theorem eq_king_square_of_board {pos : Position} (hok : pos.is_ok = true) {c : Color}
    {s : Nat} (hs : pos.board s = some (c, PieceType.king)) (h64 : s < 64) :
    s = pos.king_square c := by
  rw [Position.is_ok, Bool.and_eq_true, decide_eq_true_eq, decide_eq_true_eq] at hok
  have hc : (List.range 64).countP
      (fun q => decide (pos.board q = some (c, PieceType.king))) = 1 := by
    cases c
    · exact hok.1
    · exact hok.2
  rw [List.countP_eq_length_filter] at hc
  obtain ⟨a, ha⟩ := List.length_eq_one.mp hc
  have hmem : s ∈ (List.range 64).filter
      (fun q => decide (pos.board q = some (c, PieceType.king))) := by
    rw [List.mem_filter, List.mem_range]
    exact ⟨h64, by simp [hs]⟩
  rw [ha, List.mem_singleton] at hmem
  have hks : pos.king_square c = a := by
    rw [Position.king_square, ha]; rfl
  rw [hks, hmem]

/-- The swap remove compaction keeps exactly the entries passing the
test: its result is a permutation of the filtered list. -/
theorem swapCompactAux_perm (legal : Move → Bool) :
    ∀ (fuel : Nat) (l : List Move), l.length ≤ fuel →
      (swapCompactAux legal fuel l).Perm (l.filter legal) := by
  intro fuel
  induction fuel with
  | zero =>
    intro l hl
    have hnil : l = [] := List.eq_nil_of_length_eq_zero (Nat.le_zero.mp hl)
    subst hnil
    simp [swapCompactAux]
  | succ n ih =>
    intro l hl
    match l with
    | [] => simp [swapCompactAux]
    | x :: xs =>
      have hxs : xs.length ≤ n := by
        have := hl
        rw [List.length_cons] at this
        omega
      by_cases hx : legal x = true
      · rw [swapCompactAux, if_pos hx, List.filter_cons_of_pos hx]
        exact (ih xs hxs).cons x
      · rw [swapCompactAux, if_neg hx, List.filter_cons_of_neg hx]
        by_cases hnil : xs = []
        · rw [dif_pos hnil]
          subst hnil
          simp
        · rw [dif_neg hnil]
          have hlen : (xs.getLast hnil :: xs.dropLast).length ≤ n := by
            rw [List.length_cons, List.length_dropLast]
            have : xs.length ≠ 0 := fun h0 => hnil (List.eq_nil_of_length_eq_zero h0)
            omega
          have hperm : (xs.getLast hnil :: xs.dropLast).Perm xs := by
            conv_rhs => rw [← List.dropLast_append_getLast hnil]
            exact (List.perm_append_singleton _ _).symm
          exact ((ih _ hlen).trans (List.Perm.filter legal hperm))

theorem swapCompact_perm (legal : Move → Bool) (l : List Move) :
    (swapCompact legal l).Perm (l.filter legal) :=
  swapCompactAux_perm legal l.length l (Nat.le_refl _)

/-- C1: generate_legal_moves returns exactly generate_evasions when the
side to move is in check; otherwise it returns the moves produced by
generate_captures followed by generate_noncaptures, compacted in place to
keep precisely the moves m passing move_is_legal with the pinned pieces of
the side to move: the result is a permutation of the filtered
concatenation (the in place compaction reorders surviving entries but
keeps exactly the legal ones, with multiplicity). -/
theorem c1_legal_moves_spec (pos : Position) (hok : pos.is_ok = true) :
    (pos.is_check = true → generate_legal_moves pos = generate_evasions pos) ∧
    (pos.is_check = false →
      (generate_legal_moves pos).Perm
        ((generate_captures pos ++ generate_noncaptures pos).filter
          (fun m => pos.move_is_legal m (pos.pinned_pieces pos.side_to_move)))) := by
  constructor
  · intro h
    rw [generate_legal_moves, if_pos h]
  · intro h
    rw [generate_legal_moves, if_neg (by rw [h]; exact Bool.false_ne_true)]
    exact swapCompact_perm _ _

/-- Witness for c1_legal_moves_spec, at a check position and at a quiet
position. -/
theorem c1_legal_moves_spec_witness :
    generate_legal_moves posRookCheck = generate_evasions posRookCheck ∧
    (generate_legal_moves posMidPawn).Perm
      ((generate_captures posMidPawn ++ generate_noncaptures posMidPawn).filter
        (fun m => posMidPawn.move_is_legal m
          (posMidPawn.pinned_pieces posMidPawn.side_to_move))) :=
  ⟨(c1_legal_moves_spec posRookCheck (by decide)).1 (by decide),
   (c1_legal_moves_spec posMidPawn (by decide)).2 (by decide)⟩


/-- Flattened condition of the white pawn capture segment in the a1h8
direction with queen promotion. -/
theorem wpc_nep_cond (pos : Position) (m : Move) :
    (m.mto ∈ bbSquares (shl 9 (pos.pawns Color.white) &&& bnot FileABB &&&
        pos.pieces_of_color Color.black &&& Rank8BB) ∧
      m = make_promotion_move (m.mto - 9) m.mto PieceType.queen) ↔
    (m.kind = MoveKind.promo PieceType.queen ∧ m.mto = m.mfrom + 9 ∧ m.mfrom < 64 ∧
      m.mto < 64 ∧ m.mto % 8 ≠ 0 ∧
      pos.board m.mfrom = some (Color.white, PieceType.pawn) ∧
      (pos.board m.mto).map Prod.fst = some Color.black ∧ m.mto / 8 = 7) := by
  rw [mem_bbSquares, move_eq_promo_iff, Position.pawns]
  simp only [Nat.testBit_land, Bool.and_eq_true, testBit_shl_iff, piecesBB_testBit_iff,
    bnotFileA_testBit, Rank8BB_testBit, pieces_of_color_testBit]
  constructor
  · rintro ⟨⟨h64, ⟨⟨⟨_, h9, _, hb1⟩, _, hA⟩, _, hB⟩, _, hR⟩, hf, _, hk⟩
    have hf2 : m.mto = m.mfrom + 9 := by omega
    have hb2 : pos.board m.mfrom = some (Color.white, PieceType.pawn) := by
      rw [hf]; exact hb1
    exact ⟨hk, hf2, by omega, h64, hA, hb2, hB, hR⟩
  · rintro ⟨hk, hto, hf64, h64, hA, hb, hB, hR⟩
    have hf : m.mfrom = m.mto - 9 := by omega
    exact ⟨⟨h64, ⟨⟨⟨h64, by omega, by omega, by rw [← hf]; exact hb⟩, h64, hA⟩,
      h64, hB⟩, h64, hR⟩, hf, trivial, hk⟩

/-- Flattened condition of the white pawn capture segment in the h1a8
direction without promotion. -/
theorem wpc_nw_cond (pos : Position) (m : Move) :
    (m.mto ∈ bbSquares (shl 7 (pos.pawns Color.white) &&& bnot FileHBB &&&
        pos.pieces_of_color Color.black &&& bnot Rank8BB) ∧
      m = make_move (m.mto - 7) m.mto) ↔
    (m.kind = MoveKind.normal ∧ m.mto = m.mfrom + 7 ∧ m.mfrom < 64 ∧ m.mto < 64 ∧
      m.mto % 8 ≠ 7 ∧ pos.board m.mfrom = some (Color.white, PieceType.pawn) ∧
      (pos.board m.mto).map Prod.fst = some Color.black ∧ m.mto / 8 ≠ 7) := by
  rw [mem_bbSquares, move_eq_make_iff, Position.pawns]
  simp only [Nat.testBit_land, Bool.and_eq_true, testBit_shl_iff, piecesBB_testBit_iff,
    bnotFileH_testBit, bnotRank8_testBit, pieces_of_color_testBit]
  constructor
  · rintro ⟨⟨h64, ⟨⟨⟨_, h9, _, hb1⟩, _, hA⟩, _, hB⟩, _, hR⟩, hf, _, hk⟩
    have hf2 : m.mto = m.mfrom + 7 := by omega
    have hb2 : pos.board m.mfrom = some (Color.white, PieceType.pawn) := by
      rw [hf]; exact hb1
    exact ⟨hk, hf2, by omega, h64, hA, hb2, hB, hR⟩
  · rintro ⟨hk, hto, hf64, h64, hA, hb, hB, hR⟩
    have hf : m.mfrom = m.mto - 7 := by omega
    exact ⟨⟨h64, ⟨⟨⟨h64, by omega, by omega, by rw [← hf]; exact hb⟩, h64, hA⟩,
      h64, hB⟩, h64, hR⟩, hf, trivial, hk⟩

/-- Flattened condition of the white pawn capture segment in the h1a8
direction with queen promotion. -/
theorem wpc_nwp_cond (pos : Position) (m : Move) :
    (m.mto ∈ bbSquares (shl 7 (pos.pawns Color.white) &&& bnot FileHBB &&&
        pos.pieces_of_color Color.black &&& Rank8BB) ∧
      m = make_promotion_move (m.mto - 7) m.mto PieceType.queen) ↔
    (m.kind = MoveKind.promo PieceType.queen ∧ m.mto = m.mfrom + 7 ∧ m.mfrom < 64 ∧
      m.mto < 64 ∧ m.mto % 8 ≠ 7 ∧
      pos.board m.mfrom = some (Color.white, PieceType.pawn) ∧
      (pos.board m.mto).map Prod.fst = some Color.black ∧ m.mto / 8 = 7) := by
  rw [mem_bbSquares, move_eq_promo_iff, Position.pawns]
  simp only [Nat.testBit_land, Bool.and_eq_true, testBit_shl_iff, piecesBB_testBit_iff,
    bnotFileH_testBit, Rank8BB_testBit, pieces_of_color_testBit]
  constructor
  · rintro ⟨⟨h64, ⟨⟨⟨_, h9, _, hb1⟩, _, hA⟩, _, hB⟩, _, hR⟩, hf, _, hk⟩
    have hf2 : m.mto = m.mfrom + 7 := by omega
    have hb2 : pos.board m.mfrom = some (Color.white, PieceType.pawn) := by
      rw [hf]; exact hb1
    exact ⟨hk, hf2, by omega, h64, hA, hb2, hB, hR⟩
  · rintro ⟨hk, hto, hf64, h64, hA, hb, hB, hR⟩
    have hf : m.mfrom = m.mto - 7 := by omega
    exact ⟨⟨h64, ⟨⟨⟨h64, by omega, by omega, by rw [← hf]; exact hb⟩, h64, hA⟩,
      h64, hB⟩, h64, hR⟩, hf, trivial, hk⟩

/-- Flattened condition of the white non capturing queen promotion
segment. -/
theorem wpc_pushp_cond (pos : Position) (m : Move) :
    (m.mto ∈ bbSquares (shl 8 (pos.pawns Color.white) &&& pos.empty_squares &&&
        Rank8BB) ∧
      m = make_promotion_move (m.mto - 8) m.mto PieceType.queen) ↔
    (m.kind = MoveKind.promo PieceType.queen ∧ m.mto = m.mfrom + 8 ∧ m.mfrom < 64 ∧
      m.mto < 64 ∧ pos.board m.mfrom = some (Color.white, PieceType.pawn) ∧
      pos.board m.mto = none ∧ m.mto / 8 = 7) := by
  rw [mem_bbSquares, move_eq_promo_iff, Position.pawns]
  simp only [Nat.testBit_land, Bool.and_eq_true, testBit_shl_iff, piecesBB_testBit_iff,
    empty_squares_testBit, Rank8BB_testBit]
  constructor
  · rintro ⟨⟨h64, ⟨⟨_, h8, _, hb1⟩, _, hE⟩, _, hR⟩, hf, _, hk⟩
    have hf2 : m.mto = m.mfrom + 8 := by omega
    have hb2 : pos.board m.mfrom = some (Color.white, PieceType.pawn) := by
      rw [hf]; exact hb1
    exact ⟨hk, hf2, by omega, h64, hb2, hE, hR⟩
  · rintro ⟨hk, hto, hf64, h64, hb, hE, hR⟩
    have hf : m.mfrom = m.mto - 8 := by omega
    exact ⟨⟨h64, ⟨⟨h64, by omega, by omega, by rw [← hf]; exact hb⟩, h64, hE⟩,
      h64, hR⟩, hf, trivial, hk⟩

/-- Flattened condition of the white en passant capture segment. -/
theorem wpc_ep_cond (pos : Position) (ep : Nat) (m : Move) :
    (m.mfrom ∈ bbSquares (pos.pawns Color.white &&& black_pawn_attacks_bb ep) ∧
      m = make_ep_move m.mfrom ep) ↔
    (m.kind = MoveKind.ep ∧ m.mto = ep ∧ m.mfrom < 64 ∧
      pos.board m.mfrom = some (Color.white, PieceType.pawn) ∧
      bPawnStep ep m.mfrom = true) := by
  rw [mem_bbSquares, Position.pawns, black_pawn_attacks_bb]
  simp only [Nat.testBit_land, Bool.and_eq_true, piecesBB_testBit_iff,
    testBit_bbOfPred_iff]
  constructor
  · rintro ⟨⟨h64, ⟨_, hb⟩, _, hstep⟩, hmv⟩
    have h1 := move_eq_ep_iff.mp hmv
    exact ⟨h1.2.2, h1.2.1, h64, hb, hstep⟩
  · rintro ⟨hk, hto, h64, hb, hstep⟩
    refine ⟨⟨h64, ⟨h64, hb⟩, h64, hstep⟩, move_eq_ep_iff.mpr ⟨rfl, hto, hk⟩⟩

/-- Flattened condition of the white underpromotion capture segment in
the a1h8 direction. -/
theorem wpn_neu_cond (pos : Position) (m : Move) :
    (m.mto ∈ bbSquares (shl 9 (pos.pawns Color.white) &&& bnot FileABB &&&
        pos.pieces_of_color Color.black &&& Rank8BB) ∧
      m ∈ [make_promotion_move (m.mto - 9) m.mto PieceType.rook,
           make_promotion_move (m.mto - 9) m.mto PieceType.bishop,
           make_promotion_move (m.mto - 9) m.mto PieceType.knight]) ↔
    ((m.kind = MoveKind.promo PieceType.rook ∨ m.kind = MoveKind.promo PieceType.bishop ∨
        m.kind = MoveKind.promo PieceType.knight) ∧
      m.mto = m.mfrom + 9 ∧ m.mfrom < 64 ∧ m.mto < 64 ∧ m.mto % 8 ≠ 0 ∧
      pos.board m.mfrom = some (Color.white, PieceType.pawn) ∧
      (pos.board m.mto).map Prod.fst = some Color.black ∧ m.mto / 8 = 7) := by
  rw [mem_bbSquares, Position.pawns]
  simp only [Nat.testBit_land, Bool.and_eq_true, testBit_shl_iff, piecesBB_testBit_iff,
    bnotFileA_testBit, Rank8BB_testBit, pieces_of_color_testBit, List.mem_cons,
    List.not_mem_nil, or_false, move_eq_promo_iff]
  constructor
  · rintro ⟨⟨h64, ⟨⟨⟨_, h9, _, hb1⟩, _, hA⟩, _, hB⟩, _, hR⟩, hin⟩
    have hf2 : m.mfrom = m.mto - 9 ∧
        (m.kind = MoveKind.promo PieceType.rook ∨
         m.kind = MoveKind.promo PieceType.bishop ∨
         m.kind = MoveKind.promo PieceType.knight) := by
      rcases hin with ⟨hf, _, hk⟩ | ⟨hf, _, hk⟩ | ⟨hf, _, hk⟩
      · exact ⟨hf, Or.inl hk⟩
      · exact ⟨hf, Or.inr (Or.inl hk)⟩
      · exact ⟨hf, Or.inr (Or.inr hk)⟩
    obtain ⟨hf, hkd⟩ := hf2
    have hb2 : pos.board m.mfrom = some (Color.white, PieceType.pawn) := by
      rw [hf]; exact hb1
    exact ⟨hkd, by omega, by omega, h64, hA, hb2, hB, hR⟩
  · rintro ⟨hkd, hto, hf64, h64, hA, hb, hB, hR⟩
    have hf : m.mfrom = m.mto - 9 := by omega
    refine ⟨⟨h64, ⟨⟨⟨h64, by omega, by omega, by rw [← hf]; exact hb⟩, h64, hA⟩,
      h64, hB⟩, h64, hR⟩, ?_⟩
    rcases hkd with hk | hk | hk
    · exact Or.inl ⟨hf, trivial, hk⟩
    · exact Or.inr (Or.inl ⟨hf, trivial, hk⟩)
    · exact Or.inr (Or.inr ⟨hf, trivial, hk⟩)

/-- Flattened condition of the white underpromotion capture segment in
the h1a8 direction. -/
theorem wpn_nwu_cond (pos : Position) (m : Move) :
    (m.mto ∈ bbSquares (shl 7 (pos.pawns Color.white) &&& bnot FileHBB &&&
        pos.pieces_of_color Color.black &&& Rank8BB) ∧
      m ∈ [make_promotion_move (m.mto - 7) m.mto PieceType.rook,
           make_promotion_move (m.mto - 7) m.mto PieceType.bishop,
           make_promotion_move (m.mto - 7) m.mto PieceType.knight]) ↔
    ((m.kind = MoveKind.promo PieceType.rook ∨ m.kind = MoveKind.promo PieceType.bishop ∨
        m.kind = MoveKind.promo PieceType.knight) ∧
      m.mto = m.mfrom + 7 ∧ m.mfrom < 64 ∧ m.mto < 64 ∧ m.mto % 8 ≠ 7 ∧
      pos.board m.mfrom = some (Color.white, PieceType.pawn) ∧
      (pos.board m.mto).map Prod.fst = some Color.black ∧ m.mto / 8 = 7) := by
  rw [mem_bbSquares, Position.pawns]
  simp only [Nat.testBit_land, Bool.and_eq_true, testBit_shl_iff, piecesBB_testBit_iff,
    bnotFileH_testBit, Rank8BB_testBit, pieces_of_color_testBit, List.mem_cons,
    List.not_mem_nil, or_false, move_eq_promo_iff]
  constructor
  · rintro ⟨⟨h64, ⟨⟨⟨_, h9, _, hb1⟩, _, hA⟩, _, hB⟩, _, hR⟩, hin⟩
    have hf2 : m.mfrom = m.mto - 7 ∧
        (m.kind = MoveKind.promo PieceType.rook ∨
         m.kind = MoveKind.promo PieceType.bishop ∨
         m.kind = MoveKind.promo PieceType.knight) := by
      rcases hin with ⟨hf, _, hk⟩ | ⟨hf, _, hk⟩ | ⟨hf, _, hk⟩
      · exact ⟨hf, Or.inl hk⟩
      · exact ⟨hf, Or.inr (Or.inl hk)⟩
      · exact ⟨hf, Or.inr (Or.inr hk)⟩
    obtain ⟨hf, hkd⟩ := hf2
    have hb2 : pos.board m.mfrom = some (Color.white, PieceType.pawn) := by
      rw [hf]; exact hb1
    exact ⟨hkd, by omega, by omega, h64, hA, hb2, hB, hR⟩
  · rintro ⟨hkd, hto, hf64, h64, hA, hb, hB, hR⟩
    have hf : m.mfrom = m.mto - 7 := by omega
    refine ⟨⟨h64, ⟨⟨⟨h64, by omega, by omega, by rw [← hf]; exact hb⟩, h64, hA⟩,
      h64, hB⟩, h64, hR⟩, ?_⟩
    rcases hkd with hk | hk | hk
    · exact Or.inl ⟨hf, trivial, hk⟩
    · exact Or.inr (Or.inl ⟨hf, trivial, hk⟩)
    · exact Or.inr (Or.inr ⟨hf, trivial, hk⟩)

/-- Flattened condition of the white underpromotion push segment. -/
theorem wpn_pushu_cond (pos : Position) (m : Move) :
    (m.mto ∈ bbSquares (shl 8 (pos.pawns Color.white) &&& pos.empty_squares &&&
        Rank8BB) ∧
      m ∈ [make_promotion_move (m.mto - 8) m.mto PieceType.rook,
           make_promotion_move (m.mto - 8) m.mto PieceType.bishop,
           make_promotion_move (m.mto - 8) m.mto PieceType.knight]) ↔
    ((m.kind = MoveKind.promo PieceType.rook ∨ m.kind = MoveKind.promo PieceType.bishop ∨
        m.kind = MoveKind.promo PieceType.knight) ∧
      m.mto = m.mfrom + 8 ∧ m.mfrom < 64 ∧ m.mto < 64 ∧
      pos.board m.mfrom = some (Color.white, PieceType.pawn) ∧
      pos.board m.mto = none ∧ m.mto / 8 = 7) := by
  rw [mem_bbSquares, Position.pawns]
  simp only [Nat.testBit_land, Bool.and_eq_true, testBit_shl_iff, piecesBB_testBit_iff,
    empty_squares_testBit, Rank8BB_testBit, List.mem_cons,
    List.not_mem_nil, or_false, move_eq_promo_iff]
  constructor
  · rintro ⟨⟨h64, ⟨⟨_, h8, _, hb1⟩, _, hE⟩, _, hR⟩, hin⟩
    have hf2 : m.mfrom = m.mto - 8 ∧
        (m.kind = MoveKind.promo PieceType.rook ∨
         m.kind = MoveKind.promo PieceType.bishop ∨
         m.kind = MoveKind.promo PieceType.knight) := by
      rcases hin with ⟨hf, _, hk⟩ | ⟨hf, _, hk⟩ | ⟨hf, _, hk⟩
      · exact ⟨hf, Or.inl hk⟩
      · exact ⟨hf, Or.inr (Or.inl hk)⟩
      · exact ⟨hf, Or.inr (Or.inr hk)⟩
    obtain ⟨hf, hkd⟩ := hf2
    have hb2 : pos.board m.mfrom = some (Color.white, PieceType.pawn) := by
      rw [hf]; exact hb1
    exact ⟨hkd, by omega, by omega, h64, hb2, hE, hR⟩
  · rintro ⟨hkd, hto, hf64, h64, hb, hE, hR⟩
    have hf : m.mfrom = m.mto - 8 := by omega
    refine ⟨⟨h64, ⟨⟨h64, by omega, by omega, by rw [← hf]; exact hb⟩, h64, hE⟩,
      h64, hR⟩, ?_⟩
    rcases hkd with hk | hk | hk
    · exact Or.inl ⟨hf, trivial, hk⟩
    · exact Or.inr (Or.inl ⟨hf, trivial, hk⟩)
    · exact Or.inr (Or.inr ⟨hf, trivial, hk⟩)

/-- Flattened condition of the white single pawn push segment. -/
theorem wpn_push_cond (pos : Position) (m : Move) :
    (m.mto ∈ bbSquares (shl 8 (pos.pawns Color.white) &&& pos.empty_squares &&&
        bnot Rank8BB) ∧
      m = make_move (m.mto - 8) m.mto) ↔
    (m.kind = MoveKind.normal ∧ m.mto = m.mfrom + 8 ∧ m.mfrom < 64 ∧ m.mto < 64 ∧
      pos.board m.mfrom = some (Color.white, PieceType.pawn) ∧
      pos.board m.mto = none ∧ m.mto / 8 ≠ 7) := by
  rw [mem_bbSquares, move_eq_make_iff, Position.pawns]
  simp only [Nat.testBit_land, Bool.and_eq_true, testBit_shl_iff, piecesBB_testBit_iff,
    empty_squares_testBit, bnotRank8_testBit]
  constructor
  · rintro ⟨⟨h64, ⟨⟨_, h8, _, hb1⟩, _, hE⟩, _, hR⟩, hf, _, hk⟩
    have hf2 : m.mto = m.mfrom + 8 := by omega
    have hb2 : pos.board m.mfrom = some (Color.white, PieceType.pawn) := by
      rw [hf]; exact hb1
    exact ⟨hk, hf2, by omega, h64, hb2, hE, hR⟩
  · rintro ⟨hk, hto, hf64, h64, hb, hE, hR⟩
    have hf : m.mfrom = m.mto - 8 := by omega
    exact ⟨⟨h64, ⟨⟨h64, by omega, by omega, by rw [← hf]; exact hb⟩, h64, hE⟩,
      h64, hR⟩, hf, trivial, hk⟩

/-- Flattened condition of the white double pawn push segment. -/
theorem wpn_dbl_cond (pos : Position) (m : Move) :
    (m.mto ∈ bbSquares (shl 8 (shl 8 (pos.pawns Color.white) &&&
        pos.empty_squares &&& Rank3BB) &&& pos.empty_squares) ∧
      m = make_move (m.mto - 16) m.mto) ↔
    (m.kind = MoveKind.normal ∧ m.mto = m.mfrom + 16 ∧ m.mfrom < 64 ∧ m.mto < 64 ∧
      pos.board m.mfrom = some (Color.white, PieceType.pawn) ∧
      pos.board (m.mfrom + 8) = none ∧ (m.mfrom + 8) / 8 = 2 ∧
      pos.board m.mto = none) := by
  rw [mem_bbSquares, move_eq_make_iff, Position.pawns]
  simp only [Nat.testBit_land, Bool.and_eq_true, testBit_shl_iff, piecesBB_testBit_iff,
    empty_squares_testBit, Rank3BB_testBit]
  constructor
  · rintro ⟨⟨h64, ⟨_, h8, ⟨⟨_, h8b, _, hb1⟩, _, hE1⟩, _, hR3⟩, _, hE2⟩, hf, _, hk⟩
    have hf2 : m.mto = m.mfrom + 16 := by omega
    have he1 : m.mto - 8 - 8 = m.mfrom := by omega
    have he2 : m.mto - 8 = m.mfrom + 8 := by omega
    rw [he1] at hb1
    rw [he2] at hE1 hR3
    exact ⟨hk, hf2, by omega, h64, hb1, hE1, hR3, hE2⟩
  · rintro ⟨hk, hto, hf64, h64, hb, hE1, hR3, hE2⟩
    have hf : m.mfrom = m.mto - 16 := by omega
    have he1 : m.mto - 8 - 8 = m.mfrom := by omega
    have he2 : m.mto - 8 = m.mfrom + 8 := by omega
    exact ⟨⟨h64, ⟨by omega, by omega, ⟨⟨by omega, by omega, by omega,
      by rw [he1]; exact hb⟩, by omega, by rw [he2]; exact hE1⟩,
      by omega, by rw [he2]; exact hR3⟩, h64, hE2⟩, hf, trivial, hk⟩

/-- Flattened condition of the black pawn capture segment in the a8h1
direction without promotion. -/
theorem bpc_se_cond (pos : Position) (m : Move) :
    (m.mto ∈ bbSquares (shr 7 (pos.pawns Color.black) &&& bnot FileABB &&&
        pos.pieces_of_color Color.white &&& bnot Rank1BB) ∧
      m = make_move (m.mto + 7) m.mto) ↔
    (m.kind = MoveKind.normal ∧ m.mfrom = m.mto + 7 ∧ m.mfrom < 64 ∧ m.mto < 64 ∧
      m.mto % 8 ≠ 0 ∧ pos.board m.mfrom = some (Color.black, PieceType.pawn) ∧
      (pos.board m.mto).map Prod.fst = some Color.white ∧ m.mto / 8 ≠ 0) := by
  rw [mem_bbSquares, move_eq_make_iff, Position.pawns]
  simp only [Nat.testBit_land, Bool.and_eq_true, testBit_shr_iff, piecesBB_testBit_iff,
    bnotFileA_testBit, bnotRank1_testBit, pieces_of_color_testBit]
  constructor
  · rintro ⟨⟨h64, ⟨⟨⟨hf64, hb1⟩, _, hA⟩, _, hB⟩, _, hR⟩, hf, _, hk⟩
    have hsw : 7 + m.mto = m.mfrom := by omega
    rw [hsw] at hb1
    exact ⟨hk, hf, by omega, h64, hA, hb1, hB, hR⟩
  · rintro ⟨hk, hfrom, hf64, h64, hA, hb, hB, hR⟩
    have hsw : 7 + m.mto = m.mfrom := by omega
    exact ⟨⟨h64, ⟨⟨⟨by omega, by rw [hsw]; exact hb⟩, h64, hA⟩, h64, hB⟩, h64, hR⟩,
      hfrom, trivial, hk⟩

/-- Flattened condition of the black pawn capture segment in the a8h1
direction with queen promotion. -/
theorem bpc_sep_cond (pos : Position) (m : Move) :
    (m.mto ∈ bbSquares (shr 7 (pos.pawns Color.black) &&& bnot FileABB &&&
        pos.pieces_of_color Color.white &&& Rank1BB) ∧
      m = make_promotion_move (m.mto + 7) m.mto PieceType.queen) ↔
    (m.kind = MoveKind.promo PieceType.queen ∧ m.mfrom = m.mto + 7 ∧ m.mfrom < 64 ∧
      m.mto < 64 ∧ m.mto % 8 ≠ 0 ∧
      pos.board m.mfrom = some (Color.black, PieceType.pawn) ∧
      (pos.board m.mto).map Prod.fst = some Color.white ∧ m.mto / 8 = 0) := by
  rw [mem_bbSquares, move_eq_promo_iff, Position.pawns]
  simp only [Nat.testBit_land, Bool.and_eq_true, testBit_shr_iff, piecesBB_testBit_iff,
    bnotFileA_testBit, Rank1BB_testBit, pieces_of_color_testBit]
  constructor
  · rintro ⟨⟨h64, ⟨⟨⟨hf64, hb1⟩, _, hA⟩, _, hB⟩, _, hR⟩, hf, _, hk⟩
    have hsw : 7 + m.mto = m.mfrom := by omega
    rw [hsw] at hb1
    exact ⟨hk, hf, by omega, h64, hA, hb1, hB, hR⟩
  · rintro ⟨hk, hfrom, hf64, h64, hA, hb, hB, hR⟩
    have hsw : 7 + m.mto = m.mfrom := by omega
    exact ⟨⟨h64, ⟨⟨⟨by omega, by rw [hsw]; exact hb⟩, h64, hA⟩, h64, hB⟩, h64, hR⟩,
      hfrom, trivial, hk⟩

/-- Flattened condition of the black pawn capture segment in the h8a1
direction without promotion. -/
theorem bpc_sw_cond (pos : Position) (m : Move) :
    (m.mto ∈ bbSquares (shr 9 (pos.pawns Color.black) &&& bnot FileHBB &&&
        pos.pieces_of_color Color.white &&& bnot Rank1BB) ∧
      m = make_move (m.mto + 9) m.mto) ↔
    (m.kind = MoveKind.normal ∧ m.mfrom = m.mto + 9 ∧ m.mfrom < 64 ∧ m.mto < 64 ∧
      m.mto % 8 ≠ 7 ∧ pos.board m.mfrom = some (Color.black, PieceType.pawn) ∧
      (pos.board m.mto).map Prod.fst = some Color.white ∧ m.mto / 8 ≠ 0) := by
  rw [mem_bbSquares, move_eq_make_iff, Position.pawns]
  simp only [Nat.testBit_land, Bool.and_eq_true, testBit_shr_iff, piecesBB_testBit_iff,
    bnotFileH_testBit, bnotRank1_testBit, pieces_of_color_testBit]
  constructor
  · rintro ⟨⟨h64, ⟨⟨⟨hf64, hb1⟩, _, hA⟩, _, hB⟩, _, hR⟩, hf, _, hk⟩
    have hsw : 9 + m.mto = m.mfrom := by omega
    rw [hsw] at hb1
    exact ⟨hk, hf, by omega, h64, hA, hb1, hB, hR⟩
  · rintro ⟨hk, hfrom, hf64, h64, hA, hb, hB, hR⟩
    have hsw : 9 + m.mto = m.mfrom := by omega
    exact ⟨⟨h64, ⟨⟨⟨by omega, by rw [hsw]; exact hb⟩, h64, hA⟩, h64, hB⟩, h64, hR⟩,
      hfrom, trivial, hk⟩

/-- Flattened condition of the black pawn capture segment in the h8a1
direction with queen promotion. -/
theorem bpc_swp_cond (pos : Position) (m : Move) :
    (m.mto ∈ bbSquares (shr 9 (pos.pawns Color.black) &&& bnot FileHBB &&&
        pos.pieces_of_color Color.white &&& Rank1BB) ∧
      m = make_promotion_move (m.mto + 9) m.mto PieceType.queen) ↔
    (m.kind = MoveKind.promo PieceType.queen ∧ m.mfrom = m.mto + 9 ∧ m.mfrom < 64 ∧
      m.mto < 64 ∧ m.mto % 8 ≠ 7 ∧
      pos.board m.mfrom = some (Color.black, PieceType.pawn) ∧
      (pos.board m.mto).map Prod.fst = some Color.white ∧ m.mto / 8 = 0) := by
  rw [mem_bbSquares, move_eq_promo_iff, Position.pawns]
  simp only [Nat.testBit_land, Bool.and_eq_true, testBit_shr_iff, piecesBB_testBit_iff,
    bnotFileH_testBit, Rank1BB_testBit, pieces_of_color_testBit]
  constructor
  · rintro ⟨⟨h64, ⟨⟨⟨hf64, hb1⟩, _, hA⟩, _, hB⟩, _, hR⟩, hf, _, hk⟩
    have hsw : 9 + m.mto = m.mfrom := by omega
    rw [hsw] at hb1
    exact ⟨hk, hf, by omega, h64, hA, hb1, hB, hR⟩
  · rintro ⟨hk, hfrom, hf64, h64, hA, hb, hB, hR⟩
    have hsw : 9 + m.mto = m.mfrom := by omega
    exact ⟨⟨h64, ⟨⟨⟨by omega, by rw [hsw]; exact hb⟩, h64, hA⟩, h64, hB⟩, h64, hR⟩,
      hfrom, trivial, hk⟩

/-- Flattened condition of the black non capturing queen promotion
segment. -/
theorem bpc_pushp_cond (pos : Position) (m : Move) :
    (m.mto ∈ bbSquares (shr 8 (pos.pawns Color.black) &&& pos.empty_squares &&&
        Rank1BB) ∧
      m = make_promotion_move (m.mto + 8) m.mto PieceType.queen) ↔
    (m.kind = MoveKind.promo PieceType.queen ∧ m.mfrom = m.mto + 8 ∧ m.mfrom < 64 ∧
      m.mto < 64 ∧ pos.board m.mfrom = some (Color.black, PieceType.pawn) ∧
      pos.board m.mto = none ∧ m.mto / 8 = 0) := by
  rw [mem_bbSquares, move_eq_promo_iff, Position.pawns]
  simp only [Nat.testBit_land, Bool.and_eq_true, testBit_shr_iff, piecesBB_testBit_iff,
    empty_squares_testBit, Rank1BB_testBit]
  constructor
  · rintro ⟨⟨h64, ⟨⟨hf64, hb1⟩, _, hE⟩, _, hR⟩, hf, _, hk⟩
    have hsw : 8 + m.mto = m.mfrom := by omega
    rw [hsw] at hb1
    exact ⟨hk, hf, by omega, h64, hb1, hE, hR⟩
  · rintro ⟨hk, hfrom, hf64, h64, hb, hE, hR⟩
    have hsw : 8 + m.mto = m.mfrom := by omega
    exact ⟨⟨h64, ⟨⟨by omega, by rw [hsw]; exact hb⟩, h64, hE⟩, h64, hR⟩,
      hfrom, trivial, hk⟩

/-- Flattened condition of the black en passant capture segment. -/
theorem bpc_ep_cond (pos : Position) (ep : Nat) (m : Move) :
    (m.mfrom ∈ bbSquares (pos.pawns Color.black &&& white_pawn_attacks_bb ep) ∧
      m = make_ep_move m.mfrom ep) ↔
    (m.kind = MoveKind.ep ∧ m.mto = ep ∧ m.mfrom < 64 ∧
      pos.board m.mfrom = some (Color.black, PieceType.pawn) ∧
      wPawnStep ep m.mfrom = true) := by
  rw [mem_bbSquares, Position.pawns, white_pawn_attacks_bb]
  simp only [Nat.testBit_land, Bool.and_eq_true, piecesBB_testBit_iff,
    testBit_bbOfPred_iff]
  constructor
  · rintro ⟨⟨h64, ⟨_, hb⟩, _, hstep⟩, hmv⟩
    have h1 := move_eq_ep_iff.mp hmv
    exact ⟨h1.2.2, h1.2.1, h64, hb, hstep⟩
  · rintro ⟨hk, hto, h64, hb, hstep⟩
    refine ⟨⟨h64, ⟨h64, hb⟩, h64, hstep⟩, move_eq_ep_iff.mpr ⟨rfl, hto, hk⟩⟩

/-- Flattened condition of the black underpromotion capture segment in
the a8h1 direction. -/
theorem bpn_seu_cond (pos : Position) (m : Move) :
    (m.mto ∈ bbSquares (shr 7 (pos.pawns Color.black) &&& bnot FileABB &&&
        pos.pieces_of_color Color.white &&& Rank1BB) ∧
      m ∈ [make_promotion_move (m.mto + 7) m.mto PieceType.rook,
           make_promotion_move (m.mto + 7) m.mto PieceType.bishop,
           make_promotion_move (m.mto + 7) m.mto PieceType.knight]) ↔
    ((m.kind = MoveKind.promo PieceType.rook ∨ m.kind = MoveKind.promo PieceType.bishop ∨
        m.kind = MoveKind.promo PieceType.knight) ∧
      m.mfrom = m.mto + 7 ∧ m.mfrom < 64 ∧ m.mto < 64 ∧ m.mto % 8 ≠ 0 ∧
      pos.board m.mfrom = some (Color.black, PieceType.pawn) ∧
      (pos.board m.mto).map Prod.fst = some Color.white ∧ m.mto / 8 = 0) := by
  rw [mem_bbSquares, Position.pawns]
  simp only [Nat.testBit_land, Bool.and_eq_true, testBit_shr_iff, piecesBB_testBit_iff,
    bnotFileA_testBit, Rank1BB_testBit, pieces_of_color_testBit, List.mem_cons,
    List.not_mem_nil, or_false, move_eq_promo_iff]
  constructor
  · rintro ⟨⟨h64, ⟨⟨⟨hf64, hb1⟩, _, hA⟩, _, hB⟩, _, hR⟩, hin⟩
    have hf2 : m.mfrom = m.mto + 7 ∧
        (m.kind = MoveKind.promo PieceType.rook ∨
         m.kind = MoveKind.promo PieceType.bishop ∨
         m.kind = MoveKind.promo PieceType.knight) := by
      rcases hin with ⟨hf, _, hk⟩ | ⟨hf, _, hk⟩ | ⟨hf, _, hk⟩
      · exact ⟨hf, Or.inl hk⟩
      · exact ⟨hf, Or.inr (Or.inl hk)⟩
      · exact ⟨hf, Or.inr (Or.inr hk)⟩
    obtain ⟨hf, hkd⟩ := hf2
    have hsw : 7 + m.mto = m.mfrom := by omega
    rw [hsw] at hb1
    exact ⟨hkd, hf, by omega, h64, hA, hb1, hB, hR⟩
  · rintro ⟨hkd, hfrom, hf64, h64, hA, hb, hB, hR⟩
    have hsw : 7 + m.mto = m.mfrom := by omega
    refine ⟨⟨h64, ⟨⟨⟨by omega, by rw [hsw]; exact hb⟩, h64, hA⟩, h64, hB⟩, h64, hR⟩, ?_⟩
    rcases hkd with hk | hk | hk
    · exact Or.inl ⟨hfrom, trivial, hk⟩
    · exact Or.inr (Or.inl ⟨hfrom, trivial, hk⟩)
    · exact Or.inr (Or.inr ⟨hfrom, trivial, hk⟩)

/-- Flattened condition of the black underpromotion capture segment in
the h8a1 direction. -/
theorem bpn_swu_cond (pos : Position) (m : Move) :
    (m.mto ∈ bbSquares (shr 9 (pos.pawns Color.black) &&& bnot FileHBB &&&
        pos.pieces_of_color Color.white &&& Rank1BB) ∧
      m ∈ [make_promotion_move (m.mto + 9) m.mto PieceType.rook,
           make_promotion_move (m.mto + 9) m.mto PieceType.bishop,
           make_promotion_move (m.mto + 9) m.mto PieceType.knight]) ↔
    ((m.kind = MoveKind.promo PieceType.rook ∨ m.kind = MoveKind.promo PieceType.bishop ∨
        m.kind = MoveKind.promo PieceType.knight) ∧
      m.mfrom = m.mto + 9 ∧ m.mfrom < 64 ∧ m.mto < 64 ∧ m.mto % 8 ≠ 7 ∧
      pos.board m.mfrom = some (Color.black, PieceType.pawn) ∧
      (pos.board m.mto).map Prod.fst = some Color.white ∧ m.mto / 8 = 0) := by
  rw [mem_bbSquares, Position.pawns]
  simp only [Nat.testBit_land, Bool.and_eq_true, testBit_shr_iff, piecesBB_testBit_iff,
    bnotFileH_testBit, Rank1BB_testBit, pieces_of_color_testBit, List.mem_cons,
    List.not_mem_nil, or_false, move_eq_promo_iff]
  constructor
  · rintro ⟨⟨h64, ⟨⟨⟨hf64, hb1⟩, _, hA⟩, _, hB⟩, _, hR⟩, hin⟩
    have hf2 : m.mfrom = m.mto + 9 ∧
        (m.kind = MoveKind.promo PieceType.rook ∨
         m.kind = MoveKind.promo PieceType.bishop ∨
         m.kind = MoveKind.promo PieceType.knight) := by
      rcases hin with ⟨hf, _, hk⟩ | ⟨hf, _, hk⟩ | ⟨hf, _, hk⟩
      · exact ⟨hf, Or.inl hk⟩
      · exact ⟨hf, Or.inr (Or.inl hk)⟩
      · exact ⟨hf, Or.inr (Or.inr hk)⟩
    obtain ⟨hf, hkd⟩ := hf2
    have hsw : 9 + m.mto = m.mfrom := by omega
    rw [hsw] at hb1
    exact ⟨hkd, hf, by omega, h64, hA, hb1, hB, hR⟩
  · rintro ⟨hkd, hfrom, hf64, h64, hA, hb, hB, hR⟩
    have hsw : 9 + m.mto = m.mfrom := by omega
    refine ⟨⟨h64, ⟨⟨⟨by omega, by rw [hsw]; exact hb⟩, h64, hA⟩, h64, hB⟩, h64, hR⟩, ?_⟩
    rcases hkd with hk | hk | hk
    · exact Or.inl ⟨hfrom, trivial, hk⟩
    · exact Or.inr (Or.inl ⟨hfrom, trivial, hk⟩)
    · exact Or.inr (Or.inr ⟨hfrom, trivial, hk⟩)

/-- Flattened condition of the black underpromotion push segment. -/
theorem bpn_pushu_cond (pos : Position) (m : Move) :
    (m.mto ∈ bbSquares (shr 8 (pos.pawns Color.black) &&& pos.empty_squares &&&
        Rank1BB) ∧
      m ∈ [make_promotion_move (m.mto + 8) m.mto PieceType.rook,
           make_promotion_move (m.mto + 8) m.mto PieceType.bishop,
           make_promotion_move (m.mto + 8) m.mto PieceType.knight]) ↔
    ((m.kind = MoveKind.promo PieceType.rook ∨ m.kind = MoveKind.promo PieceType.bishop ∨
        m.kind = MoveKind.promo PieceType.knight) ∧
      m.mfrom = m.mto + 8 ∧ m.mfrom < 64 ∧ m.mto < 64 ∧
      pos.board m.mfrom = some (Color.black, PieceType.pawn) ∧
      pos.board m.mto = none ∧ m.mto / 8 = 0) := by
  rw [mem_bbSquares, Position.pawns]
  simp only [Nat.testBit_land, Bool.and_eq_true, testBit_shr_iff, piecesBB_testBit_iff,
    empty_squares_testBit, Rank1BB_testBit, List.mem_cons,
    List.not_mem_nil, or_false, move_eq_promo_iff]
  constructor
  · rintro ⟨⟨h64, ⟨⟨hf64, hb1⟩, _, hE⟩, _, hR⟩, hin⟩
    have hf2 : m.mfrom = m.mto + 8 ∧
        (m.kind = MoveKind.promo PieceType.rook ∨
         m.kind = MoveKind.promo PieceType.bishop ∨
         m.kind = MoveKind.promo PieceType.knight) := by
      rcases hin with ⟨hf, _, hk⟩ | ⟨hf, _, hk⟩ | ⟨hf, _, hk⟩
      · exact ⟨hf, Or.inl hk⟩
      · exact ⟨hf, Or.inr (Or.inl hk)⟩
      · exact ⟨hf, Or.inr (Or.inr hk)⟩
    obtain ⟨hf, hkd⟩ := hf2
    have hsw : 8 + m.mto = m.mfrom := by omega
    rw [hsw] at hb1
    exact ⟨hkd, hf, by omega, h64, hb1, hE, hR⟩
  · rintro ⟨hkd, hfrom, hf64, h64, hb, hE, hR⟩
    have hsw : 8 + m.mto = m.mfrom := by omega
    refine ⟨⟨h64, ⟨⟨by omega, by rw [hsw]; exact hb⟩, h64, hE⟩, h64, hR⟩, ?_⟩
    rcases hkd with hk | hk | hk
    · exact Or.inl ⟨hfrom, trivial, hk⟩
    · exact Or.inr (Or.inl ⟨hfrom, trivial, hk⟩)
    · exact Or.inr (Or.inr ⟨hfrom, trivial, hk⟩)

/-- Flattened condition of the black single pawn push segment. -/
theorem bpn_push_cond (pos : Position) (m : Move) :
    (m.mto ∈ bbSquares (shr 8 (pos.pawns Color.black) &&& pos.empty_squares &&&
        bnot Rank1BB) ∧
      m = make_move (m.mto + 8) m.mto) ↔
    (m.kind = MoveKind.normal ∧ m.mfrom = m.mto + 8 ∧ m.mfrom < 64 ∧ m.mto < 64 ∧
      pos.board m.mfrom = some (Color.black, PieceType.pawn) ∧
      pos.board m.mto = none ∧ m.mto / 8 ≠ 0) := by
  rw [mem_bbSquares, move_eq_make_iff, Position.pawns]
  simp only [Nat.testBit_land, Bool.and_eq_true, testBit_shr_iff, piecesBB_testBit_iff,
    empty_squares_testBit, bnotRank1_testBit]
  constructor
  · rintro ⟨⟨h64, ⟨⟨hf64, hb1⟩, _, hE⟩, _, hR⟩, hf, _, hk⟩
    have hsw : 8 + m.mto = m.mfrom := by omega
    rw [hsw] at hb1
    exact ⟨hk, hf, by omega, h64, hb1, hE, hR⟩
  · rintro ⟨hk, hfrom, hf64, h64, hb, hE, hR⟩
    have hsw : 8 + m.mto = m.mfrom := by omega
    exact ⟨⟨h64, ⟨⟨by omega, by rw [hsw]; exact hb⟩, h64, hE⟩, h64, hR⟩,
      hfrom, trivial, hk⟩

/-- Flattened condition of the black double pawn push segment. -/
theorem bpn_dbl_cond (pos : Position) (m : Move) :
    (m.mto ∈ bbSquares (shr 8 (shr 8 (pos.pawns Color.black) &&&
        pos.empty_squares &&& Rank6BB) &&& pos.empty_squares) ∧
      m = make_move (m.mto + 16) m.mto) ↔
    (m.kind = MoveKind.normal ∧ m.mfrom = m.mto + 16 ∧ m.mfrom < 64 ∧ m.mto < 64 ∧
      pos.board m.mfrom = some (Color.black, PieceType.pawn) ∧
      pos.board (m.mto + 8) = none ∧ (m.mto + 8) / 8 = 5 ∧
      pos.board m.mto = none) := by
  rw [mem_bbSquares, move_eq_make_iff, Position.pawns]
  simp only [Nat.testBit_land, Bool.and_eq_true, testBit_shr_iff, piecesBB_testBit_iff,
    empty_squares_testBit, Rank6BB_testBit]
  constructor
  · rintro ⟨⟨h64, ⟨⟨⟨hf64, hb1⟩, _, hE1⟩, _, hR6⟩, _, hE2⟩, hf, _, hk⟩
    have he1 : 8 + (8 + m.mto) = m.mfrom := by omega
    have he2 : 8 + m.mto = m.mto + 8 := by omega
    rw [he1] at hb1
    rw [he2] at hE1 hR6
    exact ⟨hk, hf, by omega, h64, hb1, hE1, hR6, hE2⟩
  · rintro ⟨hk, hfrom, hf64, h64, hb, hE1, hR6, hE2⟩
    have he1 : 8 + (8 + m.mto) = m.mfrom := by omega
    have he2 : 8 + m.mto = m.mto + 8 := by omega
    exact ⟨⟨h64, ⟨⟨⟨by omega, by rw [he1]; exact hb⟩, by omega,
      by rw [he2]; exact hE1⟩, by omega, by rw [he2]; exact hR6⟩, h64, hE2⟩,
      hfrom, trivial, hk⟩

theorem wPawnStep_iff {a b : Nat} : wPawnStep a b = true ↔
    (b / 8 = a / 8 + 1 ∧ (a % 8 = b % 8 + 1 ∨ b % 8 = a % 8 + 1)) := by
  rw [wPawnStep, Bool.and_eq_true, decide_eq_true_eq, decide_eq_true_eq]
  simp only [ri, fi, square_rank, square_file]
  omega

theorem bPawnStep_iff {a b : Nat} : bPawnStep a b = true ↔
    (b / 8 + 1 = a / 8 ∧ (a % 8 = b % 8 + 1 ∨ b % 8 = a % 8 + 1)) := by
  rw [bPawnStep, Bool.and_eq_true, decide_eq_true_eq, decide_eq_true_eq]
  simp only [ri, fi, square_rank, square_file]
  omega

theorem move_eq_castle_iff {m : Move} {a b : Nat} :
    m = make_castle_move a b ↔ m.mfrom = a ∧ m.mto = b ∧
      m.kind = (if a < b then MoveKind.shortCastle else MoveKind.longCastle) := by
  cases m
  rw [make_castle_move, Move.mk.injEq]

theorem normal_ne_castle_ite {a b : Nat} :
    (MoveKind.normal = if a < b then MoveKind.shortCastle else MoveKind.longCastle) ↔
      False := by
  split <;> simp

theorem promo_ne_castle_ite {p : PieceType} {a b : Nat} :
    (MoveKind.promo p = if a < b then MoveKind.shortCastle else MoveKind.longCastle) ↔
      False := by
  split <;> simp

theorem ep_ne_castle_ite {a b : Nat} :
    (MoveKind.ep = if a < b then MoveKind.shortCastle else MoveKind.longCastle) ↔
      False := by
  split <;> simp

theorem count_union_white (pos : Position) (hok : pos.is_ok = true)
    (hkq : pos.can_castle_kingside pos.side_to_move = true →
      pos.can_castle_queenside pos.side_to_move = true →
      pos.initial_kr_square pos.side_to_move ≠ pos.initial_qr_square pos.side_to_move)
    (hus : pos.side_to_move = Color.white) (m : Move)
    (hpl : pseudo_legal pos m = true) :
    (generate_captures pos ++ generate_noncaptures pos).count m = 1 := by
  unfold pseudo_legal at hpl
  rcases hbm : pos.board m.mfrom with _ | ⟨c, pt⟩
  · simp [hbm] at hpl
  · simp only [hbm] at hpl
    rw [Bool.and_eq_true, Bool.and_eq_true, decide_eq_true_eq, decide_eq_true_eq] at hpl
    obtain ⟨⟨hc, hf64⟩, hK⟩ := hpl
    rw [hus] at hc
    subst hc
    have hkspec := (king_square_spec hok Color.white).2
    rw [List.count_append, generate_captures, generate_noncaptures]
    simp only [hus, if_true, opposite_color, List.count_append, count_wpc, count_wpn,
      count_piece_moves, count_king_moves, count_castle_moves]
    rcases hkind : m.kind with _ | p | _ | _ | _
    · -- normal moves
      simp only [hkind] at hK
      rw [Bool.and_eq_true, decide_eq_true_eq] at hK
      obtain ⟨ht64, hD⟩ := hK
      cases pt
      case pawn =>
        simp only [Bool.or_eq_true, Bool.and_eq_true, decide_eq_true_eq,
          Position.square_is_empty, Position.color_of_piece_on, square_rank,
          wPawnStep_iff] at hD
        have hnk : m.mfrom ≠ pos.king_square Color.white := by
          intro he
          rw [he, hkspec] at hbm
          simp at hbm
        rcases hep : pos.ep_square with _ | e <;>
          simp only [hep, wpc_nep_cond, wpc_ne_cond, wpc_nwp_cond, wpc_nw_cond,
            wpc_pushp_cond, wpc_ep_cond, wpn_neu_cond, wpn_nwu_cond, wpn_pushu_cond,
            wpn_push_cond, wpn_dbl_cond, move_eq_castle_iff, hkind, hbm, hnk,
            normal_ne_castle_ite] <;>
          simp only [reduceCtorEq, false_or, or_false, false_and, and_false, if_false,
            add_zero, zero_add, true_and, and_true, ne_eq, not_false_eq_true,
            Option.some.injEq, Prod.mk.injEq] <;>
          rcases hD with (⟨⟨hto8, hEmp⟩, hRank⟩ | ⟨⟨⟨hto16, hRank1⟩, hEmp1⟩, hEmp2⟩) |
            ⟨⟨⟨hrk, hfl⟩, hEnemy⟩, hRank⟩
        · -- single push, no ep square
          rw [if_neg (by rintro ⟨_, _, _, _, hB, _⟩; rw [hEmp] at hB; simp at hB),
            if_neg (by rintro ⟨_, _, _, _, hB, _⟩; rw [hEmp] at hB; simp at hB),
            if_pos ⟨hto8, by omega, ht64, hEmp, hRank⟩,
            if_neg (by rintro ⟨h16, _⟩; omega)]
        · -- double push, no ep
          rw [if_neg (by rintro ⟨_, _, _, _, hB, _⟩; rw [hEmp2] at hB; simp at hB),
            if_neg (by rintro ⟨_, _, _, _, hB, _⟩; rw [hEmp2] at hB; simp at hB),
            if_neg (by rintro ⟨h8, _⟩; omega),
            if_pos ⟨hto16, by omega, ht64, hEmp1, by omega, hEmp2⟩]
        · -- capture, no ep
          rcases hfl with hfW | hfE
          · rw [if_neg (by rintro ⟨h9b, _⟩; omega),
              if_pos ⟨by omega, by omega, ht64, by omega, hEnemy, hRank⟩,
              if_neg (by rintro ⟨_, _, _, hB, _⟩; rw [hB] at hEnemy; simp at hEnemy),
              if_neg (by rintro ⟨h16, _⟩; omega)]
          · rw [if_pos ⟨by omega, by omega, ht64, by omega, hEnemy, hRank⟩,
              if_neg (by rintro ⟨h7b, _⟩; omega),
              if_neg (by rintro ⟨_, _, _, hB, _⟩; rw [hB] at hEnemy; simp at hEnemy),
              if_neg (by rintro ⟨h16, _⟩; omega)]
        · -- single push, ep square set
          rw [if_neg (by rintro ⟨_, _, _, _, hB, _⟩; rw [hEmp] at hB; simp at hB),
            if_neg (by rintro ⟨_, _, _, _, hB, _⟩; rw [hEmp] at hB; simp at hB),
            if_pos ⟨hto8, by omega, ht64, hEmp, hRank⟩,
            if_neg (by rintro ⟨h16, _⟩; omega)]
        · -- double push, ep square set
          rw [if_neg (by rintro ⟨_, _, _, _, hB, _⟩; rw [hEmp2] at hB; simp at hB),
            if_neg (by rintro ⟨_, _, _, _, hB, _⟩; rw [hEmp2] at hB; simp at hB),
            if_neg (by rintro ⟨h8, _⟩; omega),
            if_pos ⟨hto16, by omega, ht64, hEmp1, by omega, hEmp2⟩]
        · -- capture, ep square set
          rcases hfl with hfW | hfE
          · rw [if_neg (by rintro ⟨h9b, _⟩; omega),
              if_pos ⟨by omega, by omega, ht64, by omega, hEnemy, hRank⟩,
              if_neg (by rintro ⟨_, _, _, hB, _⟩; rw [hB] at hEnemy; simp at hEnemy),
              if_neg (by rintro ⟨h16, _⟩; omega)]
          · rw [if_pos ⟨by omega, by omega, ht64, by omega, hEnemy, hRank⟩,
              if_neg (by rintro ⟨h7b, _⟩; omega),
              if_neg (by rintro ⟨_, _, _, hB, _⟩; rw [hB] at hEnemy; simp at hEnemy),
              if_neg (by rintro ⟨h16, _⟩; omega)]
      case knight =>
        simp only [Bool.and_eq_true, Bool.not_eq_true', decide_eq_false_iff_not] at hD
        obtain ⟨hstep, hne⟩ := hD
        have hnk : m.mfrom ≠ pos.king_square Color.white := by
          intro he
          rw [he, hkspec] at hbm
          simp at hbm
        rcases hep : pos.ep_square with _ | e <;>
          simp only [hep, wpc_nep_cond, wpc_ne_cond, wpc_nwp_cond, wpc_nw_cond,
            wpc_pushp_cond, wpc_ep_cond, wpn_neu_cond, wpn_nwu_cond, wpn_pushu_cond,
            wpn_push_cond, wpn_dbl_cond, move_eq_castle_iff, hkind, hbm, hnk,
            normal_ne_castle_ite, count_piece_moves, count_king_moves,
            Position.piece_attacks_of, Position.knight_attacks, Position.bishop_attacks,
            Position.rook_attacks, Position.queen_attacks, Nat.testBit_land,
            Bool.and_eq_true, knight_attacks_testBit, king_attacks_testBit,
            pieces_of_color_testBit, empty_squares_testBit] <;>
          simp only [reduceCtorEq, false_or, or_false, false_and, and_false, if_false,
            add_zero, zero_add, true_and, and_true, ne_eq, not_false_eq_true,
            Option.some.injEq, Prod.mk.injEq] <;>
          rcases hbt : pos.board m.mto with _ | ⟨c2, pt2⟩ <;>
          try cases c2
        all_goals first
          | exact absurd (by rw [Position.color_of_piece_on, hbt]; rfl) hne
          | simp [hbt, hstep, hf64, ht64]
      case bishop =>
        simp only [Bool.and_eq_true, Bool.not_eq_true', decide_eq_false_iff_not] at hD
        obtain ⟨hstep, hne⟩ := hD
        have hnk : m.mfrom ≠ pos.king_square Color.white := by
          intro he
          rw [he, hkspec] at hbm
          simp at hbm
        rcases hep : pos.ep_square with _ | e <;>
          simp only [hep, wpc_nep_cond, wpc_ne_cond, wpc_nwp_cond, wpc_nw_cond,
            wpc_pushp_cond, wpc_ep_cond, wpn_neu_cond, wpn_nwu_cond, wpn_pushu_cond,
            wpn_push_cond, wpn_dbl_cond, move_eq_castle_iff, hkind, hbm, hnk,
            normal_ne_castle_ite, count_piece_moves, count_king_moves,
            Position.piece_attacks_of, Position.knight_attacks, Position.bishop_attacks,
            Position.rook_attacks, Position.queen_attacks, Nat.testBit_land,
            Bool.and_eq_true, knight_attacks_testBit, king_attacks_testBit,
            pieces_of_color_testBit, empty_squares_testBit] <;>
          simp only [reduceCtorEq, false_or, or_false, false_and, and_false, if_false,
            add_zero, zero_add, true_and, and_true, ne_eq, not_false_eq_true,
            Option.some.injEq, Prod.mk.injEq] <;>
          rcases hbt : pos.board m.mto with _ | ⟨c2, pt2⟩ <;>
          try cases c2
        all_goals first
          | exact absurd (by rw [Position.color_of_piece_on, hbt]; rfl) hne
          | simp [hbt, hstep, hf64, ht64]
      case rook =>
        simp only [Bool.and_eq_true, Bool.not_eq_true', decide_eq_false_iff_not] at hD
        obtain ⟨hstep, hne⟩ := hD
        have hnk : m.mfrom ≠ pos.king_square Color.white := by
          intro he
          rw [he, hkspec] at hbm
          simp at hbm
        rcases hep : pos.ep_square with _ | e <;>
          simp only [hep, wpc_nep_cond, wpc_ne_cond, wpc_nwp_cond, wpc_nw_cond,
            wpc_pushp_cond, wpc_ep_cond, wpn_neu_cond, wpn_nwu_cond, wpn_pushu_cond,
            wpn_push_cond, wpn_dbl_cond, move_eq_castle_iff, hkind, hbm, hnk,
            normal_ne_castle_ite, count_piece_moves, count_king_moves,
            Position.piece_attacks_of, Position.knight_attacks, Position.bishop_attacks,
            Position.rook_attacks, Position.queen_attacks, Nat.testBit_land,
            Bool.and_eq_true, knight_attacks_testBit, king_attacks_testBit,
            pieces_of_color_testBit, empty_squares_testBit] <;>
          simp only [reduceCtorEq, false_or, or_false, false_and, and_false, if_false,
            add_zero, zero_add, true_and, and_true, ne_eq, not_false_eq_true,
            Option.some.injEq, Prod.mk.injEq] <;>
          rcases hbt : pos.board m.mto with _ | ⟨c2, pt2⟩ <;>
          try cases c2
        all_goals first
          | exact absurd (by rw [Position.color_of_piece_on, hbt]; rfl) hne
          | simp [hbt, hstep, hf64, ht64]
      case queen =>
        simp only [Bool.and_eq_true, Bool.not_eq_true', decide_eq_false_iff_not] at hD
        obtain ⟨hstep, hne⟩ := hD
        have hnk : m.mfrom ≠ pos.king_square Color.white := by
          intro he
          rw [he, hkspec] at hbm
          simp at hbm
        rcases hep : pos.ep_square with _ | e <;>
          simp only [hep, wpc_nep_cond, wpc_ne_cond, wpc_nwp_cond, wpc_nw_cond,
            wpc_pushp_cond, wpc_ep_cond, wpn_neu_cond, wpn_nwu_cond, wpn_pushu_cond,
            wpn_push_cond, wpn_dbl_cond, move_eq_castle_iff, hkind, hbm, hnk,
            normal_ne_castle_ite, count_piece_moves, count_king_moves,
            Position.piece_attacks_of, Position.knight_attacks, Position.bishop_attacks,
            Position.rook_attacks, Position.queen_attacks, Nat.testBit_land,
            Bool.and_eq_true, knight_attacks_testBit, king_attacks_testBit,
            pieces_of_color_testBit, empty_squares_testBit] <;>
          simp only [reduceCtorEq, false_or, or_false, false_and, and_false, if_false,
            add_zero, zero_add, true_and, and_true, ne_eq, not_false_eq_true,
            Option.some.injEq, Prod.mk.injEq] <;>
          rcases hbt : pos.board m.mto with _ | ⟨c2, pt2⟩ <;>
          try cases c2
        all_goals first
          | exact absurd (by rw [Position.color_of_piece_on, hbt]; rfl) hne
          | simp [hbt, hstep, hf64, ht64]
      case king =>
        simp only [Bool.and_eq_true, Bool.not_eq_true', decide_eq_false_iff_not] at hD
        obtain ⟨hstep, hne⟩ := hD
        have hksq : m.mfrom = pos.king_square Color.white :=
          eq_king_square_of_board hok hbm hf64
        have hstep' : kingStep (pos.king_square Color.white) m.mto = true :=
          hksq ▸ hstep
        rcases hep : pos.ep_square with _ | e <;>
          simp only [hep, wpc_nep_cond, wpc_ne_cond, wpc_nwp_cond, wpc_nw_cond,
            wpc_pushp_cond, wpc_ep_cond, wpn_neu_cond, wpn_nwu_cond, wpn_pushu_cond,
            wpn_push_cond, wpn_dbl_cond, move_eq_castle_iff, hkind, hbm,
            normal_ne_castle_ite, count_piece_moves, count_king_moves,
            Position.piece_attacks_of, Position.knight_attacks, Position.bishop_attacks,
            Position.rook_attacks, Position.queen_attacks, Nat.testBit_land,
            Bool.and_eq_true, knight_attacks_testBit, king_attacks_testBit,
            pieces_of_color_testBit, empty_squares_testBit] <;>
          simp only [reduceCtorEq, false_or, or_false, false_and, and_false, if_false,
            add_zero, zero_add, true_and, and_true, ne_eq, not_false_eq_true,
            Option.some.injEq, Prod.mk.injEq] <;>
          rcases hbt : pos.board m.mto with _ | ⟨c2, pt2⟩ <;>
          try cases c2
        all_goals first
          | exact absurd (by rw [Position.color_of_piece_on, hbt]; rfl) hne
          | simp [hksq, hbt, hstep', hf64, ht64]
    · -- promotions
      simp only [hkind] at hK
      simp only [Bool.and_eq_true, Bool.or_eq_true, decide_eq_true_eq,
        Position.square_is_empty, Position.color_of_piece_on, square_rank,
        wPawnStep_iff] at hK
      obtain ⟨⟨⟨hpt, ht64⟩, hp⟩, hr7, hPC⟩ := hK
      subst hpt
      have hnk : m.mfrom ≠ pos.king_square Color.white := by
        intro he
        rw [he, hkspec] at hbm
        simp at hbm
      rcases hp with ((rfl | rfl) | rfl) | rfl <;>
        rcases hep : pos.ep_square with _ | e <;>
        simp only [hep, wpc_nep_cond, wpc_ne_cond, wpc_nwp_cond, wpc_nw_cond,
          wpc_pushp_cond, wpc_ep_cond, wpn_neu_cond, wpn_nwu_cond, wpn_pushu_cond,
          wpn_push_cond, wpn_dbl_cond, move_eq_castle_iff, hkind, hbm, hnk,
          promo_ne_castle_ite, MoveKind.promo.injEq] <;>
        simp only [reduceCtorEq, false_or, or_false, true_or, or_true, false_and,
          and_false, if_false, add_zero, zero_add, true_and, and_true, ne_eq,
          not_false_eq_true, Option.some.injEq, Prod.mk.injEq] <;>
        rcases hPC with ⟨hto8, hEmp⟩ | ⟨⟨hrk, hfl⟩, hEnemy⟩
      · rw [if_neg (by rintro ⟨_, _, _, _, hB, _⟩; rw [hEmp] at hB; simp at hB),
          if_neg (by rintro ⟨_, _, _, _, hB, _⟩; rw [hEmp] at hB; simp at hB),
          if_pos ⟨hto8, by omega, ht64, hEmp, hr7⟩]
      · rcases hfl with hfW | hfE
        · rw [if_neg (by rintro ⟨h9, _⟩; omega),
            if_pos ⟨by omega, by omega, ht64, by omega, hEnemy, hr7⟩,
            if_neg (by rintro ⟨_, _, _, hB, _⟩; rw [hB] at hEnemy; simp at hEnemy)]
        · rw [if_pos ⟨by omega, by omega, ht64, by omega, hEnemy, hr7⟩,
            if_neg (by rintro ⟨h7, _⟩; omega),
            if_neg (by rintro ⟨_, _, _, hB, _⟩; rw [hB] at hEnemy; simp at hEnemy)]
      · rw [if_neg (by rintro ⟨_, _, _, _, hB, _⟩; rw [hEmp] at hB; simp at hB),
          if_neg (by rintro ⟨_, _, _, _, hB, _⟩; rw [hEmp] at hB; simp at hB),
          if_pos ⟨hto8, by omega, ht64, hEmp, hr7⟩]
      · rcases hfl with hfW | hfE
        · rw [if_neg (by rintro ⟨h9, _⟩; omega),
            if_pos ⟨by omega, by omega, ht64, by omega, hEnemy, hr7⟩,
            if_neg (by rintro ⟨_, _, _, hB, _⟩; rw [hB] at hEnemy; simp at hEnemy)]
        · rw [if_pos ⟨by omega, by omega, ht64, by omega, hEnemy, hr7⟩,
            if_neg (by rintro ⟨h7, _⟩; omega),
            if_neg (by rintro ⟨_, _, _, hB, _⟩; rw [hB] at hEnemy; simp at hEnemy)]
      · rw [if_neg (by rintro ⟨_, _, _, _, hB, _⟩; rw [hEmp] at hB; simp at hB),
          if_neg (by rintro ⟨_, _, _, _, hB, _⟩; rw [hEmp] at hB; simp at hB),
          if_pos ⟨hto8, by omega, ht64, hEmp, hr7⟩]
      · rcases hfl with hfW | hfE
        · rw [if_neg (by rintro ⟨h9, _⟩; omega),
            if_pos ⟨by omega, by omega, ht64, by omega, hEnemy, hr7⟩,
            if_neg (by rintro ⟨_, _, _, hB, _⟩; rw [hB] at hEnemy; simp at hEnemy)]
        · rw [if_pos ⟨by omega, by omega, ht64, by omega, hEnemy, hr7⟩,
            if_neg (by rintro ⟨h7, _⟩; omega),
            if_neg (by rintro ⟨_, _, _, hB, _⟩; rw [hB] at hEnemy; simp at hEnemy)]
      · rw [if_neg (by rintro ⟨_, _, _, _, hB, _⟩; rw [hEmp] at hB; simp at hB),
          if_neg (by rintro ⟨_, _, _, _, hB, _⟩; rw [hEmp] at hB; simp at hB),
          if_pos ⟨hto8, by omega, ht64, hEmp, hr7⟩]
      · rcases hfl with hfW | hfE
        · rw [if_neg (by rintro ⟨h9, _⟩; omega),
            if_pos ⟨by omega, by omega, ht64, by omega, hEnemy, hr7⟩,
            if_neg (by rintro ⟨_, _, _, hB, _⟩; rw [hB] at hEnemy; simp at hEnemy)]
        · rw [if_pos ⟨by omega, by omega, ht64, by omega, hEnemy, hr7⟩,
            if_neg (by rintro ⟨h7, _⟩; omega),
            if_neg (by rintro ⟨_, _, _, hB, _⟩; rw [hB] at hEnemy; simp at hEnemy)]
      · rw [if_neg (by rintro ⟨_, _, _, _, hB, _⟩; rw [hEmp] at hB; simp at hB),
          if_neg (by rintro ⟨_, _, _, _, hB, _⟩; rw [hEmp] at hB; simp at hB),
          if_pos ⟨hto8, by omega, ht64, hEmp, hr7⟩]
      · rcases hfl with hfW | hfE
        · rw [if_neg (by rintro ⟨h9, _⟩; omega),
            if_pos ⟨by omega, by omega, ht64, by omega, hEnemy, hr7⟩,
            if_neg (by rintro ⟨_, _, _, hB, _⟩; rw [hB] at hEnemy; simp at hEnemy)]
        · rw [if_pos ⟨by omega, by omega, ht64, by omega, hEnemy, hr7⟩,
            if_neg (by rintro ⟨h7, _⟩; omega),
            if_neg (by rintro ⟨_, _, _, hB, _⟩; rw [hB] at hEnemy; simp at hEnemy)]
      · rw [if_neg (by rintro ⟨_, _, _, _, hB, _⟩; rw [hEmp] at hB; simp at hB),
          if_neg (by rintro ⟨_, _, _, _, hB, _⟩; rw [hEmp] at hB; simp at hB),
          if_pos ⟨hto8, by omega, ht64, hEmp, hr7⟩]
      · rcases hfl with hfW | hfE
        · rw [if_neg (by rintro ⟨h9, _⟩; omega),
            if_pos ⟨by omega, by omega, ht64, by omega, hEnemy, hr7⟩,
            if_neg (by rintro ⟨_, _, _, hB, _⟩; rw [hB] at hEnemy; simp at hEnemy)]
        · rw [if_pos ⟨by omega, by omega, ht64, by omega, hEnemy, hr7⟩,
            if_neg (by rintro ⟨h7, _⟩; omega),
            if_neg (by rintro ⟨_, _, _, hB, _⟩; rw [hB] at hEnemy; simp at hEnemy)]
      · rw [if_neg (by rintro ⟨_, _, _, _, hB, _⟩; rw [hEmp] at hB; simp at hB),
          if_neg (by rintro ⟨_, _, _, _, hB, _⟩; rw [hEmp] at hB; simp at hB),
          if_pos ⟨hto8, by omega, ht64, hEmp, hr7⟩]
      · rcases hfl with hfW | hfE
        · rw [if_neg (by rintro ⟨h9, _⟩; omega),
            if_pos ⟨by omega, by omega, ht64, by omega, hEnemy, hr7⟩,
            if_neg (by rintro ⟨_, _, _, hB, _⟩; rw [hB] at hEnemy; simp at hEnemy)]
        · rw [if_pos ⟨by omega, by omega, ht64, by omega, hEnemy, hr7⟩,
            if_neg (by rintro ⟨h7, _⟩; omega),
            if_neg (by rintro ⟨_, _, _, hB, _⟩; rw [hB] at hEnemy; simp at hEnemy)]
      · rw [if_neg (by rintro ⟨_, _, _, _, hB, _⟩; rw [hEmp] at hB; simp at hB),
          if_neg (by rintro ⟨_, _, _, _, hB, _⟩; rw [hEmp] at hB; simp at hB),
          if_pos ⟨hto8, by omega, ht64, hEmp, hr7⟩]
      · rcases hfl with hfW | hfE
        · rw [if_neg (by rintro ⟨h9, _⟩; omega),
            if_pos ⟨by omega, by omega, ht64, by omega, hEnemy, hr7⟩,
            if_neg (by rintro ⟨_, _, _, hB, _⟩; rw [hB] at hEnemy; simp at hEnemy)]
        · rw [if_pos ⟨by omega, by omega, ht64, by omega, hEnemy, hr7⟩,
            if_neg (by rintro ⟨h7, _⟩; omega),
            if_neg (by rintro ⟨_, _, _, hB, _⟩; rw [hB] at hEnemy; simp at hEnemy)]
    · -- en passant
      simp only [hkind] at hK
      simp only [Bool.and_eq_true, decide_eq_true_eq, pawnStep, wPawnStep_iff] at hK
      obtain ⟨⟨hpt, hepsq⟩, hstep⟩ := hK
      subst hpt
      rcases hep : pos.ep_square with _ | e
      · rw [hep] at hepsq
        exact absurd hepsq (by simp)
      · rw [hep] at hepsq
        injection hepsq with he
        subst he
        simp only [hep, wpc_nep_cond, wpc_ne_cond, wpc_nwp_cond, wpc_nw_cond,
          wpc_pushp_cond, wpc_ep_cond, wpn_neu_cond, wpn_nwu_cond, wpn_pushu_cond,
          wpn_push_cond, wpn_dbl_cond, move_eq_castle_iff, hkind,
          normal_ne_castle_ite, promo_ne_castle_ite, ep_ne_castle_ite,
          count_piece_moves, count_king_moves] <;>
        simp only [reduceCtorEq, false_or, or_false, true_or, or_true, false_and,
          and_false, if_false, add_zero, zero_add, true_and, and_true, ne_eq,
          not_false_eq_true, Option.some.injEq, Prod.mk.injEq]
        rw [if_pos ⟨by omega, hbm, by rw [ bPawnStep_iff]; omega⟩]
    · -- short castle
      simp only [hkind] at hK
      simp only [Bool.and_eq_true, Bool.not_eq_true', decide_eq_true_eq] at hK
      obtain ⟨⟨⟨⟨hf, ht⟩, hlt⟩, hck⟩, hill⟩ := hK
      rw [hus] at hkq
      rcases hep : pos.ep_square with _ | e <;>
        simp only [hep, wpc_nep_cond, wpc_ne_cond, wpc_nwp_cond, wpc_nw_cond,
          wpc_pushp_cond, wpc_ep_cond, wpn_neu_cond, wpn_nwu_cond, wpn_pushu_cond,
          wpn_push_cond, wpn_dbl_cond, move_eq_castle_iff, hkind,
          normal_ne_castle_ite, promo_ne_castle_ite, ep_ne_castle_ite,
          count_piece_moves, count_king_moves] <;>
        simp only [reduceCtorEq, false_or, or_false, true_or, or_true, false_and,
          and_false, if_false, add_zero, zero_add, true_and, and_true, ne_eq,
          not_false_eq_true, Option.some.injEq, Prod.mk.injEq] <;>
        rw [if_pos ⟨hck, hill, hf, ht, by rw [if_pos (by omega)]⟩,
          if_neg (by rintro ⟨hcq, _, _, ht2, _⟩; exact hkq hck hcq (by omega))]
    · -- long castle
      simp only [hkind] at hK
      simp only [Bool.and_eq_true, Bool.not_eq_true', decide_eq_true_eq] at hK
      obtain ⟨⟨⟨⟨hf, ht⟩, hlt⟩, hcq⟩, hill⟩ := hK
      rw [hus] at hkq
      rcases hep : pos.ep_square with _ | e <;>
        simp only [hep, wpc_nep_cond, wpc_ne_cond, wpc_nwp_cond, wpc_nw_cond,
          wpc_pushp_cond, wpc_ep_cond, wpn_neu_cond, wpn_nwu_cond, wpn_pushu_cond,
          wpn_push_cond, wpn_dbl_cond, move_eq_castle_iff, hkind,
          normal_ne_castle_ite, promo_ne_castle_ite, ep_ne_castle_ite,
          count_piece_moves, count_king_moves] <;>
        simp only [reduceCtorEq, false_or, or_false, true_or, or_true, false_and,
          and_false, if_false, add_zero, zero_add, true_and, and_true, ne_eq,
          not_false_eq_true, Option.some.injEq, Prod.mk.injEq] <;>
        rw [if_neg (by rintro ⟨hck2, _, _, ht2, _⟩; exact hkq hck2 hcq (by omega)),
          if_pos ⟨hcq, hill, hf, ht, by rw [if_neg (by omega)]⟩]

theorem count_union_black (pos : Position) (hok : pos.is_ok = true)
    (hkq : pos.can_castle_kingside pos.side_to_move = true →
      pos.can_castle_queenside pos.side_to_move = true →
      pos.initial_kr_square pos.side_to_move ≠ pos.initial_qr_square pos.side_to_move)
    (hus : pos.side_to_move = Color.black) (m : Move)
    (hpl : pseudo_legal pos m = true) :
    (generate_captures pos ++ generate_noncaptures pos).count m = 1 := by
  unfold pseudo_legal at hpl
  rcases hbm : pos.board m.mfrom with _ | ⟨c, pt⟩
  · simp [hbm] at hpl
  · simp only [hbm] at hpl
    rw [Bool.and_eq_true, Bool.and_eq_true, decide_eq_true_eq, decide_eq_true_eq] at hpl
    obtain ⟨⟨hc, hf64⟩, hK⟩ := hpl
    rw [hus] at hc
    subst hc
    have hkspec := (king_square_spec hok Color.black).2
    rw [List.count_append, generate_captures, generate_noncaptures]
    simp only [hus, opposite_color, reduceCtorEq, if_false, List.count_append, count_bpc, count_bpn,
      count_piece_moves, count_king_moves, count_castle_moves]
    rcases hkind : m.kind with _ | p | _ | _ | _
    · -- normal moves
      simp only [hkind] at hK
      rw [Bool.and_eq_true, decide_eq_true_eq] at hK
      obtain ⟨ht64, hD⟩ := hK
      cases pt
      case pawn =>
        simp only [Bool.or_eq_true, Bool.and_eq_true, decide_eq_true_eq,
          Position.square_is_empty, Position.color_of_piece_on, square_rank,
          bPawnStep_iff] at hD
        have hnk : m.mfrom ≠ pos.king_square Color.black := by
          intro he
          rw [he, hkspec] at hbm
          simp at hbm
        rcases hep : pos.ep_square with _ | e <;>
          simp only [hep, bpc_sep_cond, bpc_se_cond, bpc_swp_cond, bpc_sw_cond,
            bpc_pushp_cond, bpc_ep_cond, bpn_seu_cond, bpn_swu_cond, bpn_pushu_cond,
            bpn_push_cond, bpn_dbl_cond, move_eq_castle_iff, hkind, hbm, hnk,
            normal_ne_castle_ite] <;>
          simp only [reduceCtorEq, false_or, or_false, false_and, and_false, if_false,
            add_zero, zero_add, true_and, and_true, ne_eq, not_false_eq_true,
            Option.some.injEq, Prod.mk.injEq] <;>
          rcases hD with (⟨⟨hto8, hEmp⟩, hRank⟩ | ⟨⟨⟨hto16, hRank1⟩, hEmp1⟩, hEmp2⟩) |
            ⟨⟨⟨hrk, hfl⟩, hEnemy⟩, hRank⟩
        · -- single push, no ep square
          rw [if_neg (by rintro ⟨_, _, _, _, hB, _⟩; rw [hEmp] at hB; simp at hB),
            if_neg (by rintro ⟨_, _, _, _, hB, _⟩; rw [hEmp] at hB; simp at hB),
            if_pos ⟨by omega, by omega, ht64, hEmp, hRank⟩,
            if_neg (by rintro ⟨h16, _⟩; omega)]
        · -- double push, no ep
          rw [if_neg (by rintro ⟨_, _, _, _, hB, _⟩; rw [hEmp2] at hB; simp at hB),
            if_neg (by rintro ⟨_, _, _, _, hB, _⟩; rw [hEmp2] at hB; simp at hB),
            if_neg (by rintro ⟨h8, _⟩; omega),
            if_pos ⟨by omega, by omega, ht64, hEmp1, by omega, hEmp2⟩]
        · -- capture, no ep
          rcases hfl with hfW | hfE
          · rw [if_neg (by rintro ⟨h9b, _⟩; omega),
              if_pos ⟨by omega, by omega, ht64, by omega, hEnemy, hRank⟩,
              if_neg (by rintro ⟨_, _, _, hB, _⟩; rw [hB] at hEnemy; simp at hEnemy),
              if_neg (by rintro ⟨h16, _⟩; omega)]
          · rw [if_pos ⟨by omega, by omega, ht64, by omega, hEnemy, hRank⟩,
              if_neg (by rintro ⟨h7b, _⟩; omega),
              if_neg (by rintro ⟨_, _, _, hB, _⟩; rw [hB] at hEnemy; simp at hEnemy),
              if_neg (by rintro ⟨h16, _⟩; omega)]
        · -- single push, ep square set
          rw [if_neg (by rintro ⟨_, _, _, _, hB, _⟩; rw [hEmp] at hB; simp at hB),
            if_neg (by rintro ⟨_, _, _, _, hB, _⟩; rw [hEmp] at hB; simp at hB),
            if_pos ⟨by omega, by omega, ht64, hEmp, hRank⟩,
            if_neg (by rintro ⟨h16, _⟩; omega)]
        · -- double push, ep square set
          rw [if_neg (by rintro ⟨_, _, _, _, hB, _⟩; rw [hEmp2] at hB; simp at hB),
            if_neg (by rintro ⟨_, _, _, _, hB, _⟩; rw [hEmp2] at hB; simp at hB),
            if_neg (by rintro ⟨h8, _⟩; omega),
            if_pos ⟨by omega, by omega, ht64, hEmp1, by omega, hEmp2⟩]
        · -- capture, ep square set
          rcases hfl with hfW | hfE
          · rw [if_neg (by rintro ⟨h9b, _⟩; omega),
              if_pos ⟨by omega, by omega, ht64, by omega, hEnemy, hRank⟩,
              if_neg (by rintro ⟨_, _, _, hB, _⟩; rw [hB] at hEnemy; simp at hEnemy),
              if_neg (by rintro ⟨h16, _⟩; omega)]
          · rw [if_pos ⟨by omega, by omega, ht64, by omega, hEnemy, hRank⟩,
              if_neg (by rintro ⟨h7b, _⟩; omega),
              if_neg (by rintro ⟨_, _, _, hB, _⟩; rw [hB] at hEnemy; simp at hEnemy),
              if_neg (by rintro ⟨h16, _⟩; omega)]
      case knight =>
        simp only [Bool.and_eq_true, Bool.not_eq_true', decide_eq_false_iff_not] at hD
        obtain ⟨hstep, hne⟩ := hD
        have hnk : m.mfrom ≠ pos.king_square Color.black := by
          intro he
          rw [he, hkspec] at hbm
          simp at hbm
        rcases hep : pos.ep_square with _ | e <;>
          simp only [hep, bpc_sep_cond, bpc_se_cond, bpc_swp_cond, bpc_sw_cond,
            bpc_pushp_cond, bpc_ep_cond, bpn_seu_cond, bpn_swu_cond, bpn_pushu_cond,
            bpn_push_cond, bpn_dbl_cond, move_eq_castle_iff, hkind, hbm, hnk,
            normal_ne_castle_ite, count_piece_moves, count_king_moves,
            Position.piece_attacks_of, Position.knight_attacks, Position.bishop_attacks,
            Position.rook_attacks, Position.queen_attacks, Nat.testBit_land,
            Bool.and_eq_true, knight_attacks_testBit, king_attacks_testBit,
            pieces_of_color_testBit, empty_squares_testBit] <;>
          simp only [reduceCtorEq, false_or, or_false, false_and, and_false, if_false,
            add_zero, zero_add, true_and, and_true, ne_eq, not_false_eq_true,
            Option.some.injEq, Prod.mk.injEq] <;>
          rcases hbt : pos.board m.mto with _ | ⟨c2, pt2⟩ <;>
          try cases c2
        all_goals first
          | exact absurd (by rw [Position.color_of_piece_on, hbt]; rfl) hne
          | simp [hbt, hstep, hf64, ht64]
      case bishop =>
        simp only [Bool.and_eq_true, Bool.not_eq_true', decide_eq_false_iff_not] at hD
        obtain ⟨hstep, hne⟩ := hD
        have hnk : m.mfrom ≠ pos.king_square Color.black := by
          intro he
          rw [he, hkspec] at hbm
          simp at hbm
        rcases hep : pos.ep_square with _ | e <;>
          simp only [hep, bpc_sep_cond, bpc_se_cond, bpc_swp_cond, bpc_sw_cond,
            bpc_pushp_cond, bpc_ep_cond, bpn_seu_cond, bpn_swu_cond, bpn_pushu_cond,
            bpn_push_cond, bpn_dbl_cond, move_eq_castle_iff, hkind, hbm, hnk,
            normal_ne_castle_ite, count_piece_moves, count_king_moves,
            Position.piece_attacks_of, Position.knight_attacks, Position.bishop_attacks,
            Position.rook_attacks, Position.queen_attacks, Nat.testBit_land,
            Bool.and_eq_true, knight_attacks_testBit, king_attacks_testBit,
            pieces_of_color_testBit, empty_squares_testBit] <;>
          simp only [reduceCtorEq, false_or, or_false, false_and, and_false, if_false,
            add_zero, zero_add, true_and, and_true, ne_eq, not_false_eq_true,
            Option.some.injEq, Prod.mk.injEq] <;>
          rcases hbt : pos.board m.mto with _ | ⟨c2, pt2⟩ <;>
          try cases c2
        all_goals first
          | exact absurd (by rw [Position.color_of_piece_on, hbt]; rfl) hne
          | simp [hbt, hstep, hf64, ht64]
      case rook =>
        simp only [Bool.and_eq_true, Bool.not_eq_true', decide_eq_false_iff_not] at hD
        obtain ⟨hstep, hne⟩ := hD
        have hnk : m.mfrom ≠ pos.king_square Color.black := by
          intro he
          rw [he, hkspec] at hbm
          simp at hbm
        rcases hep : pos.ep_square with _ | e <;>
          simp only [hep, bpc_sep_cond, bpc_se_cond, bpc_swp_cond, bpc_sw_cond,
            bpc_pushp_cond, bpc_ep_cond, bpn_seu_cond, bpn_swu_cond, bpn_pushu_cond,
            bpn_push_cond, bpn_dbl_cond, move_eq_castle_iff, hkind, hbm, hnk,
            normal_ne_castle_ite, count_piece_moves, count_king_moves,
            Position.piece_attacks_of, Position.knight_attacks, Position.bishop_attacks,
            Position.rook_attacks, Position.queen_attacks, Nat.testBit_land,
            Bool.and_eq_true, knight_attacks_testBit, king_attacks_testBit,
            pieces_of_color_testBit, empty_squares_testBit] <;>
          simp only [reduceCtorEq, false_or, or_false, false_and, and_false, if_false,
            add_zero, zero_add, true_and, and_true, ne_eq, not_false_eq_true,
            Option.some.injEq, Prod.mk.injEq] <;>
          rcases hbt : pos.board m.mto with _ | ⟨c2, pt2⟩ <;>
          try cases c2
        all_goals first
          | exact absurd (by rw [Position.color_of_piece_on, hbt]; rfl) hne
          | simp [hbt, hstep, hf64, ht64]
      case queen =>
        simp only [Bool.and_eq_true, Bool.not_eq_true', decide_eq_false_iff_not] at hD
        obtain ⟨hstep, hne⟩ := hD
        have hnk : m.mfrom ≠ pos.king_square Color.black := by
          intro he
          rw [he, hkspec] at hbm
          simp at hbm
        rcases hep : pos.ep_square with _ | e <;>
          simp only [hep, bpc_sep_cond, bpc_se_cond, bpc_swp_cond, bpc_sw_cond,
            bpc_pushp_cond, bpc_ep_cond, bpn_seu_cond, bpn_swu_cond, bpn_pushu_cond,
            bpn_push_cond, bpn_dbl_cond, move_eq_castle_iff, hkind, hbm, hnk,
            normal_ne_castle_ite, count_piece_moves, count_king_moves,
            Position.piece_attacks_of, Position.knight_attacks, Position.bishop_attacks,
            Position.rook_attacks, Position.queen_attacks, Nat.testBit_land,
            Bool.and_eq_true, knight_attacks_testBit, king_attacks_testBit,
            pieces_of_color_testBit, empty_squares_testBit] <;>
          simp only [reduceCtorEq, false_or, or_false, false_and, and_false, if_false,
            add_zero, zero_add, true_and, and_true, ne_eq, not_false_eq_true,
            Option.some.injEq, Prod.mk.injEq] <;>
          rcases hbt : pos.board m.mto with _ | ⟨c2, pt2⟩ <;>
          try cases c2
        all_goals first
          | exact absurd (by rw [Position.color_of_piece_on, hbt]; rfl) hne
          | simp [hbt, hstep, hf64, ht64]
      case king =>
        simp only [Bool.and_eq_true, Bool.not_eq_true', decide_eq_false_iff_not] at hD
        obtain ⟨hstep, hne⟩ := hD
        have hksq : m.mfrom = pos.king_square Color.black :=
          eq_king_square_of_board hok hbm hf64
        have hstep' : kingStep (pos.king_square Color.black) m.mto = true :=
          hksq ▸ hstep
        rcases hep : pos.ep_square with _ | e <;>
          simp only [hep, bpc_sep_cond, bpc_se_cond, bpc_swp_cond, bpc_sw_cond,
            bpc_pushp_cond, bpc_ep_cond, bpn_seu_cond, bpn_swu_cond, bpn_pushu_cond,
            bpn_push_cond, bpn_dbl_cond, move_eq_castle_iff, hkind, hbm,
            normal_ne_castle_ite, count_piece_moves, count_king_moves,
            Position.piece_attacks_of, Position.knight_attacks, Position.bishop_attacks,
            Position.rook_attacks, Position.queen_attacks, Nat.testBit_land,
            Bool.and_eq_true, knight_attacks_testBit, king_attacks_testBit,
            pieces_of_color_testBit, empty_squares_testBit] <;>
          simp only [reduceCtorEq, false_or, or_false, false_and, and_false, if_false,
            add_zero, zero_add, true_and, and_true, ne_eq, not_false_eq_true,
            Option.some.injEq, Prod.mk.injEq] <;>
          rcases hbt : pos.board m.mto with _ | ⟨c2, pt2⟩ <;>
          try cases c2
        all_goals first
          | exact absurd (by rw [Position.color_of_piece_on, hbt]; rfl) hne
          | simp [hksq, hbt, hstep', hf64, ht64]
    · -- promotions
      simp only [hkind] at hK
      simp only [Bool.and_eq_true, Bool.or_eq_true, decide_eq_true_eq,
        Position.square_is_empty, Position.color_of_piece_on, square_rank,
        bPawnStep_iff] at hK
      obtain ⟨⟨⟨hpt, ht64⟩, hp⟩, hr7, hPC⟩ := hK
      subst hpt
      have hnk : m.mfrom ≠ pos.king_square Color.black := by
        intro he
        rw [he, hkspec] at hbm
        simp at hbm
      rcases hp with ((rfl | rfl) | rfl) | rfl <;>
        rcases hep : pos.ep_square with _ | e <;>
        simp only [hep, bpc_sep_cond, bpc_se_cond, bpc_swp_cond, bpc_sw_cond,
          bpc_pushp_cond, bpc_ep_cond, bpn_seu_cond, bpn_swu_cond, bpn_pushu_cond,
          bpn_push_cond, bpn_dbl_cond, move_eq_castle_iff, hkind, hbm, hnk,
          promo_ne_castle_ite, MoveKind.promo.injEq] <;>
        simp only [reduceCtorEq, false_or, or_false, true_or, or_true, false_and,
          and_false, if_false, add_zero, zero_add, true_and, and_true, ne_eq,
          not_false_eq_true, Option.some.injEq, Prod.mk.injEq] <;>
        rcases hPC with ⟨hto8, hEmp⟩ | ⟨⟨hrk, hfl⟩, hEnemy⟩
      · rw [if_neg (by rintro ⟨_, _, _, _, hB, _⟩; rw [hEmp] at hB; simp at hB),
          if_neg (by rintro ⟨_, _, _, _, hB, _⟩; rw [hEmp] at hB; simp at hB),
          if_pos ⟨by omega, by omega, ht64, hEmp, hr7⟩]
      · rcases hfl with hfW | hfE
        · rw [if_neg (by rintro ⟨h9, _⟩; omega),
            if_pos ⟨by omega, by omega, ht64, by omega, hEnemy, hr7⟩,
            if_neg (by rintro ⟨_, _, _, hB, _⟩; rw [hB] at hEnemy; simp at hEnemy)]
        · rw [if_pos ⟨by omega, by omega, ht64, by omega, hEnemy, hr7⟩,
            if_neg (by rintro ⟨h7, _⟩; omega),
            if_neg (by rintro ⟨_, _, _, hB, _⟩; rw [hB] at hEnemy; simp at hEnemy)]
      · rw [if_neg (by rintro ⟨_, _, _, _, hB, _⟩; rw [hEmp] at hB; simp at hB),
          if_neg (by rintro ⟨_, _, _, _, hB, _⟩; rw [hEmp] at hB; simp at hB),
          if_pos ⟨by omega, by omega, ht64, hEmp, hr7⟩]
      · rcases hfl with hfW | hfE
        · rw [if_neg (by rintro ⟨h9, _⟩; omega),
            if_pos ⟨by omega, by omega, ht64, by omega, hEnemy, hr7⟩,
            if_neg (by rintro ⟨_, _, _, hB, _⟩; rw [hB] at hEnemy; simp at hEnemy)]
        · rw [if_pos ⟨by omega, by omega, ht64, by omega, hEnemy, hr7⟩,
            if_neg (by rintro ⟨h7, _⟩; omega),
            if_neg (by rintro ⟨_, _, _, hB, _⟩; rw [hB] at hEnemy; simp at hEnemy)]
      · rw [if_neg (by rintro ⟨_, _, _, _, hB, _⟩; rw [hEmp] at hB; simp at hB),
          if_neg (by rintro ⟨_, _, _, _, hB, _⟩; rw [hEmp] at hB; simp at hB),
          if_pos ⟨by omega, by omega, ht64, hEmp, hr7⟩]
      · rcases hfl with hfW | hfE
        · rw [if_neg (by rintro ⟨h9, _⟩; omega),
            if_pos ⟨by omega, by omega, ht64, by omega, hEnemy, hr7⟩,
            if_neg (by rintro ⟨_, _, _, hB, _⟩; rw [hB] at hEnemy; simp at hEnemy)]
        · rw [if_pos ⟨by omega, by omega, ht64, by omega, hEnemy, hr7⟩,
            if_neg (by rintro ⟨h7, _⟩; omega),
            if_neg (by rintro ⟨_, _, _, hB, _⟩; rw [hB] at hEnemy; simp at hEnemy)]
      · rw [if_neg (by rintro ⟨_, _, _, _, hB, _⟩; rw [hEmp] at hB; simp at hB),
          if_neg (by rintro ⟨_, _, _, _, hB, _⟩; rw [hEmp] at hB; simp at hB),
          if_pos ⟨by omega, by omega, ht64, hEmp, hr7⟩]
      · rcases hfl with hfW | hfE
        · rw [if_neg (by rintro ⟨h9, _⟩; omega),
            if_pos ⟨by omega, by omega, ht64, by omega, hEnemy, hr7⟩,
            if_neg (by rintro ⟨_, _, _, hB, _⟩; rw [hB] at hEnemy; simp at hEnemy)]
        · rw [if_pos ⟨by omega, by omega, ht64, by omega, hEnemy, hr7⟩,
            if_neg (by rintro ⟨h7, _⟩; omega),
            if_neg (by rintro ⟨_, _, _, hB, _⟩; rw [hB] at hEnemy; simp at hEnemy)]
      · rw [if_neg (by rintro ⟨_, _, _, _, hB, _⟩; rw [hEmp] at hB; simp at hB),
          if_neg (by rintro ⟨_, _, _, _, hB, _⟩; rw [hEmp] at hB; simp at hB),
          if_pos ⟨by omega, by omega, ht64, hEmp, hr7⟩]
      · rcases hfl with hfW | hfE
        · rw [if_neg (by rintro ⟨h9, _⟩; omega),
            if_pos ⟨by omega, by omega, ht64, by omega, hEnemy, hr7⟩,
            if_neg (by rintro ⟨_, _, _, hB, _⟩; rw [hB] at hEnemy; simp at hEnemy)]
        · rw [if_pos ⟨by omega, by omega, ht64, by omega, hEnemy, hr7⟩,
            if_neg (by rintro ⟨h7, _⟩; omega),
            if_neg (by rintro ⟨_, _, _, hB, _⟩; rw [hB] at hEnemy; simp at hEnemy)]
      · rw [if_neg (by rintro ⟨_, _, _, _, hB, _⟩; rw [hEmp] at hB; simp at hB),
          if_neg (by rintro ⟨_, _, _, _, hB, _⟩; rw [hEmp] at hB; simp at hB),
          if_pos ⟨by omega, by omega, ht64, hEmp, hr7⟩]
      · rcases hfl with hfW | hfE
        · rw [if_neg (by rintro ⟨h9, _⟩; omega),
            if_pos ⟨by omega, by omega, ht64, by omega, hEnemy, hr7⟩,
            if_neg (by rintro ⟨_, _, _, hB, _⟩; rw [hB] at hEnemy; simp at hEnemy)]
        · rw [if_pos ⟨by omega, by omega, ht64, by omega, hEnemy, hr7⟩,
            if_neg (by rintro ⟨h7, _⟩; omega),
            if_neg (by rintro ⟨_, _, _, hB, _⟩; rw [hB] at hEnemy; simp at hEnemy)]
      · rw [if_neg (by rintro ⟨_, _, _, _, hB, _⟩; rw [hEmp] at hB; simp at hB),
          if_neg (by rintro ⟨_, _, _, _, hB, _⟩; rw [hEmp] at hB; simp at hB),
          if_pos ⟨by omega, by omega, ht64, hEmp, hr7⟩]
      · rcases hfl with hfW | hfE
        · rw [if_neg (by rintro ⟨h9, _⟩; omega),
            if_pos ⟨by omega, by omega, ht64, by omega, hEnemy, hr7⟩,
            if_neg (by rintro ⟨_, _, _, hB, _⟩; rw [hB] at hEnemy; simp at hEnemy)]
        · rw [if_pos ⟨by omega, by omega, ht64, by omega, hEnemy, hr7⟩,
            if_neg (by rintro ⟨h7, _⟩; omega),
            if_neg (by rintro ⟨_, _, _, hB, _⟩; rw [hB] at hEnemy; simp at hEnemy)]
      · rw [if_neg (by rintro ⟨_, _, _, _, hB, _⟩; rw [hEmp] at hB; simp at hB),
          if_neg (by rintro ⟨_, _, _, _, hB, _⟩; rw [hEmp] at hB; simp at hB),
          if_pos ⟨by omega, by omega, ht64, hEmp, hr7⟩]
      · rcases hfl with hfW | hfE
        · rw [if_neg (by rintro ⟨h9, _⟩; omega),
            if_pos ⟨by omega, by omega, ht64, by omega, hEnemy, hr7⟩,
            if_neg (by rintro ⟨_, _, _, hB, _⟩; rw [hB] at hEnemy; simp at hEnemy)]
        · rw [if_pos ⟨by omega, by omega, ht64, by omega, hEnemy, hr7⟩,
            if_neg (by rintro ⟨h7, _⟩; omega),
            if_neg (by rintro ⟨_, _, _, hB, _⟩; rw [hB] at hEnemy; simp at hEnemy)]
    · -- en passant
      simp only [hkind] at hK
      simp only [Bool.and_eq_true, decide_eq_true_eq, pawnStep, bPawnStep_iff] at hK
      obtain ⟨⟨hpt, hepsq⟩, hstep⟩ := hK
      subst hpt
      rcases hep : pos.ep_square with _ | e
      · rw [hep] at hepsq
        exact absurd hepsq (by simp)
      · rw [hep] at hepsq
        injection hepsq with he
        subst he
        simp only [hep, bpc_sep_cond, bpc_se_cond, bpc_swp_cond, bpc_sw_cond,
          bpc_pushp_cond, bpc_ep_cond, bpn_seu_cond, bpn_swu_cond, bpn_pushu_cond,
          bpn_push_cond, bpn_dbl_cond, move_eq_castle_iff, hkind,
          normal_ne_castle_ite, promo_ne_castle_ite, ep_ne_castle_ite,
          count_piece_moves, count_king_moves] <;>
        simp only [reduceCtorEq, false_or, or_false, true_or, or_true, false_and,
          and_false, if_false, add_zero, zero_add, true_and, and_true, ne_eq,
          not_false_eq_true, Option.some.injEq, Prod.mk.injEq]
        rw [if_pos ⟨by omega, hbm, by rw [ wPawnStep_iff]; omega⟩]
    · -- short castle
      simp only [hkind] at hK
      simp only [Bool.and_eq_true, Bool.not_eq_true', decide_eq_true_eq] at hK
      obtain ⟨⟨⟨⟨hf, ht⟩, hlt⟩, hck⟩, hill⟩ := hK
      rw [hus] at hkq
      rcases hep : pos.ep_square with _ | e <;>
        simp only [hep, bpc_sep_cond, bpc_se_cond, bpc_swp_cond, bpc_sw_cond,
          bpc_pushp_cond, bpc_ep_cond, bpn_seu_cond, bpn_swu_cond, bpn_pushu_cond,
          bpn_push_cond, bpn_dbl_cond, move_eq_castle_iff, hkind,
          normal_ne_castle_ite, promo_ne_castle_ite, ep_ne_castle_ite,
          count_piece_moves, count_king_moves] <;>
        simp only [reduceCtorEq, false_or, or_false, true_or, or_true, false_and,
          and_false, if_false, add_zero, zero_add, true_and, and_true, ne_eq,
          not_false_eq_true, Option.some.injEq, Prod.mk.injEq] <;>
        rw [if_pos ⟨hck, hill, hf, ht, by rw [if_pos (by omega)]⟩,
          if_neg (by rintro ⟨hcq, _, _, ht2, _⟩; exact hkq hck hcq (by omega))]
    · -- long castle
      simp only [hkind] at hK
      simp only [Bool.and_eq_true, Bool.not_eq_true', decide_eq_true_eq] at hK
      obtain ⟨⟨⟨⟨hf, ht⟩, hlt⟩, hcq⟩, hill⟩ := hK
      rw [hus] at hkq
      rcases hep : pos.ep_square with _ | e <;>
        simp only [hep, bpc_sep_cond, bpc_se_cond, bpc_swp_cond, bpc_sw_cond,
          bpc_pushp_cond, bpc_ep_cond, bpn_seu_cond, bpn_swu_cond, bpn_pushu_cond,
          bpn_push_cond, bpn_dbl_cond, move_eq_castle_iff, hkind,
          normal_ne_castle_ite, promo_ne_castle_ite, ep_ne_castle_ite,
          count_piece_moves, count_king_moves] <;>
        simp only [reduceCtorEq, false_or, or_false, true_or, or_true, false_and,
          and_false, if_false, add_zero, zero_add, true_and, and_true, ne_eq,
          not_false_eq_true, Option.some.injEq, Prod.mk.injEq] <;>
        rw [if_neg (by rintro ⟨hck2, _, _, ht2, _⟩; exact hkq hck2 hcq (by omega)),
          if_pos ⟨hcq, hill, hf, ht, by rw [if_neg (by omega)]⟩]

theorem capture_shape_white (pos : Position) (hus : pos.side_to_move = Color.white)
    (m : Move) (hm : m ∈ generate_captures pos) :
    (m.kind = MoveKind.normal ∧
        (pos.board m.mto).map Prod.fst = some Color.black) ∨
      m.kind = MoveKind.promo PieceType.queen ∨ m.kind = MoveKind.ep := by
  have hc : (generate_captures pos).count m ≠ 0 := fun h =>
    (List.count_eq_zero.mp h) hm
  by_contra hs
  push_neg at hs
  obtain ⟨h1, h2, h3⟩ := hs
  apply hc
  rw [generate_captures]
  simp only [hus, if_true, opposite_color, List.count_append, count_wpc,
    count_piece_moves, count_king_moves]
  rcases hep : pos.ep_square with _ | e <;>
    simp only [hep, wpc_nep_cond, wpc_ne_cond, wpc_nwp_cond, wpc_nw_cond,
      wpc_pushp_cond, wpc_ep_cond]
  · rw [if_neg (by rintro ⟨hk, _⟩; exact h2 hk),
      if_neg (by rintro ⟨hk, _, _, _, _, _, hE, _⟩; exact h1 hk hE),
      if_neg (by rintro ⟨hk, _⟩; exact h2 hk),
      if_neg (by rintro ⟨hk, _, _, _, _, _, hE, _⟩; exact h1 hk hE),
      if_neg (by rintro ⟨hk, _⟩; exact h2 hk),
      if_neg (by
        rintro ⟨hk, _, _, _, hT⟩
        rw [Nat.testBit_land, Bool.and_eq_true] at hT
        exact h1 hk (pieces_of_color_testBit.mp hT.2).2),
      if_neg (by
        rintro ⟨hk, _, _, _, hT⟩
        rw [Nat.testBit_land, Bool.and_eq_true] at hT
        exact h1 hk (pieces_of_color_testBit.mp hT.2).2),
      if_neg (by
        rintro ⟨hk, _, _, _, hT⟩
        rw [Nat.testBit_land, Bool.and_eq_true] at hT
        exact h1 hk (pieces_of_color_testBit.mp hT.2).2),
      if_neg (by
        rintro ⟨hk, _, _, _, hT⟩
        rw [Nat.testBit_land, Bool.and_eq_true] at hT
        exact h1 hk (pieces_of_color_testBit.mp hT.2).2),
      if_neg (by
        rintro ⟨hk, _, _, hT⟩
        rw [Nat.testBit_land, Bool.and_eq_true] at hT
        exact h1 hk (pieces_of_color_testBit.mp hT.2).2)]
  · rw [if_neg (by rintro ⟨hk, _⟩; exact h2 hk),
      if_neg (by rintro ⟨hk, _, _, _, _, _, hE, _⟩; exact h1 hk hE),
      if_neg (by rintro ⟨hk, _⟩; exact h2 hk),
      if_neg (by rintro ⟨hk, _, _, _, _, _, hE, _⟩; exact h1 hk hE),
      if_neg (by rintro ⟨hk, _⟩; exact h2 hk),
      if_neg (by rintro ⟨hk, _⟩; exact h3 hk),
      if_neg (by
        rintro ⟨hk, _, _, _, hT⟩
        rw [Nat.testBit_land, Bool.and_eq_true] at hT
        exact h1 hk (pieces_of_color_testBit.mp hT.2).2),
      if_neg (by
        rintro ⟨hk, _, _, _, hT⟩
        rw [Nat.testBit_land, Bool.and_eq_true] at hT
        exact h1 hk (pieces_of_color_testBit.mp hT.2).2),
      if_neg (by
        rintro ⟨hk, _, _, _, hT⟩
        rw [Nat.testBit_land, Bool.and_eq_true] at hT
        exact h1 hk (pieces_of_color_testBit.mp hT.2).2),
      if_neg (by
        rintro ⟨hk, _, _, _, hT⟩
        rw [Nat.testBit_land, Bool.and_eq_true] at hT
        exact h1 hk (pieces_of_color_testBit.mp hT.2).2),
      if_neg (by
        rintro ⟨hk, _, _, hT⟩
        rw [Nat.testBit_land, Bool.and_eq_true] at hT
        exact h1 hk (pieces_of_color_testBit.mp hT.2).2)]

theorem noncapture_shape_white (pos : Position)
    (hus : pos.side_to_move = Color.white) (m : Move)
    (hm : m ∈ generate_noncaptures pos) :
    (m.kind = MoveKind.normal ∧ pos.board m.mto = none) ∨
      m.kind = MoveKind.promo PieceType.rook ∨
      m.kind = MoveKind.promo PieceType.bishop ∨
      m.kind = MoveKind.promo PieceType.knight ∨
      m.kind = MoveKind.shortCastle ∨ m.kind = MoveKind.longCastle := by
  have hc : (generate_noncaptures pos).count m ≠ 0 := fun h =>
    (List.count_eq_zero.mp h) hm
  by_contra hs
  push_neg at hs
  obtain ⟨h1, h2, h3, h4, h5, h6⟩ := hs
  apply hc
  rw [generate_noncaptures]
  simp only [hus, if_true, List.count_append, count_wpn, count_piece_moves,
    count_king_moves, count_castle_moves]
  simp only [wpn_neu_cond, wpn_nwu_cond, wpn_pushu_cond, wpn_push_cond,
    wpn_dbl_cond, move_eq_castle_iff]
  rw [if_neg (by
        rintro ⟨hk | hk | hk, _⟩
        · exact h2 hk
        · exact h3 hk
        · exact h4 hk),
    if_neg (by
        rintro ⟨hk | hk | hk, _⟩
        · exact h2 hk
        · exact h3 hk
        · exact h4 hk),
    if_neg (by
        rintro ⟨hk | hk | hk, _⟩
        · exact h2 hk
        · exact h3 hk
        · exact h4 hk),
    if_neg (by rintro ⟨hk, _, _, _, _, hB, _⟩; exact h1 hk hB),
    if_neg (by rintro ⟨hk, _, _, _, _, _, _, hB⟩; exact h1 hk hB),
    if_neg (by
        rintro ⟨hk, _, _, _, hT⟩
        rw [Nat.testBit_land, Bool.and_eq_true] at hT
        exact h1 hk (empty_squares_testBit.mp hT.2).2),
    if_neg (by
        rintro ⟨hk, _, _, _, hT⟩
        rw [Nat.testBit_land, Bool.and_eq_true] at hT
        exact h1 hk (empty_squares_testBit.mp hT.2).2),
    if_neg (by
        rintro ⟨hk, _, _, _, hT⟩
        rw [Nat.testBit_land, Bool.and_eq_true] at hT
        exact h1 hk (empty_squares_testBit.mp hT.2).2),
    if_neg (by
        rintro ⟨hk, _, _, _, hT⟩
        rw [Nat.testBit_land, Bool.and_eq_true] at hT
        exact h1 hk (empty_squares_testBit.mp hT.2).2),
    if_neg (by
        rintro ⟨hk, _, _, hT⟩
        rw [Nat.testBit_land, Bool.and_eq_true] at hT
        exact h1 hk (empty_squares_testBit.mp hT.2).2),
    if_neg (by rintro ⟨_, _, _, _, hk⟩; split at hk; exacts [h5 hk, h6 hk]),
    if_neg (by rintro ⟨_, _, _, _, hk⟩; split at hk; exacts [h5 hk, h6 hk])]

theorem capture_shape_black (pos : Position) (hus : pos.side_to_move = Color.black)
    (m : Move) (hm : m ∈ generate_captures pos) :
    (m.kind = MoveKind.normal ∧
        (pos.board m.mto).map Prod.fst = some Color.white) ∨
      m.kind = MoveKind.promo PieceType.queen ∨ m.kind = MoveKind.ep := by
  have hc : (generate_captures pos).count m ≠ 0 := fun h =>
    (List.count_eq_zero.mp h) hm
  by_contra hs
  push_neg at hs
  obtain ⟨h1, h2, h3⟩ := hs
  apply hc
  rw [generate_captures]
  simp only [hus, reduceCtorEq, if_false, opposite_color, List.count_append, count_bpc,
    count_piece_moves, count_king_moves]
  rcases hep : pos.ep_square with _ | e <;>
    simp only [hep, bpc_sep_cond, bpc_se_cond, bpc_swp_cond, bpc_sw_cond,
      bpc_pushp_cond, bpc_ep_cond]
  · rw [if_neg (by rintro ⟨hk, _⟩; exact h2 hk),
      if_neg (by rintro ⟨hk, _, _, _, _, _, hE, _⟩; exact h1 hk hE),
      if_neg (by rintro ⟨hk, _⟩; exact h2 hk),
      if_neg (by rintro ⟨hk, _, _, _, _, _, hE, _⟩; exact h1 hk hE),
      if_neg (by rintro ⟨hk, _⟩; exact h2 hk),
      if_neg (by
        rintro ⟨hk, _, _, _, hT⟩
        rw [Nat.testBit_land, Bool.and_eq_true] at hT
        exact h1 hk (pieces_of_color_testBit.mp hT.2).2),
      if_neg (by
        rintro ⟨hk, _, _, _, hT⟩
        rw [Nat.testBit_land, Bool.and_eq_true] at hT
        exact h1 hk (pieces_of_color_testBit.mp hT.2).2),
      if_neg (by
        rintro ⟨hk, _, _, _, hT⟩
        rw [Nat.testBit_land, Bool.and_eq_true] at hT
        exact h1 hk (pieces_of_color_testBit.mp hT.2).2),
      if_neg (by
        rintro ⟨hk, _, _, _, hT⟩
        rw [Nat.testBit_land, Bool.and_eq_true] at hT
        exact h1 hk (pieces_of_color_testBit.mp hT.2).2),
      if_neg (by
        rintro ⟨hk, _, _, hT⟩
        rw [Nat.testBit_land, Bool.and_eq_true] at hT
        exact h1 hk (pieces_of_color_testBit.mp hT.2).2)]
  · rw [if_neg (by rintro ⟨hk, _⟩; exact h2 hk),
      if_neg (by rintro ⟨hk, _, _, _, _, _, hE, _⟩; exact h1 hk hE),
      if_neg (by rintro ⟨hk, _⟩; exact h2 hk),
      if_neg (by rintro ⟨hk, _, _, _, _, _, hE, _⟩; exact h1 hk hE),
      if_neg (by rintro ⟨hk, _⟩; exact h2 hk),
      if_neg (by rintro ⟨hk, _⟩; exact h3 hk),
      if_neg (by
        rintro ⟨hk, _, _, _, hT⟩
        rw [Nat.testBit_land, Bool.and_eq_true] at hT
        exact h1 hk (pieces_of_color_testBit.mp hT.2).2),
      if_neg (by
        rintro ⟨hk, _, _, _, hT⟩
        rw [Nat.testBit_land, Bool.and_eq_true] at hT
        exact h1 hk (pieces_of_color_testBit.mp hT.2).2),
      if_neg (by
        rintro ⟨hk, _, _, _, hT⟩
        rw [Nat.testBit_land, Bool.and_eq_true] at hT
        exact h1 hk (pieces_of_color_testBit.mp hT.2).2),
      if_neg (by
        rintro ⟨hk, _, _, _, hT⟩
        rw [Nat.testBit_land, Bool.and_eq_true] at hT
        exact h1 hk (pieces_of_color_testBit.mp hT.2).2),
      if_neg (by
        rintro ⟨hk, _, _, hT⟩
        rw [Nat.testBit_land, Bool.and_eq_true] at hT
        exact h1 hk (pieces_of_color_testBit.mp hT.2).2)]

theorem noncapture_shape_black (pos : Position)
    (hus : pos.side_to_move = Color.black) (m : Move)
    (hm : m ∈ generate_noncaptures pos) :
    (m.kind = MoveKind.normal ∧ pos.board m.mto = none) ∨
      m.kind = MoveKind.promo PieceType.rook ∨
      m.kind = MoveKind.promo PieceType.bishop ∨
      m.kind = MoveKind.promo PieceType.knight ∨
      m.kind = MoveKind.shortCastle ∨ m.kind = MoveKind.longCastle := by
  have hc : (generate_noncaptures pos).count m ≠ 0 := fun h =>
    (List.count_eq_zero.mp h) hm
  by_contra hs
  push_neg at hs
  obtain ⟨h1, h2, h3, h4, h5, h6⟩ := hs
  apply hc
  rw [generate_noncaptures]
  simp only [hus, reduceCtorEq, if_false, List.count_append, count_bpn, count_piece_moves,
    count_king_moves, count_castle_moves]
  simp only [bpn_seu_cond, bpn_swu_cond, bpn_pushu_cond, bpn_push_cond,
    bpn_dbl_cond, move_eq_castle_iff]
  rw [if_neg (by
        rintro ⟨hk | hk | hk, _⟩
        · exact h2 hk
        · exact h3 hk
        · exact h4 hk),
    if_neg (by
        rintro ⟨hk | hk | hk, _⟩
        · exact h2 hk
        · exact h3 hk
        · exact h4 hk),
    if_neg (by
        rintro ⟨hk | hk | hk, _⟩
        · exact h2 hk
        · exact h3 hk
        · exact h4 hk),
    if_neg (by rintro ⟨hk, _, _, _, _, hB, _⟩; exact h1 hk hB),
    if_neg (by rintro ⟨hk, _, _, _, _, _, _, hB⟩; exact h1 hk hB),
    if_neg (by
        rintro ⟨hk, _, _, _, hT⟩
        rw [Nat.testBit_land, Bool.and_eq_true] at hT
        exact h1 hk (empty_squares_testBit.mp hT.2).2),
    if_neg (by
        rintro ⟨hk, _, _, _, hT⟩
        rw [Nat.testBit_land, Bool.and_eq_true] at hT
        exact h1 hk (empty_squares_testBit.mp hT.2).2),
    if_neg (by
        rintro ⟨hk, _, _, _, hT⟩
        rw [Nat.testBit_land, Bool.and_eq_true] at hT
        exact h1 hk (empty_squares_testBit.mp hT.2).2),
    if_neg (by
        rintro ⟨hk, _, _, _, hT⟩
        rw [Nat.testBit_land, Bool.and_eq_true] at hT
        exact h1 hk (empty_squares_testBit.mp hT.2).2),
    if_neg (by
        rintro ⟨hk, _, _, hT⟩
        rw [Nat.testBit_land, Bool.and_eq_true] at hT
        exact h1 hk (empty_squares_testBit.mp hT.2).2),
    if_neg (by rintro ⟨_, _, _, _, hk⟩; split at hk; exacts [h5 hk, h6 hk]),
    if_neg (by rintro ⟨_, _, _, _, hk⟩; split at hk; exacts [h5 hk, h6 hk])]

/-- C3: for a well-formed position (with distinct initial rook squares when both
castling rights are held) the capture and non-capture generators are disjoint,
their union contains every pseudo-legal move exactly once, queen promotions
appear only in the capture list, and under-promotions only in the non-capture
list. -/
theorem c3_capture_noncapture_partition (pos : Position) (hok : pos.is_ok = true)
    (hchk : pos.is_check = false)
    (hkq : pos.can_castle_kingside pos.side_to_move = true →
      pos.can_castle_queenside pos.side_to_move = true →
      pos.initial_kr_square pos.side_to_move ≠ pos.initial_qr_square pos.side_to_move) :
    (∀ m ∈ generate_captures pos, m ∉ generate_noncaptures pos) ∧
    (∀ m : Move, pseudo_legal pos m = true →
      (generate_captures pos ++ generate_noncaptures pos).count m = 1) ∧
    (∀ m ∈ generate_noncaptures pos, m.kind ≠ MoveKind.promo PieceType.queen) ∧
    (∀ m ∈ generate_captures pos, ∀ pt : PieceType,
      m.kind = MoveKind.promo pt → pt = PieceType.queen) := by
  rcases hcol : pos.side_to_move with _ | _
  · refine ⟨?_, ?_, ?_, ?_⟩
    · intro m hm hm2
      have hs1 := capture_shape_white pos hcol m hm
      have hs2 := noncapture_shape_white pos hcol m hm2
      rcases hs1 with ⟨hk1, hE⟩ | hk1 | hk1 <;>
        rcases hs2 with ⟨hk2, hB⟩ | hk2 | hk2 | hk2 | hk2 | hk2 <;>
        first
          | (rw [hB] at hE; simp at hE)
          | (rw [hk1] at hk2; simp at hk2)
    · exact fun m hpl => count_union_white pos hok hkq hcol m hpl
    · intro m hm hq
      have hs := noncapture_shape_white pos hcol m hm
      rcases hs with ⟨hk, _⟩ | hk | hk | hk | hk | hk <;> rw [hq] at hk <;>
        simp at hk
    · intro m hm pt hq
      have hs := capture_shape_white pos hcol m hm
      rcases hs with ⟨hk, _⟩ | hk | hk
      · rw [hq] at hk
        simp at hk
      · rw [hq] at hk
        injection hk
      · rw [hq] at hk
        simp at hk
  · refine ⟨?_, ?_, ?_, ?_⟩
    · intro m hm hm2
      have hs1 := capture_shape_black pos hcol m hm
      have hs2 := noncapture_shape_black pos hcol m hm2
      rcases hs1 with ⟨hk1, hE⟩ | hk1 | hk1 <;>
        rcases hs2 with ⟨hk2, hB⟩ | hk2 | hk2 | hk2 | hk2 | hk2 <;>
        first
          | (rw [hB] at hE; simp at hE)
          | (rw [hk1] at hk2; simp at hk2)
    · exact fun m hpl => count_union_black pos hok hkq hcol m hpl
    · intro m hm hq
      have hs := noncapture_shape_black pos hcol m hm
      rcases hs with ⟨hk, _⟩ | hk | hk | hk | hk | hk <;> rw [hq] at hk <;>
        simp at hk
    · intro m hm pt hq
      have hs := capture_shape_black pos hcol m hm
      rcases hs with ⟨hk, _⟩ | hk | hk
      · rw [hq] at hk
        simp at hk
      · rw [hq] at hk
        injection hk
      · rw [hq] at hk
        simp at hk

theorem c3_capture_noncapture_partition_witness :
    posDoublePush.is_ok = true ∧ posDoublePush.is_check = false ∧
    (∀ m ∈ generate_captures posDoublePush, m ∉ generate_noncaptures posDoublePush) ∧
    (∀ m ∈ generate_noncaptures posDoublePush,
      m.kind ≠ MoveKind.promo PieceType.queen) :=
  ⟨by decide, by decide,
    (c3_capture_noncapture_partition posDoublePush (by decide) (by decide)
      (by decide)).1,
    (c3_capture_noncapture_partition posDoublePush (by decide) (by decide)
      (by decide)).2.2.1⟩


theorem diagAligned_symm (a b : Nat) : diagAligned a b = diagAligned b a := by
  rw [diagAligned, diagAligned, Bool.eq_iff_iff]
  simp only [Bool.and_eq_true, decide_eq_true_eq]
  omega

theorem rookAligned_symm (a b : Nat) : rookAligned a b = rookAligned b a := by
  rw [rookAligned, rookAligned, Bool.eq_iff_iff]
  simp only [Bool.and_eq_true, Bool.or_eq_true, decide_eq_true_eq]
  omega

theorem sqAligned_symm (a b : Nat) : sqAligned a b = sqAligned b a := by
  rw [sqAligned, sqAligned, Bool.eq_iff_iff]
  simp only [Bool.and_eq_true, Bool.or_eq_true, decide_eq_true_eq]
  omega

theorem natAbs_swap (x y : Int) : (x - y).natAbs = (y - x).natAbs := by
  rw [← Int.natAbs_neg, neg_sub]

theorem onOpenSeg_symm (a b c : Nat) : onOpenSeg a b c = onOpenSeg b a c := by
  rw [onOpenSeg, onOpenSeg, Bool.eq_iff_iff]
  simp only [Bool.and_eq_true, decide_eq_true_eq]
  constructor
  · rintro ⟨⟨⟨⟨⟨⟨⟨hal, hca⟩, hcb⟩, hx⟩, hf1⟩, hf2⟩, hr1⟩, hr2⟩
    refine ⟨⟨⟨⟨⟨⟨⟨?_, hcb⟩, hca⟩, by linear_combination -hx⟩,
      min_comm (fi a) (fi b) ▸ hf1⟩, max_comm (fi a) (fi b) ▸ hf2⟩,
      min_comm (ri a) (ri b) ▸ hr1⟩, max_comm (ri a) (ri b) ▸ hr2⟩
    rw [← sqAligned_symm]
    exact hal
  · rintro ⟨⟨⟨⟨⟨⟨⟨hal, hcb⟩, hca⟩, hx⟩, hf1⟩, hf2⟩, hr1⟩, hr2⟩
    refine ⟨⟨⟨⟨⟨⟨⟨?_, hca⟩, hcb⟩, by linear_combination -hx⟩,
      min_comm (fi b) (fi a) ▸ hf1⟩, max_comm (fi b) (fi a) ▸ hf2⟩,
      min_comm (ri b) (ri a) ▸ hr1⟩, max_comm (ri b) (ri a) ▸ hr2⟩
    rw [← sqAligned_symm]
    exact hal

theorem squares_between_symm (a b : Nat) :
    squares_between a b = squares_between b a := by
  apply Nat.eq_of_testBit_eq
  intro i
  rw [squares_between, squares_between, testBit_bbOfPred, testBit_bbOfPred,
    onOpenSeg_symm]

theorem knightStep_symm (a b : Nat) : knightStep a b = knightStep b a := by
  rw [knightStep, knightStep, natAbs_swap (fi a) (fi b),
    natAbs_swap (ri a) (ri b)]

theorem kingStep_symm (a b : Nat) : kingStep a b = kingStep b a := by
  rw [kingStep, kingStep, Bool.eq_iff_iff]
  simp only [Bool.and_eq_true, decide_eq_true_eq]
  omega

theorem pawnStep_symm (c : Color) (a b : Nat) :
    pawnStep c a b = pawnStep (opposite_color c) b a := by
  cases c <;>
    simp only [pawnStep, opposite_color] <;>
    rw [wPawnStep, bPawnStep, Bool.eq_iff_iff] <;>
    simp only [Bool.and_eq_true, decide_eq_true_eq] <;>
    omega

theorem exists_testBit_of_ne_zero {b : Nat} (hb : b ≠ 0) :
    ∃ i, b.testBit i = true := by
  by_contra h
  push_neg at h
  refine hb (Nat.eq_of_testBit_eq fun i => ?_)
  rw [Nat.zero_testBit]
  exact Bool.not_eq_true _ ▸ (h i)

theorem mod_two_pow_eq_zero_of_testBit {b j : Nat}
    (h : ∀ i, i < j → b.testBit i = false) : b % 2 ^ j = 0 := by
  apply Nat.eq_of_testBit_eq
  intro i
  rw [Nat.testBit_mod_two_pow, Nat.zero_testBit]
  by_cases hi : i < j
  · simp [hi, h i hi]
  · simp [hi]

theorem testBit_pred_high {b j s : Nat} (hbj : b.testBit j = true)
    (hlow : ∀ i, i < j → b.testBit i = false) (hjs : j < s) :
    (b - 1).testBit s = b.testBit s := by
  have hmod : b % 2 ^ j = 0 := mod_two_pow_eq_zero_of_testBit hlow
  have hdiv : b / 2 ^ j % 2 = 1 := by
    rw [Nat.testBit_to_div_mod] at hbj
    exact of_decide_eq_true hbj
  have hP : 0 < 2 ^ j := Nat.pos_pow_of_pos j (by omega)
  have hb1 : b = 2 ^ j * (b / 2 ^ j) := by
    have := Nat.mod_add_div b (2 ^ j)
    omega
  have hb2 : b / 2 ^ j = 2 * (b / (2 ^ j * 2)) + 1 := by
    have h1 := Nat.mod_add_div (b / 2 ^ j) 2
    rw [Nat.div_div_eq_div_mul] at h1
    omega
  have hb3 : b = 2 ^ j * 2 * (b / (2 ^ j * 2)) + 2 ^ j := by
    calc b = 2 ^ j * (b / 2 ^ j) := hb1
    _ = 2 ^ j * (2 * (b / (2 ^ j * 2)) + 1) := by rw [← hb2]
    _ = 2 ^ j * 2 * (b / (2 ^ j * 2)) + 2 ^ j := by ring
  have hq1 : (b - 1) / 2 ^ (j + 1) = b / 2 ^ (j + 1) := by
    have hpow : 2 ^ (j + 1) = 2 ^ j * 2 := by rw [Nat.pow_succ]
    rw [hpow]
    have h1 : b - 1 = 2 ^ j * 2 * (b / (2 ^ j * 2)) + (2 ^ j - 1) := by omega
    have h2 : (2 ^ j - 1) / (2 ^ j * 2) = 0 := Nat.div_eq_of_lt (by omega)
    have h3 : 2 ^ j / (2 ^ j * 2) = 0 := Nat.div_eq_of_lt (by omega)
    rw [h1, Nat.mul_add_div (by omega), h2]
    conv_rhs => rw [hb3, Nat.mul_add_div (by omega), h3]
  have hsplit : s = (j + 1) + (s - (j + 1)) := by omega
  rw [hsplit, ← Nat.testBit_shiftRight, ← Nat.testBit_shiftRight,
    Nat.shiftRight_eq_div_pow, Nat.shiftRight_eq_div_pow, hq1]

theorem single_bit_eq {b s j : Nat} (hland : b &&& (b - 1) = 0)
    (hbj : b.testBit j = true) (hlow : ∀ i, i < j → b.testBit i = false)
    (hs : b.testBit s = true) : s = j := by
  by_contra hne
  have hjs : j < s := by
    rcases Nat.lt_or_ge s j with h | h
    · rw [hlow s h] at hs
      exact absurd hs (by simp)
    · omega
  have hbit : (b &&& (b - 1)).testBit s = true := by
    rw [Nat.testBit_land, testBit_pred_high hbj hlow hjs, hs]
    rfl
  rw [hland, Nat.zero_testBit] at hbit
  exact absurd hbit (by simp)

theorem first_1_spec {b : Nat} (i0 : Nat) (hi0 : i0 < 64)
    (hbit : b.testBit i0 = true) :
    b.testBit (first_1 b) = true ∧ first_1 b < 64 ∧
      ∀ i, i < first_1 b → b.testBit i = false := by
  have hmem : i0 ∈ (List.range 64).filter b.testBit := by
    rw [List.mem_filter, List.mem_range]
    exact ⟨hi0, hbit⟩
  have hpw : ((List.range 64).filter b.testBit).Pairwise (· < ·) :=
    List.Pairwise.filter _ (List.pairwise_lt_range 64)
  rcases hl : (List.range 64).filter b.testBit with _ | ⟨x, xs⟩
  · rw [hl] at hmem
    exact absurd hmem (List.not_mem_nil i0)
  · have hx : x ∈ (List.range 64).filter b.testBit := by
      rw [hl]
      exact List.mem_cons_self x xs
    rw [List.mem_filter, List.mem_range] at hx
    have hhead : first_1 b = x := by rw [first_1, hl, List.headD_cons]
    rw [hl] at hpw
    rw [List.pairwise_cons] at hpw
    refine ⟨hhead ▸ hx.2, hhead ▸ hx.1, fun i hi => ?_⟩
    by_contra hib
    have : i ∈ (List.range 64).filter b.testBit := by
      rw [List.mem_filter, List.mem_range]
      exact ⟨by omega, by revert hib; cases h2 : b.testBit i <;> simp⟩
    rw [hl, List.mem_cons] at this
    rcases this with rfl | hmem2
    · rw [hhead] at hi
      omega
    · have := hpw.1 i hmem2
      rw [hhead] at hi
      omega

theorem checkers_testBit {pos : Position} {s : Nat} :
    pos.checkers.testBit s = true ↔
      s < 64 ∧
      (pos.board s).map Prod.fst = some (opposite_color pos.side_to_move) ∧
      pos.piece_attacks_square s (pos.king_square pos.side_to_move) = true := by
  rw [Position.checkers, testBit_bbOfPred]
  simp only [Position.side_to_move, Bool.and_eq_true, decide_eq_true_eq, and_assoc]

theorem attackedWithOcc_false_iff {pos : Position} {c : Color} {sq occ : Nat} :
    attackedWithOcc pos c sq occ = false ↔
      pawn_attacks_bb (opposite_color c) sq &&& pos.pawns c = 0 ∧
      knight_attacks_bb sq &&& pos.knights c = 0 ∧
      king_attacks_bb sq &&& pos.kings c = 0 ∧
      bishop_attacks_bb sq occ &&& pos.bishops_and_queens c = 0 ∧
      rook_attacks_bb sq occ &&& pos.rooks_and_queens c = 0 := by
  rw [attackedWithOcc]
  simp [and_assoc]

theorem land_eq_zero_of_pointwise {a b : Nat}
    (h : ∀ i, a.testBit i = true → b.testBit i = true → False) : a &&& b = 0 := by
  rw [eq_zero_iff_testBit]
  intro i
  rw [Nat.testBit_land]
  cases ha : a.testBit i
  · rfl
  · cases hb : b.testBit i
    · rfl
    · exact absurd (h i ha hb) (by simp)

theorem testBit_ne_zero_of_bit {a i : Nat} (h : a.testBit i = true) : a ≠ 0 := by
  intro h0
  rw [h0, Nat.zero_testBit] at h
  exact absurd h (by simp)

theorem pawn_attacks_testBit {c : Color} {s t : Nat} :
    (pawn_attacks_bb c s).testBit t = true ↔ t < 64 ∧ pawnStep c s t = true := by
  rw [pawn_attacks_bb, testBit_bbOfPred_iff]

theorem bishop_attacks_testBit {s occ t : Nat} :
    (bishop_attacks_bb s occ).testBit t = true ↔
      t < 64 ∧ diagAligned s t = true ∧ squares_between s t &&& occ = 0 := by
  rw [bishop_attacks_bb, testBit_bbOfPred_iff]
  simp [and_assoc]

theorem rook_attacks_testBit {s occ t : Nat} :
    (rook_attacks_bb s occ).testBit t = true ↔
      t < 64 ∧ rookAligned s t = true ∧ squares_between s t &&& occ = 0 := by
  rw [rook_attacks_bb, testBit_bbOfPred_iff]
  simp [and_assoc]

theorem opposite_opposite (c : Color) : opposite_color (opposite_color c) = c := by
  cases c <;> rfl

theorem opposite_ne (c : Color) : opposite_color c ≠ c := by
  cases c <;> simp [opposite_color]

theorem bq_testBit {pos : Position} {c : Color} {s : Nat} :
    (pos.bishops_and_queens c).testBit s = true ↔
      s < 64 ∧ (pos.board s = some (c, PieceType.bishop) ∨
        pos.board s = some (c, PieceType.queen)) := by
  rw [Position.bishops_and_queens, Nat.testBit_or, Bool.or_eq_true,
    Position.bishops, Position.queens, piecesBB_testBit_iff, piecesBB_testBit_iff]
  constructor
  · rintro (⟨h1, h2⟩ | ⟨h1, h2⟩)
    · exact ⟨h1, Or.inl h2⟩
    · exact ⟨h1, Or.inr h2⟩
  · rintro ⟨h1, h2 | h2⟩
    · exact Or.inl ⟨h1, h2⟩
    · exact Or.inr ⟨h1, h2⟩

theorem rq_testBit {pos : Position} {c : Color} {s : Nat} :
    (pos.rooks_and_queens c).testBit s = true ↔
      s < 64 ∧ (pos.board s = some (c, PieceType.rook) ∨
        pos.board s = some (c, PieceType.queen)) := by
  rw [Position.rooks_and_queens, Nat.testBit_or, Bool.or_eq_true,
    Position.rooks, Position.queens, piecesBB_testBit_iff, piecesBB_testBit_iff]
  constructor
  · rintro (⟨h1, h2⟩ | ⟨h1, h2⟩)
    · exact ⟨h1, Or.inl h2⟩
    · exact ⟨h1, Or.inr h2⟩
  · rintro ⟨h1, h2 | h2⟩
    · exact Or.inl ⟨h1, h2⟩
    · exact Or.inr ⟨h1, h2⟩

theorem pawns_testBit {pos : Position} {c : Color} {s : Nat} :
    (pos.pawns c).testBit s = true ↔
      s < 64 ∧ pos.board s = some (c, PieceType.pawn) := by
  rw [Position.pawns, piecesBB_testBit_iff]

theorem knights_testBit {pos : Position} {c : Color} {s : Nat} :
    (pos.knights c).testBit s = true ↔
      s < 64 ∧ pos.board s = some (c, PieceType.knight) := by
  rw [Position.knights, piecesBB_testBit_iff]

theorem kings_testBit {pos : Position} {c : Color} {s : Nat} :
    (pos.kings c).testBit s = true ↔
      s < 64 ∧ pos.board s = some (c, PieceType.king) := by
  rw [Position.kings, piecesBB_testBit_iff]

theorem capture_evasion_core (pos pos2 : Position) (hok : pos.is_ok = true)
    (f checksq : Nat) (newpt : PieceType)
    (hnp : newpt ≠ PieceType.king)
    (hf64 : f < 64)
    (hbf : (pos.board f).map Prod.fst = some pos.side_to_move)
    (hb2f : pos2.board f = none)
    (hb2c : pos2.board checksq = some (pos.side_to_move, newpt))
    (hb2o : ∀ s2, s2 ≠ f → s2 ≠ checksq → pos2.board s2 = pos.board s2)
    (hnotpin : (pos.pinned_pieces pos.side_to_move).testBit f = false)
    (hsingle : ∀ s2, pos.checkers.testBit s2 = true → s2 = checksq) :
    ∀ s, s < 64 → pos2.board s = some (pos.side_to_move, PieceType.king) →
      attackedWithOcc pos2 (opposite_color pos.side_to_move) s
        pos2.occupied_squares = false := by
  intro s hs64 hbs
  have hsf : s ≠ f := fun he => by
    rw [he, hb2f] at hbs
    exact absurd hbs (by simp)
  have hsc : s ≠ checksq := fun he => by
    rw [he, hb2c, Option.some.injEq, Prod.mk.injEq] at hbs
    exact hnp hbs.2
  have hboards : pos.board s = some (pos.side_to_move, PieceType.king) := by
    rw [← hb2o s hsf hsc]
    exact hbs
  have hsk : s = pos.king_square pos.side_to_move :=
    eq_king_square_of_board hok hboards hs64
  rw [attackedWithOcc_false_iff]
  refine ⟨?_, ?_, ?_, ?_, ?_⟩
  · refine land_eq_zero_of_pointwise fun x hx1 hx2 => ?_
    rw [pawn_attacks_testBit] at hx1
    rw [pawns_testBit] at hx2
    obtain ⟨hx64, hbx2⟩ := hx2
    have hxf : x ≠ f := fun he => by
      rw [he, hb2f] at hbx2
      exact absurd hbx2 (by simp)
    have hxc : x ≠ checksq := fun he => by
      rw [he, hb2c, Option.some.injEq, Prod.mk.injEq] at hbx2
      exact opposite_ne pos.side_to_move hbx2.1.symm
    have hbx : pos.board x = some (opposite_color pos.side_to_move, PieceType.pawn) := by
      rw [← hb2o x hxf hxc]
      exact hbx2
    refine absurd (hsingle x ?_) hxc
    rw [checkers_testBit]
    refine ⟨hx64, by rw [hbx]; rfl, ?_⟩
    rw [Position.piece_attacks_square, hbx]
    show pawnStep (opposite_color pos.side_to_move) x (pos.king_square pos.side_to_move) = true
    rw [← hsk]
    have hstep := hx1.2
    rw [opposite_opposite] at hstep
    rw [pawnStep_symm] at hstep
    exact hstep
  · refine land_eq_zero_of_pointwise fun x hx1 hx2 => ?_
    rw [knight_attacks_testBit] at hx1
    rw [knights_testBit] at hx2
    obtain ⟨hx64, hbx2⟩ := hx2
    have hxf : x ≠ f := fun he => by
      rw [he, hb2f] at hbx2
      exact absurd hbx2 (by simp)
    have hxc : x ≠ checksq := fun he => by
      rw [he, hb2c, Option.some.injEq, Prod.mk.injEq] at hbx2
      exact opposite_ne pos.side_to_move hbx2.1.symm
    have hbx : pos.board x = some (opposite_color pos.side_to_move, PieceType.knight) := by
      rw [← hb2o x hxf hxc]
      exact hbx2
    refine absurd (hsingle x ?_) hxc
    rw [checkers_testBit]
    refine ⟨hx64, by rw [hbx]; rfl, ?_⟩
    rw [Position.piece_attacks_square, hbx]
    show knightStep x (pos.king_square pos.side_to_move) = true
    rw [← hsk]
    rw [knightStep_symm]
    exact hx1.2
  · refine land_eq_zero_of_pointwise fun x hx1 hx2 => ?_
    rw [king_attacks_testBit] at hx1
    rw [kings_testBit] at hx2
    obtain ⟨hx64, hbx2⟩ := hx2
    have hxf : x ≠ f := fun he => by
      rw [he, hb2f] at hbx2
      exact absurd hbx2 (by simp)
    have hxc : x ≠ checksq := fun he => by
      rw [he, hb2c, Option.some.injEq, Prod.mk.injEq] at hbx2
      exact opposite_ne pos.side_to_move hbx2.1.symm
    have hbx : pos.board x = some (opposite_color pos.side_to_move, PieceType.king) := by
      rw [← hb2o x hxf hxc]
      exact hbx2
    refine absurd (hsingle x ?_) hxc
    rw [checkers_testBit]
    refine ⟨hx64, by rw [hbx]; rfl, ?_⟩
    rw [Position.piece_attacks_square, hbx]
    show kingStep x (pos.king_square pos.side_to_move) = true
    rw [← hsk]
    rw [kingStep_symm]
    exact hx1.2
  · refine land_eq_zero_of_pointwise fun x hx1 hx2 => ?_
    rw [bishop_attacks_testBit] at hx1
    obtain ⟨hx64a, hdiag, hseg0⟩ := hx1
    rw [bq_testBit] at hx2
    obtain ⟨hx64, hbx2⟩ := hx2
    rcases hbx2 with hbq | hbq
    · have hxf : x ≠ f := fun he => by
        rw [he, hb2f] at hbq
        exact absurd hbq (by simp)
      have hxc : x ≠ checksq := fun he => by
        rw [he, hb2c, Option.some.injEq, Prod.mk.injEq] at hbq
        exact opposite_ne pos.side_to_move hbq.1.symm
      have hbx : pos.board x = some (opposite_color pos.side_to_move, PieceType.bishop) := by
        rw [← hb2o x hxf hxc]
        exact hbq
      by_cases hSO : squares_between s x &&& pos.occupied_squares = 0
      · refine absurd (hsingle x ?_) hxc
        rw [checkers_testBit]
        refine ⟨hx64, by rw [hbx]; rfl, ?_⟩
        rw [Position.piece_attacks_square, hbx]
        show (bishop_attacks_bb x pos.occupied_squares).testBit (pos.king_square pos.side_to_move) = true
        rw [bishop_attacks_testBit]
        refine ⟨by rw [← hsk]; exact hs64, ?_, ?_⟩
        · rw [← hsk, diagAligned_symm]
          exact hdiag
        · rw [← hsk, squares_between_symm]
          exact hSO
      · have hall : ∀ i, (squares_between s x).testBit i = true →
            pos.occupied_squares.testBit i = true → i = f := by
          intro i hi ho
          by_contra hif
          have hi64 : i < 64 := (occupied_squares_testBit.mp ho).1
          have hbo : pos.board i ≠ none := (occupied_squares_testBit.mp ho).2
          have ho2 : pos2.occupied_squares.testBit i = true := by
            rw [occupied_squares_testBit]
            refine ⟨hi64, ?_⟩
            by_cases hic : i = checksq
            · rw [hic, hb2c]
              simp
            · rw [hb2o i hif hic]
              exact hbo
          have hland : (squares_between s x &&& pos2.occupied_squares).testBit i = true := by
            rw [Nat.testBit_land, hi, ho2]
            rfl
          rw [hseg0, Nat.zero_testBit] at hland
          exact absurd hland (by simp)
        have hfseg : (squares_between s x).testBit f = true ∧
            pos.occupied_squares.testBit f = true := by
          by_contra hc
          apply hSO
          apply land_eq_zero_of_pointwise
          intro i hi ho
          have hieq := hall i hi ho
          subst hieq
          exact hc ⟨hi, ho⟩
        have hseq : squares_between s x &&& pos.occupied_squares = 1 <<< f := by
          apply Nat.eq_of_testBit_eq
          intro i
          rw [Nat.testBit_land, testBit_one_shl]
          by_cases hif : i = f
          · subst hif
            rw [hfseg.1, hfseg.2]
            simp
          · cases hsi : (squares_between s x).testBit i
            · simp [hsi, Ne.symm hif]
            · cases hoi : pos.occupied_squares.testBit i
              · simp [hsi, hoi, Ne.symm hif]
              · exact absurd (hall i hsi hoi) hif
        have hpin : (pos.pinned_pieces pos.side_to_move).testBit f = true := by
          rw [Position.pinned_pieces, testBit_bbOfPred_iff]
          refine ⟨hf64, ?_⟩
          rw [Bool.and_eq_true]
          constructor
          · exact decide_eq_true hbf
          · rw [List.any_eq_true]
            refine ⟨x, List.mem_range.mpr hx64, ?_⟩
            rw [Bool.and_eq_true, Bool.or_eq_true]
            constructor
            · left
              rw [Bool.and_eq_true]
              refine ⟨bq_testBit.mpr ⟨hx64, Or.inl hbx⟩, ?_⟩
              rw [← hsk, diagAligned_symm]
              exact hdiag
            · rw [decide_eq_true_eq, ← hsk, squares_between_symm]
              exact hseq
        rw [hpin] at hnotpin
        exact absurd hnotpin (by simp)
    · have hxf : x ≠ f := fun he => by
        rw [he, hb2f] at hbq
        exact absurd hbq (by simp)
      have hxc : x ≠ checksq := fun he => by
        rw [he, hb2c, Option.some.injEq, Prod.mk.injEq] at hbq
        exact opposite_ne pos.side_to_move hbq.1.symm
      have hbx : pos.board x = some (opposite_color pos.side_to_move, PieceType.queen) := by
        rw [← hb2o x hxf hxc]
        exact hbq
      by_cases hSO : squares_between s x &&& pos.occupied_squares = 0
      · refine absurd (hsingle x ?_) hxc
        rw [checkers_testBit]
        refine ⟨hx64, by rw [hbx]; rfl, ?_⟩
        rw [Position.piece_attacks_square, hbx]
        show (queen_attacks_bb x pos.occupied_squares).testBit (pos.king_square pos.side_to_move) = true
        rw [queen_attacks_bb, Nat.testBit_or, Bool.or_eq_true]
        left
        rw [bishop_attacks_testBit]
        refine ⟨by rw [← hsk]; exact hs64, ?_, ?_⟩
        · rw [← hsk, diagAligned_symm]
          exact hdiag
        · rw [← hsk, squares_between_symm]
          exact hSO
      · have hall : ∀ i, (squares_between s x).testBit i = true →
            pos.occupied_squares.testBit i = true → i = f := by
          intro i hi ho
          by_contra hif
          have hi64 : i < 64 := (occupied_squares_testBit.mp ho).1
          have hbo : pos.board i ≠ none := (occupied_squares_testBit.mp ho).2
          have ho2 : pos2.occupied_squares.testBit i = true := by
            rw [occupied_squares_testBit]
            refine ⟨hi64, ?_⟩
            by_cases hic : i = checksq
            · rw [hic, hb2c]
              simp
            · rw [hb2o i hif hic]
              exact hbo
          have hland : (squares_between s x &&& pos2.occupied_squares).testBit i = true := by
            rw [Nat.testBit_land, hi, ho2]
            rfl
          rw [hseg0, Nat.zero_testBit] at hland
          exact absurd hland (by simp)
        have hfseg : (squares_between s x).testBit f = true ∧
            pos.occupied_squares.testBit f = true := by
          by_contra hc
          apply hSO
          apply land_eq_zero_of_pointwise
          intro i hi ho
          have hieq := hall i hi ho
          subst hieq
          exact hc ⟨hi, ho⟩
        have hseq : squares_between s x &&& pos.occupied_squares = 1 <<< f := by
          apply Nat.eq_of_testBit_eq
          intro i
          rw [Nat.testBit_land, testBit_one_shl]
          by_cases hif : i = f
          · subst hif
            rw [hfseg.1, hfseg.2]
            simp
          · cases hsi : (squares_between s x).testBit i
            · simp [hsi, Ne.symm hif]
            · cases hoi : pos.occupied_squares.testBit i
              · simp [hsi, hoi, Ne.symm hif]
              · exact absurd (hall i hsi hoi) hif
        have hpin : (pos.pinned_pieces pos.side_to_move).testBit f = true := by
          rw [Position.pinned_pieces, testBit_bbOfPred_iff]
          refine ⟨hf64, ?_⟩
          rw [Bool.and_eq_true]
          constructor
          · exact decide_eq_true hbf
          · rw [List.any_eq_true]
            refine ⟨x, List.mem_range.mpr hx64, ?_⟩
            rw [Bool.and_eq_true, Bool.or_eq_true]
            constructor
            · left
              rw [Bool.and_eq_true]
              refine ⟨bq_testBit.mpr ⟨hx64, Or.inr hbx⟩, ?_⟩
              rw [← hsk, diagAligned_symm]
              exact hdiag
            · rw [decide_eq_true_eq, ← hsk, squares_between_symm]
              exact hseq
        rw [hpin] at hnotpin
        exact absurd hnotpin (by simp)
  · refine land_eq_zero_of_pointwise fun x hx1 hx2 => ?_
    rw [rook_attacks_testBit] at hx1
    obtain ⟨hx64a, hdiag, hseg0⟩ := hx1
    rw [rq_testBit] at hx2
    obtain ⟨hx64, hbx2⟩ := hx2
    rcases hbx2 with hbq | hbq
    · have hxf : x ≠ f := fun he => by
        rw [he, hb2f] at hbq
        exact absurd hbq (by simp)
      have hxc : x ≠ checksq := fun he => by
        rw [he, hb2c, Option.some.injEq, Prod.mk.injEq] at hbq
        exact opposite_ne pos.side_to_move hbq.1.symm
      have hbx : pos.board x = some (opposite_color pos.side_to_move, PieceType.rook) := by
        rw [← hb2o x hxf hxc]
        exact hbq
      by_cases hSO : squares_between s x &&& pos.occupied_squares = 0
      · refine absurd (hsingle x ?_) hxc
        rw [checkers_testBit]
        refine ⟨hx64, by rw [hbx]; rfl, ?_⟩
        rw [Position.piece_attacks_square, hbx]
        show (rook_attacks_bb x pos.occupied_squares).testBit (pos.king_square pos.side_to_move) = true
        rw [rook_attacks_testBit]
        refine ⟨by rw [← hsk]; exact hs64, ?_, ?_⟩
        · rw [← hsk, rookAligned_symm]
          exact hdiag
        · rw [← hsk, squares_between_symm]
          exact hSO
      · have hall : ∀ i, (squares_between s x).testBit i = true →
            pos.occupied_squares.testBit i = true → i = f := by
          intro i hi ho
          by_contra hif
          have hi64 : i < 64 := (occupied_squares_testBit.mp ho).1
          have hbo : pos.board i ≠ none := (occupied_squares_testBit.mp ho).2
          have ho2 : pos2.occupied_squares.testBit i = true := by
            rw [occupied_squares_testBit]
            refine ⟨hi64, ?_⟩
            by_cases hic : i = checksq
            · rw [hic, hb2c]
              simp
            · rw [hb2o i hif hic]
              exact hbo
          have hland : (squares_between s x &&& pos2.occupied_squares).testBit i = true := by
            rw [Nat.testBit_land, hi, ho2]
            rfl
          rw [hseg0, Nat.zero_testBit] at hland
          exact absurd hland (by simp)
        have hfseg : (squares_between s x).testBit f = true ∧
            pos.occupied_squares.testBit f = true := by
          by_contra hc
          apply hSO
          apply land_eq_zero_of_pointwise
          intro i hi ho
          have hieq := hall i hi ho
          subst hieq
          exact hc ⟨hi, ho⟩
        have hseq : squares_between s x &&& pos.occupied_squares = 1 <<< f := by
          apply Nat.eq_of_testBit_eq
          intro i
          rw [Nat.testBit_land, testBit_one_shl]
          by_cases hif : i = f
          · subst hif
            rw [hfseg.1, hfseg.2]
            simp
          · cases hsi : (squares_between s x).testBit i
            · simp [hsi, Ne.symm hif]
            · cases hoi : pos.occupied_squares.testBit i
              · simp [hsi, hoi, Ne.symm hif]
              · exact absurd (hall i hsi hoi) hif
        have hpin : (pos.pinned_pieces pos.side_to_move).testBit f = true := by
          rw [Position.pinned_pieces, testBit_bbOfPred_iff]
          refine ⟨hf64, ?_⟩
          rw [Bool.and_eq_true]
          constructor
          · exact decide_eq_true hbf
          · rw [List.any_eq_true]
            refine ⟨x, List.mem_range.mpr hx64, ?_⟩
            rw [Bool.and_eq_true, Bool.or_eq_true]
            constructor
            · right
              rw [Bool.and_eq_true]
              refine ⟨rq_testBit.mpr ⟨hx64, Or.inl hbx⟩, ?_⟩
              rw [← hsk, rookAligned_symm]
              exact hdiag
            · rw [decide_eq_true_eq, ← hsk, squares_between_symm]
              exact hseq
        rw [hpin] at hnotpin
        exact absurd hnotpin (by simp)
    · have hxf : x ≠ f := fun he => by
        rw [he, hb2f] at hbq
        exact absurd hbq (by simp)
      have hxc : x ≠ checksq := fun he => by
        rw [he, hb2c, Option.some.injEq, Prod.mk.injEq] at hbq
        exact opposite_ne pos.side_to_move hbq.1.symm
      have hbx : pos.board x = some (opposite_color pos.side_to_move, PieceType.queen) := by
        rw [← hb2o x hxf hxc]
        exact hbq
      by_cases hSO : squares_between s x &&& pos.occupied_squares = 0
      · refine absurd (hsingle x ?_) hxc
        rw [checkers_testBit]
        refine ⟨hx64, by rw [hbx]; rfl, ?_⟩
        rw [Position.piece_attacks_square, hbx]
        show (queen_attacks_bb x pos.occupied_squares).testBit (pos.king_square pos.side_to_move) = true
        rw [queen_attacks_bb, Nat.testBit_or, Bool.or_eq_true]
        right
        rw [rook_attacks_testBit]
        refine ⟨by rw [← hsk]; exact hs64, ?_, ?_⟩
        · rw [← hsk, rookAligned_symm]
          exact hdiag
        · rw [← hsk, squares_between_symm]
          exact hSO
      · have hall : ∀ i, (squares_between s x).testBit i = true →
            pos.occupied_squares.testBit i = true → i = f := by
          intro i hi ho
          by_contra hif
          have hi64 : i < 64 := (occupied_squares_testBit.mp ho).1
          have hbo : pos.board i ≠ none := (occupied_squares_testBit.mp ho).2
          have ho2 : pos2.occupied_squares.testBit i = true := by
            rw [occupied_squares_testBit]
            refine ⟨hi64, ?_⟩
            by_cases hic : i = checksq
            · rw [hic, hb2c]
              simp
            · rw [hb2o i hif hic]
              exact hbo
          have hland : (squares_between s x &&& pos2.occupied_squares).testBit i = true := by
            rw [Nat.testBit_land, hi, ho2]
            rfl
          rw [hseg0, Nat.zero_testBit] at hland
          exact absurd hland (by simp)
        have hfseg : (squares_between s x).testBit f = true ∧
            pos.occupied_squares.testBit f = true := by
          by_contra hc
          apply hSO
          apply land_eq_zero_of_pointwise
          intro i hi ho
          have hieq := hall i hi ho
          subst hieq
          exact hc ⟨hi, ho⟩
        have hseq : squares_between s x &&& pos.occupied_squares = 1 <<< f := by
          apply Nat.eq_of_testBit_eq
          intro i
          rw [Nat.testBit_land, testBit_one_shl]
          by_cases hif : i = f
          · subst hif
            rw [hfseg.1, hfseg.2]
            simp
          · cases hsi : (squares_between s x).testBit i
            · simp [hsi, Ne.symm hif]
            · cases hoi : pos.occupied_squares.testBit i
              · simp [hsi, hoi, Ne.symm hif]
              · exact absurd (hall i hsi hoi) hif
        have hpin : (pos.pinned_pieces pos.side_to_move).testBit f = true := by
          rw [Position.pinned_pieces, testBit_bbOfPred_iff]
          refine ⟨hf64, ?_⟩
          rw [Bool.and_eq_true]
          constructor
          · exact decide_eq_true hbf
          · rw [List.any_eq_true]
            refine ⟨x, List.mem_range.mpr hx64, ?_⟩
            rw [Bool.and_eq_true, Bool.or_eq_true]
            constructor
            · right
              rw [Bool.and_eq_true]
              refine ⟨rq_testBit.mpr ⟨hx64, Or.inr hbx⟩, ?_⟩
              rw [← hsk, rookAligned_symm]
              exact hdiag
            · rw [decide_eq_true_eq, ← hsk, squares_between_symm]
              exact hseq
        rw [hpin] at hnotpin
        exact absurd hnotpin (by simp)

theorem block_evasion_core (pos pos2 : Position) (hok : pos.is_ok = true)
    (f t checksq : Nat) (newpt : PieceType)
    (hnp : newpt ≠ PieceType.king)
    (hf64 : f < 64) (ht64 : t < 64)
    (hbf : (pos.board f).map Prod.fst = some pos.side_to_move)
    (hb2f : pos2.board f = none)
    (hb2t : pos2.board t = some (pos.side_to_move, newpt))
    (hb2o : ∀ s2, s2 ≠ f → s2 ≠ t → pos2.board s2 = pos.board s2)
    (hnotpin : (pos.pinned_pieces pos.side_to_move).testBit f = false)
    (hsingle : ∀ s2, pos.checkers.testBit s2 = true → s2 = checksq)
    (hcslider : pos.board checksq =
        some (opposite_color pos.side_to_move, PieceType.bishop) ∨
      pos.board checksq = some (opposite_color pos.side_to_move, PieceType.rook) ∨
      pos.board checksq = some (opposite_color pos.side_to_move, PieceType.queen))
    (ht_between : (squares_between checksq
        (pos.king_square pos.side_to_move)).testBit t = true) :
    ∀ s, s < 64 → pos2.board s = some (pos.side_to_move, PieceType.king) →
      attackedWithOcc pos2 (opposite_color pos.side_to_move) s
        pos2.occupied_squares = false := by
  intro s hs64 hbs
  have hsf : s ≠ f := fun he => by
    rw [he, hb2f] at hbs
    exact absurd hbs (by simp)
  have hst : s ≠ t := fun he => by
    rw [he, hb2t, Option.some.injEq, Prod.mk.injEq] at hbs
    exact hnp hbs.2
  have hboards : pos.board s = some (pos.side_to_move, PieceType.king) := by
    rw [← hb2o s hsf hst]
    exact hbs
  have hsk : s = pos.king_square pos.side_to_move :=
    eq_king_square_of_board hok hboards hs64
  rw [attackedWithOcc_false_iff]
  refine ⟨?_, ?_, ?_, ?_, ?_⟩
  · refine land_eq_zero_of_pointwise fun x hx1 hx2 => ?_
    rw [pawn_attacks_testBit] at hx1
    rw [pawns_testBit] at hx2
    obtain ⟨hx64, hbx2⟩ := hx2
    have hxf : x ≠ f := fun he => by
      rw [he, hb2f] at hbx2
      exact absurd hbx2 (by simp)
    have hxt : x ≠ t := fun he => by
      rw [he, hb2t, Option.some.injEq, Prod.mk.injEq] at hbx2
      exact opposite_ne pos.side_to_move hbx2.1.symm
    have hbx : pos.board x = some (opposite_color pos.side_to_move, PieceType.pawn) := by
      rw [← hb2o x hxf hxt]
      exact hbx2
    have hxeq : x = checksq := by
      apply hsingle
      rw [checkers_testBit]
      refine ⟨hx64, by rw [hbx]; rfl, ?_⟩
      rw [Position.piece_attacks_square, hbx]
      show pawnStep (opposite_color pos.side_to_move) x (pos.king_square pos.side_to_move) = true
      rw [← hsk]
      have hstep := hx1.2
      rw [opposite_opposite] at hstep
      rw [pawnStep_symm] at hstep
      exact hstep
    rw [hxeq] at hbx
    rcases hcslider with h | h | h <;> rw [h] at hbx <;>
      exact absurd hbx (by simp)
  · refine land_eq_zero_of_pointwise fun x hx1 hx2 => ?_
    rw [knight_attacks_testBit] at hx1
    rw [knights_testBit] at hx2
    obtain ⟨hx64, hbx2⟩ := hx2
    have hxf : x ≠ f := fun he => by
      rw [he, hb2f] at hbx2
      exact absurd hbx2 (by simp)
    have hxt : x ≠ t := fun he => by
      rw [he, hb2t, Option.some.injEq, Prod.mk.injEq] at hbx2
      exact opposite_ne pos.side_to_move hbx2.1.symm
    have hbx : pos.board x = some (opposite_color pos.side_to_move, PieceType.knight) := by
      rw [← hb2o x hxf hxt]
      exact hbx2
    have hxeq : x = checksq := by
      apply hsingle
      rw [checkers_testBit]
      refine ⟨hx64, by rw [hbx]; rfl, ?_⟩
      rw [Position.piece_attacks_square, hbx]
      show knightStep x (pos.king_square pos.side_to_move) = true
      rw [← hsk]
      rw [knightStep_symm]
      exact hx1.2
    rw [hxeq] at hbx
    rcases hcslider with h | h | h <;> rw [h] at hbx <;>
      exact absurd hbx (by simp)
  · refine land_eq_zero_of_pointwise fun x hx1 hx2 => ?_
    rw [king_attacks_testBit] at hx1
    rw [kings_testBit] at hx2
    obtain ⟨hx64, hbx2⟩ := hx2
    have hxf : x ≠ f := fun he => by
      rw [he, hb2f] at hbx2
      exact absurd hbx2 (by simp)
    have hxt : x ≠ t := fun he => by
      rw [he, hb2t, Option.some.injEq, Prod.mk.injEq] at hbx2
      exact opposite_ne pos.side_to_move hbx2.1.symm
    have hbx : pos.board x = some (opposite_color pos.side_to_move, PieceType.king) := by
      rw [← hb2o x hxf hxt]
      exact hbx2
    have hxeq : x = checksq := by
      apply hsingle
      rw [checkers_testBit]
      refine ⟨hx64, by rw [hbx]; rfl, ?_⟩
      rw [Position.piece_attacks_square, hbx]
      show kingStep x (pos.king_square pos.side_to_move) = true
      rw [← hsk]
      rw [kingStep_symm]
      exact hx1.2
    rw [hxeq] at hbx
    rcases hcslider with h | h | h <;> rw [h] at hbx <;>
      exact absurd hbx (by simp)
  · refine land_eq_zero_of_pointwise fun x hx1 hx2 => ?_
    rw [bishop_attacks_testBit] at hx1
    obtain ⟨hx64a, hdiag, hseg0⟩ := hx1
    rw [bq_testBit] at hx2
    obtain ⟨hx64, hbx2⟩ := hx2
    rcases hbx2 with hbq | hbq
    · have hxf : x ≠ f := fun he => by
        rw [he, hb2f] at hbq
        exact absurd hbq (by simp)
      have hxt : x ≠ t := fun he => by
        rw [he, hb2t, Option.some.injEq, Prod.mk.injEq] at hbq
        exact opposite_ne pos.side_to_move hbq.1.symm
      have hbx : pos.board x = some (opposite_color pos.side_to_move, PieceType.bishop) := by
        rw [← hb2o x hxf hxt]
        exact hbq
      by_cases hxcheck : x = checksq
      · have hsegt : (squares_between s x).testBit t = true := by
          rw [hxcheck, hsk, squares_between_symm]
          exact ht_between
        have hocc2t : pos2.occupied_squares.testBit t = true := by
          rw [occupied_squares_testBit]
          exact ⟨ht64, by rw [hb2t]; simp⟩
        have hland : (squares_between s x &&& pos2.occupied_squares).testBit t = true := by
          rw [Nat.testBit_land, hsegt, hocc2t]
          rfl
        rw [hseg0, Nat.zero_testBit] at hland
        exact absurd hland (by simp)
      · by_cases hSO : squares_between s x &&& pos.occupied_squares = 0
        · refine absurd (hsingle x ?_) hxcheck
          rw [checkers_testBit]
          refine ⟨hx64, by rw [hbx]; rfl, ?_⟩
          rw [Position.piece_attacks_square, hbx]
          show (bishop_attacks_bb x pos.occupied_squares).testBit (pos.king_square pos.side_to_move) = true
          rw [bishop_attacks_testBit]
          refine ⟨by rw [← hsk]; exact hs64, ?_, ?_⟩
          · rw [← hsk, diagAligned_symm]
            exact hdiag
          · rw [← hsk, squares_between_symm]
            exact hSO
        · have hall : ∀ i, (squares_between s x).testBit i = true →
              pos.occupied_squares.testBit i = true → i = f := by
            intro i hi ho
            by_contra hif
            have hi64 : i < 64 := (occupied_squares_testBit.mp ho).1
            have hbo : pos.board i ≠ none := (occupied_squares_testBit.mp ho).2
            have ho2 : pos2.occupied_squares.testBit i = true := by
              rw [occupied_squares_testBit]
              refine ⟨hi64, ?_⟩
              by_cases hit : i = t
              · rw [hit, hb2t]
                simp
              · rw [hb2o i hif hit]
                exact hbo
            have hland : (squares_between s x &&& pos2.occupied_squares).testBit i = true := by
              rw [Nat.testBit_land, hi, ho2]
              rfl
            rw [hseg0, Nat.zero_testBit] at hland
            exact absurd hland (by simp)
          have hfseg : (squares_between s x).testBit f = true ∧
              pos.occupied_squares.testBit f = true := by
            by_contra hc
            apply hSO
            apply land_eq_zero_of_pointwise
            intro i hi ho
            have hieq := hall i hi ho
            subst hieq
            exact hc ⟨hi, ho⟩
          have hseq : squares_between s x &&& pos.occupied_squares = 1 <<< f := by
            apply Nat.eq_of_testBit_eq
            intro i
            rw [Nat.testBit_land, testBit_one_shl]
            by_cases hif : i = f
            · subst hif
              rw [hfseg.1, hfseg.2]
              simp
            · cases hsi : (squares_between s x).testBit i
              · simp [hsi, Ne.symm hif]
              · cases hoi : pos.occupied_squares.testBit i
                · simp [hsi, hoi, Ne.symm hif]
                · exact absurd (hall i hsi hoi) hif
          have hpin : (pos.pinned_pieces pos.side_to_move).testBit f = true := by
            rw [Position.pinned_pieces, testBit_bbOfPred_iff]
            refine ⟨hf64, ?_⟩
            rw [Bool.and_eq_true]
            constructor
            · exact decide_eq_true hbf
            · rw [List.any_eq_true]
              refine ⟨x, List.mem_range.mpr hx64, ?_⟩
              rw [Bool.and_eq_true, Bool.or_eq_true]
              constructor
              · left
                rw [Bool.and_eq_true]
                refine ⟨bq_testBit.mpr ⟨hx64, Or.inl hbx⟩, ?_⟩
                rw [← hsk, diagAligned_symm]
                exact hdiag
              · rw [decide_eq_true_eq, ← hsk, squares_between_symm]
                exact hseq
          rw [hpin] at hnotpin
          exact absurd hnotpin (by simp)
    · have hxf : x ≠ f := fun he => by
        rw [he, hb2f] at hbq
        exact absurd hbq (by simp)
      have hxt : x ≠ t := fun he => by
        rw [he, hb2t, Option.some.injEq, Prod.mk.injEq] at hbq
        exact opposite_ne pos.side_to_move hbq.1.symm
      have hbx : pos.board x = some (opposite_color pos.side_to_move, PieceType.queen) := by
        rw [← hb2o x hxf hxt]
        exact hbq
      by_cases hxcheck : x = checksq
      · have hsegt : (squares_between s x).testBit t = true := by
          rw [hxcheck, hsk, squares_between_symm]
          exact ht_between
        have hocc2t : pos2.occupied_squares.testBit t = true := by
          rw [occupied_squares_testBit]
          exact ⟨ht64, by rw [hb2t]; simp⟩
        have hland : (squares_between s x &&& pos2.occupied_squares).testBit t = true := by
          rw [Nat.testBit_land, hsegt, hocc2t]
          rfl
        rw [hseg0, Nat.zero_testBit] at hland
        exact absurd hland (by simp)
      · by_cases hSO : squares_between s x &&& pos.occupied_squares = 0
        · refine absurd (hsingle x ?_) hxcheck
          rw [checkers_testBit]
          refine ⟨hx64, by rw [hbx]; rfl, ?_⟩
          rw [Position.piece_attacks_square, hbx]
          show (queen_attacks_bb x pos.occupied_squares).testBit (pos.king_square pos.side_to_move) = true
          rw [queen_attacks_bb, Nat.testBit_or, Bool.or_eq_true]
          left
          rw [bishop_attacks_testBit]
          refine ⟨by rw [← hsk]; exact hs64, ?_, ?_⟩
          · rw [← hsk, diagAligned_symm]
            exact hdiag
          · rw [← hsk, squares_between_symm]
            exact hSO
        · have hall : ∀ i, (squares_between s x).testBit i = true →
              pos.occupied_squares.testBit i = true → i = f := by
            intro i hi ho
            by_contra hif
            have hi64 : i < 64 := (occupied_squares_testBit.mp ho).1
            have hbo : pos.board i ≠ none := (occupied_squares_testBit.mp ho).2
            have ho2 : pos2.occupied_squares.testBit i = true := by
              rw [occupied_squares_testBit]
              refine ⟨hi64, ?_⟩
              by_cases hit : i = t
              · rw [hit, hb2t]
                simp
              · rw [hb2o i hif hit]
                exact hbo
            have hland : (squares_between s x &&& pos2.occupied_squares).testBit i = true := by
              rw [Nat.testBit_land, hi, ho2]
              rfl
            rw [hseg0, Nat.zero_testBit] at hland
            exact absurd hland (by simp)
          have hfseg : (squares_between s x).testBit f = true ∧
              pos.occupied_squares.testBit f = true := by
            by_contra hc
            apply hSO
            apply land_eq_zero_of_pointwise
            intro i hi ho
            have hieq := hall i hi ho
            subst hieq
            exact hc ⟨hi, ho⟩
          have hseq : squares_between s x &&& pos.occupied_squares = 1 <<< f := by
            apply Nat.eq_of_testBit_eq
            intro i
            rw [Nat.testBit_land, testBit_one_shl]
            by_cases hif : i = f
            · subst hif
              rw [hfseg.1, hfseg.2]
              simp
            · cases hsi : (squares_between s x).testBit i
              · simp [hsi, Ne.symm hif]
              · cases hoi : pos.occupied_squares.testBit i
                · simp [hsi, hoi, Ne.symm hif]
                · exact absurd (hall i hsi hoi) hif
          have hpin : (pos.pinned_pieces pos.side_to_move).testBit f = true := by
            rw [Position.pinned_pieces, testBit_bbOfPred_iff]
            refine ⟨hf64, ?_⟩
            rw [Bool.and_eq_true]
            constructor
            · exact decide_eq_true hbf
            · rw [List.any_eq_true]
              refine ⟨x, List.mem_range.mpr hx64, ?_⟩
              rw [Bool.and_eq_true, Bool.or_eq_true]
              constructor
              · left
                rw [Bool.and_eq_true]
                refine ⟨bq_testBit.mpr ⟨hx64, Or.inr hbx⟩, ?_⟩
                rw [← hsk, diagAligned_symm]
                exact hdiag
              · rw [decide_eq_true_eq, ← hsk, squares_between_symm]
                exact hseq
          rw [hpin] at hnotpin
          exact absurd hnotpin (by simp)
  · refine land_eq_zero_of_pointwise fun x hx1 hx2 => ?_
    rw [rook_attacks_testBit] at hx1
    obtain ⟨hx64a, hdiag, hseg0⟩ := hx1
    rw [rq_testBit] at hx2
    obtain ⟨hx64, hbx2⟩ := hx2
    rcases hbx2 with hbq | hbq
    · have hxf : x ≠ f := fun he => by
        rw [he, hb2f] at hbq
        exact absurd hbq (by simp)
      have hxt : x ≠ t := fun he => by
        rw [he, hb2t, Option.some.injEq, Prod.mk.injEq] at hbq
        exact opposite_ne pos.side_to_move hbq.1.symm
      have hbx : pos.board x = some (opposite_color pos.side_to_move, PieceType.rook) := by
        rw [← hb2o x hxf hxt]
        exact hbq
      by_cases hxcheck : x = checksq
      · have hsegt : (squares_between s x).testBit t = true := by
          rw [hxcheck, hsk, squares_between_symm]
          exact ht_between
        have hocc2t : pos2.occupied_squares.testBit t = true := by
          rw [occupied_squares_testBit]
          exact ⟨ht64, by rw [hb2t]; simp⟩
        have hland : (squares_between s x &&& pos2.occupied_squares).testBit t = true := by
          rw [Nat.testBit_land, hsegt, hocc2t]
          rfl
        rw [hseg0, Nat.zero_testBit] at hland
        exact absurd hland (by simp)
      · by_cases hSO : squares_between s x &&& pos.occupied_squares = 0
        · refine absurd (hsingle x ?_) hxcheck
          rw [checkers_testBit]
          refine ⟨hx64, by rw [hbx]; rfl, ?_⟩
          rw [Position.piece_attacks_square, hbx]
          show (rook_attacks_bb x pos.occupied_squares).testBit (pos.king_square pos.side_to_move) = true
          rw [rook_attacks_testBit]
          refine ⟨by rw [← hsk]; exact hs64, ?_, ?_⟩
          · rw [← hsk, rookAligned_symm]
            exact hdiag
          · rw [← hsk, squares_between_symm]
            exact hSO
        · have hall : ∀ i, (squares_between s x).testBit i = true →
              pos.occupied_squares.testBit i = true → i = f := by
            intro i hi ho
            by_contra hif
            have hi64 : i < 64 := (occupied_squares_testBit.mp ho).1
            have hbo : pos.board i ≠ none := (occupied_squares_testBit.mp ho).2
            have ho2 : pos2.occupied_squares.testBit i = true := by
              rw [occupied_squares_testBit]
              refine ⟨hi64, ?_⟩
              by_cases hit : i = t
              · rw [hit, hb2t]
                simp
              · rw [hb2o i hif hit]
                exact hbo
            have hland : (squares_between s x &&& pos2.occupied_squares).testBit i = true := by
              rw [Nat.testBit_land, hi, ho2]
              rfl
            rw [hseg0, Nat.zero_testBit] at hland
            exact absurd hland (by simp)
          have hfseg : (squares_between s x).testBit f = true ∧
              pos.occupied_squares.testBit f = true := by
            by_contra hc
            apply hSO
            apply land_eq_zero_of_pointwise
            intro i hi ho
            have hieq := hall i hi ho
            subst hieq
            exact hc ⟨hi, ho⟩
          have hseq : squares_between s x &&& pos.occupied_squares = 1 <<< f := by
            apply Nat.eq_of_testBit_eq
            intro i
            rw [Nat.testBit_land, testBit_one_shl]
            by_cases hif : i = f
            · subst hif
              rw [hfseg.1, hfseg.2]
              simp
            · cases hsi : (squares_between s x).testBit i
              · simp [hsi, Ne.symm hif]
              · cases hoi : pos.occupied_squares.testBit i
                · simp [hsi, hoi, Ne.symm hif]
                · exact absurd (hall i hsi hoi) hif
          have hpin : (pos.pinned_pieces pos.side_to_move).testBit f = true := by
            rw [Position.pinned_pieces, testBit_bbOfPred_iff]
            refine ⟨hf64, ?_⟩
            rw [Bool.and_eq_true]
            constructor
            · exact decide_eq_true hbf
            · rw [List.any_eq_true]
              refine ⟨x, List.mem_range.mpr hx64, ?_⟩
              rw [Bool.and_eq_true, Bool.or_eq_true]
              constructor
              · right
                rw [Bool.and_eq_true]
                refine ⟨rq_testBit.mpr ⟨hx64, Or.inl hbx⟩, ?_⟩
                rw [← hsk, rookAligned_symm]
                exact hdiag
              · rw [decide_eq_true_eq, ← hsk, squares_between_symm]
                exact hseq
          rw [hpin] at hnotpin
          exact absurd hnotpin (by simp)
    · have hxf : x ≠ f := fun he => by
        rw [he, hb2f] at hbq
        exact absurd hbq (by simp)
      have hxt : x ≠ t := fun he => by
        rw [he, hb2t, Option.some.injEq, Prod.mk.injEq] at hbq
        exact opposite_ne pos.side_to_move hbq.1.symm
      have hbx : pos.board x = some (opposite_color pos.side_to_move, PieceType.queen) := by
        rw [← hb2o x hxf hxt]
        exact hbq
      by_cases hxcheck : x = checksq
      · have hsegt : (squares_between s x).testBit t = true := by
          rw [hxcheck, hsk, squares_between_symm]
          exact ht_between
        have hocc2t : pos2.occupied_squares.testBit t = true := by
          rw [occupied_squares_testBit]
          exact ⟨ht64, by rw [hb2t]; simp⟩
        have hland : (squares_between s x &&& pos2.occupied_squares).testBit t = true := by
          rw [Nat.testBit_land, hsegt, hocc2t]
          rfl
        rw [hseg0, Nat.zero_testBit] at hland
        exact absurd hland (by simp)
      · by_cases hSO : squares_between s x &&& pos.occupied_squares = 0
        · refine absurd (hsingle x ?_) hxcheck
          rw [checkers_testBit]
          refine ⟨hx64, by rw [hbx]; rfl, ?_⟩
          rw [Position.piece_attacks_square, hbx]
          show (queen_attacks_bb x pos.occupied_squares).testBit (pos.king_square pos.side_to_move) = true
          rw [queen_attacks_bb, Nat.testBit_or, Bool.or_eq_true]
          right
          rw [rook_attacks_testBit]
          refine ⟨by rw [← hsk]; exact hs64, ?_, ?_⟩
          · rw [← hsk, rookAligned_symm]
            exact hdiag
          · rw [← hsk, squares_between_symm]
            exact hSO
        · have hall : ∀ i, (squares_between s x).testBit i = true →
              pos.occupied_squares.testBit i = true → i = f := by
            intro i hi ho
            by_contra hif
            have hi64 : i < 64 := (occupied_squares_testBit.mp ho).1
            have hbo : pos.board i ≠ none := (occupied_squares_testBit.mp ho).2
            have ho2 : pos2.occupied_squares.testBit i = true := by
              rw [occupied_squares_testBit]
              refine ⟨hi64, ?_⟩
              by_cases hit : i = t
              · rw [hit, hb2t]
                simp
              · rw [hb2o i hif hit]
                exact hbo
            have hland : (squares_between s x &&& pos2.occupied_squares).testBit i = true := by
              rw [Nat.testBit_land, hi, ho2]
              rfl
            rw [hseg0, Nat.zero_testBit] at hland
            exact absurd hland (by simp)
          have hfseg : (squares_between s x).testBit f = true ∧
              pos.occupied_squares.testBit f = true := by
            by_contra hc
            apply hSO
            apply land_eq_zero_of_pointwise
            intro i hi ho
            have hieq := hall i hi ho
            subst hieq
            exact hc ⟨hi, ho⟩
          have hseq : squares_between s x &&& pos.occupied_squares = 1 <<< f := by
            apply Nat.eq_of_testBit_eq
            intro i
            rw [Nat.testBit_land, testBit_one_shl]
            by_cases hif : i = f
            · subst hif
              rw [hfseg.1, hfseg.2]
              simp
            · cases hsi : (squares_between s x).testBit i
              · simp [hsi, Ne.symm hif]
              · cases hoi : pos.occupied_squares.testBit i
                · simp [hsi, hoi, Ne.symm hif]
                · exact absurd (hall i hsi hoi) hif
          have hpin : (pos.pinned_pieces pos.side_to_move).testBit f = true := by
            rw [Position.pinned_pieces, testBit_bbOfPred_iff]
            refine ⟨hf64, ?_⟩
            rw [Bool.and_eq_true]
            constructor
            · exact decide_eq_true hbf
            · rw [List.any_eq_true]
              refine ⟨x, List.mem_range.mpr hx64, ?_⟩
              rw [Bool.and_eq_true, Bool.or_eq_true]
              constructor
              · right
                rw [Bool.and_eq_true]
                refine ⟨rq_testBit.mpr ⟨hx64, Or.inr hbx⟩, ?_⟩
                rw [← hsk, rookAligned_symm]
                exact hdiag
              · rw [decide_eq_true_eq, ← hsk, squares_between_symm]
                exact hseq
          rw [hpin] at hnotpin
          exact absurd hnotpin (by simp)

theorem king_evasion_core (pos pos2 : Position) (hok : pos.is_ok = true)
    (t : Nat) (ht64 : t < 64)
    (hb2k : pos2.board (pos.king_square pos.side_to_move) = none)
    (hb2t : pos2.board t = some (pos.side_to_move, PieceType.king))
    (hb2o : ∀ s2, s2 ≠ pos.king_square pos.side_to_move → s2 ≠ t →
      pos2.board s2 = pos.board s2)
    (hsafe : evasion_safe pos t = true) :
    ∀ s, s < 64 → pos2.board s = some (pos.side_to_move, PieceType.king) →
      attackedWithOcc pos2 (opposite_color pos.side_to_move) s
        pos2.occupied_squares = false := by
  intro s hs64 hbs
  have hst : s = t := by
    by_contra hne
    have hsk2 : s ≠ pos.king_square pos.side_to_move := fun he => by
      rw [he, hb2k] at hbs
      exact absurd hbs (by simp)
    have hboards : pos.board s = some (pos.side_to_move, PieceType.king) := by
      rw [← hb2o s hsk2 hne]
      exact hbs
    exact hsk2 (eq_king_square_of_board hok hboards hs64)
  subst hst
  rw [evasion_safe] at hsafe
  simp only [Bool.and_eq_true, decide_eq_true_eq] at hsafe
  obtain ⟨⟨⟨⟨hsP, hsN⟩, hsK⟩, hsB⟩, hsR⟩ := hsafe
  have hOccSub : ∀ i, (clear_bit pos.occupied_squares
      (pos.king_square pos.side_to_move)).testBit i = true →
      pos2.occupied_squares.testBit i = true := by
    intro i hi
    rw [testBit_clear_bit, Bool.and_eq_true, Bool.and_eq_true, Bool.not_eq_true',
      decide_eq_true_eq, decide_eq_false_iff_not] at hi
    obtain ⟨⟨hocc, hi64⟩, hik⟩ := hi
    rw [occupied_squares_testBit] at hocc
    rw [occupied_squares_testBit]
    refine ⟨hi64, ?_⟩
    by_cases hit : i = s
    · rw [hit, hb2t]
      simp
    · rw [hb2o i (fun he => hik he.symm) hit]
      exact hocc.2
  rw [attackedWithOcc_false_iff]
  refine ⟨?_, ?_, ?_, ?_, ?_⟩
  · rw [opposite_opposite]
    refine land_eq_zero_of_pointwise fun x hx1 hx2 => ?_
    rw [pawns_testBit] at hx2
    obtain ⟨hx64, hbx2⟩ := hx2
    have hxk : x ≠ pos.king_square pos.side_to_move := fun he => by
      rw [he, hb2k] at hbx2
      exact absurd hbx2 (by simp)
    have hxt : x ≠ s := fun he => by
      rw [he, hb2t, Option.some.injEq, Prod.mk.injEq] at hbx2
      exact opposite_ne pos.side_to_move hbx2.1.symm
    have hbx : pos.board x = some (opposite_color pos.side_to_move, PieceType.pawn) := by
      rw [← hb2o x hxk hxt]
      exact hbx2
    have hbit := (eq_zero_iff_testBit _).mp hsP x
    rw [Nat.testBit_land, Position.pawn_attacks] at hbit
    rw [hx1, pawns_testBit.mpr ⟨hx64, hbx⟩] at hbit
    exact absurd hbit (by simp)
  · refine land_eq_zero_of_pointwise fun x hx1 hx2 => ?_
    rw [knights_testBit] at hx2
    obtain ⟨hx64, hbx2⟩ := hx2
    have hxk : x ≠ pos.king_square pos.side_to_move := fun he => by
      rw [he, hb2k] at hbx2
      exact absurd hbx2 (by simp)
    have hxt : x ≠ s := fun he => by
      rw [he, hb2t, Option.some.injEq, Prod.mk.injEq] at hbx2
      exact opposite_ne pos.side_to_move hbx2.1.symm
    have hbx : pos.board x = some (opposite_color pos.side_to_move, PieceType.knight) := by
      rw [← hb2o x hxk hxt]
      exact hbx2
    have hbit := (eq_zero_iff_testBit _).mp hsN x
    rw [Nat.testBit_land, Position.knight_attacks] at hbit
    rw [hx1, knights_testBit.mpr ⟨hx64, hbx⟩] at hbit
    exact absurd hbit (by simp)
  · refine land_eq_zero_of_pointwise fun x hx1 hx2 => ?_
    rw [kings_testBit] at hx2
    obtain ⟨hx64, hbx2⟩ := hx2
    have hxk : x ≠ pos.king_square pos.side_to_move := fun he => by
      rw [he, hb2k] at hbx2
      exact absurd hbx2 (by simp)
    have hxt : x ≠ s := fun he => by
      rw [he, hb2t, Option.some.injEq, Prod.mk.injEq] at hbx2
      exact opposite_ne pos.side_to_move hbx2.1.symm
    have hbx : pos.board x = some (opposite_color pos.side_to_move, PieceType.king) := by
      rw [← hb2o x hxk hxt]
      exact hbx2
    have hbit := (eq_zero_iff_testBit _).mp hsK x
    rw [Nat.testBit_land, Position.king_attacks] at hbit
    rw [hx1, kings_testBit.mpr ⟨hx64, hbx⟩] at hbit
    exact absurd hbit (by simp)
  · refine land_eq_zero_of_pointwise fun x hx1 hx2 => ?_
    rw [bq_testBit] at hx2
    obtain ⟨hx64, hbx2⟩ := hx2
    have hxk : x ≠ pos.king_square pos.side_to_move := fun he => by
      rcases hbx2 with h | h <;> rw [he, hb2k] at h <;> exact absurd h (by simp)
    have hxt : x ≠ s := fun he => by
      rcases hbx2 with h | h <;>
        rw [he, hb2t, Option.some.injEq, Prod.mk.injEq] at h <;>
        exact opposite_ne pos.side_to_move h.1.symm
    have hbxo : pos.board x = pos2.board x := (hb2o x hxk hxt).symm
    rw [bishop_attacks_testBit] at hx1
    obtain ⟨_, hdiag, hseg0⟩ := hx1
    have hbit := (eq_zero_iff_testBit _).mp hsB x
    rw [Nat.testBit_land] at hbit
    have hseg1 : squares_between s x &&& clear_bit pos.occupied_squares
        (pos.king_square pos.side_to_move) = 0 := by
      apply land_eq_zero_of_pointwise
      intro i hi ho
      have ho2 := hOccSub i ho
      have : (squares_between s x &&& pos2.occupied_squares).testBit i = true := by
        rw [Nat.testBit_land, hi, ho2]
        rfl
      rw [hseg0, Nat.zero_testBit] at this
      exact absurd this (by simp)
    rw [bishop_attacks_testBit.mpr ⟨hx64, hdiag, hseg1⟩] at hbit
    have hbq2 : (pos.bishops_and_queens (opposite_color pos.side_to_move)).testBit x
        = true := by
      rw [bq_testBit]
      exact ⟨hx64, by rw [hbxo]; exact hbx2⟩
    rw [hbq2] at hbit
    exact absurd hbit (by simp)
  · refine land_eq_zero_of_pointwise fun x hx1 hx2 => ?_
    rw [rq_testBit] at hx2
    obtain ⟨hx64, hbx2⟩ := hx2
    have hxk : x ≠ pos.king_square pos.side_to_move := fun he => by
      rcases hbx2 with h | h <;> rw [he, hb2k] at h <;> exact absurd h (by simp)
    have hxt : x ≠ s := fun he => by
      rcases hbx2 with h | h <;>
        rw [he, hb2t, Option.some.injEq, Prod.mk.injEq] at h <;>
        exact opposite_ne pos.side_to_move h.1.symm
    have hbxo : pos.board x = pos2.board x := (hb2o x hxk hxt).symm
    rw [rook_attacks_testBit] at hx1
    obtain ⟨_, hdiag, hseg0⟩ := hx1
    have hbit := (eq_zero_iff_testBit _).mp hsR x
    rw [Nat.testBit_land] at hbit
    have hseg1 : squares_between s x &&& clear_bit pos.occupied_squares
        (pos.king_square pos.side_to_move) = 0 := by
      apply land_eq_zero_of_pointwise
      intro i hi ho
      have ho2 := hOccSub i ho
      have : (squares_between s x &&& pos2.occupied_squares).testBit i = true := by
        rw [Nat.testBit_land, hi, ho2]
        rfl
      rw [hseg0, Nat.zero_testBit] at this
      exact absurd this (by simp)
    rw [rook_attacks_testBit.mpr ⟨hx64, hdiag, hseg1⟩] at hbit
    have hrq2 : (pos.rooks_and_queens (opposite_color pos.side_to_move)).testBit x
        = true := by
      rw [rq_testBit]
      exact ⟨hx64, by rw [hbxo]; exact hbx2⟩
    rw [hrq2] at hbit
    exact absurd hbit (by simp)

theorem ep_evasion_core (pos pos2 : Position) (hok : pos.is_ok = true)
    (f checksq e : Nat)
    (hb2f : pos2.board f = none)
    (hb2c : pos2.board checksq = none)
    (hb2e : pos2.board e = some (pos.side_to_move, PieceType.pawn))
    (hb2o : ∀ s2, s2 ≠ f → s2 ≠ checksq → s2 ≠ e → pos2.board s2 = pos.board s2)
    (hsingle : ∀ s2, pos.checkers.testBit s2 = true → s2 = checksq)
    (hsafe : evasion_ep_safe pos checksq f = true) :
    ∀ s, s < 64 → pos2.board s = some (pos.side_to_move, PieceType.king) →
      attackedWithOcc pos2 (opposite_color pos.side_to_move) s
        pos2.occupied_squares = false := by
  intro s hs64 hbs
  have hsf : s ≠ f := fun he => by
    rw [he, hb2f] at hbs
    exact absurd hbs (by simp)
  have hsc : s ≠ checksq := fun he => by
    rw [he, hb2c] at hbs
    exact absurd hbs (by simp)
  have hse : s ≠ e := fun he => by
    rw [he, hb2e, Option.some.injEq, Prod.mk.injEq] at hbs
    exact absurd hbs.2.symm (by simp)
  have hboards : pos.board s = some (pos.side_to_move, PieceType.king) := by
    rw [← hb2o s hsf hsc hse]
    exact hbs
  have hsk : s = pos.king_square pos.side_to_move :=
    eq_king_square_of_board hok hboards hs64
  rw [evasion_ep_safe] at hsafe
  simp only [Bool.and_eq_true, decide_eq_true_eq] at hsafe
  obtain ⟨hsB, hsR⟩ := hsafe
  rw [attackedWithOcc_false_iff]
  refine ⟨?_, ?_, ?_, ?_, ?_⟩
  · rw [opposite_opposite]
    refine land_eq_zero_of_pointwise fun x hx1 hx2 => ?_
    rw [pawn_attacks_testBit] at hx1
    rw [pawns_testBit] at hx2
    obtain ⟨hx64, hbx2⟩ := hx2
    have hxf : x ≠ f := fun he => by
      rw [he, hb2f] at hbx2
      exact absurd hbx2 (by simp)
    have hxc : x ≠ checksq := fun he => by
      rw [he, hb2c] at hbx2
      exact absurd hbx2 (by simp)
    have hxe : x ≠ e := fun he => by
      rw [he, hb2e, Option.some.injEq, Prod.mk.injEq] at hbx2
      exact opposite_ne pos.side_to_move hbx2.1.symm
    have hbx : pos.board x = some (opposite_color pos.side_to_move, PieceType.pawn) := by
      rw [← hb2o x hxf hxc hxe]
      exact hbx2
    refine absurd (hsingle x ?_) hxc
    rw [checkers_testBit]
    refine ⟨hx64, by rw [hbx]; rfl, ?_⟩
    rw [Position.piece_attacks_square, hbx]
    show pawnStep (opposite_color pos.side_to_move) x (pos.king_square pos.side_to_move) = true
    rw [← hsk]
    have hstep := hx1.2
    rw [pawnStep_symm] at hstep
    exact hstep
  · refine land_eq_zero_of_pointwise fun x hx1 hx2 => ?_
    rw [knight_attacks_testBit] at hx1
    rw [knights_testBit] at hx2
    obtain ⟨hx64, hbx2⟩ := hx2
    have hxf : x ≠ f := fun he => by
      rw [he, hb2f] at hbx2
      exact absurd hbx2 (by simp)
    have hxc : x ≠ checksq := fun he => by
      rw [he, hb2c] at hbx2
      exact absurd hbx2 (by simp)
    have hxe : x ≠ e := fun he => by
      rw [he, hb2e, Option.some.injEq, Prod.mk.injEq] at hbx2
      exact opposite_ne pos.side_to_move hbx2.1.symm
    have hbx : pos.board x = some (opposite_color pos.side_to_move, PieceType.knight) := by
      rw [← hb2o x hxf hxc hxe]
      exact hbx2
    refine absurd (hsingle x ?_) hxc
    rw [checkers_testBit]
    refine ⟨hx64, by rw [hbx]; rfl, ?_⟩
    rw [Position.piece_attacks_square, hbx]
    show knightStep x (pos.king_square pos.side_to_move) = true
    rw [← hsk]
    rw [knightStep_symm]
    exact hx1.2
  · refine land_eq_zero_of_pointwise fun x hx1 hx2 => ?_
    rw [king_attacks_testBit] at hx1
    rw [kings_testBit] at hx2
    obtain ⟨hx64, hbx2⟩ := hx2
    have hxf : x ≠ f := fun he => by
      rw [he, hb2f] at hbx2
      exact absurd hbx2 (by simp)
    have hxc : x ≠ checksq := fun he => by
      rw [he, hb2c] at hbx2
      exact absurd hbx2 (by simp)
    have hxe : x ≠ e := fun he => by
      rw [he, hb2e, Option.some.injEq, Prod.mk.injEq] at hbx2
      exact opposite_ne pos.side_to_move hbx2.1.symm
    have hbx : pos.board x = some (opposite_color pos.side_to_move, PieceType.king) := by
      rw [← hb2o x hxf hxc hxe]
      exact hbx2
    refine absurd (hsingle x ?_) hxc
    rw [checkers_testBit]
    refine ⟨hx64, by rw [hbx]; rfl, ?_⟩
    rw [Position.piece_attacks_square, hbx]
    show kingStep x (pos.king_square pos.side_to_move) = true
    rw [← hsk]
    rw [kingStep_symm]
    exact hx1.2
  · refine land_eq_zero_of_pointwise fun x hx1 hx2 => ?_
    rw [bq_testBit] at hx2
    obtain ⟨hx64, hbx2⟩ := hx2
    have hxf : x ≠ f := fun he => by
      rcases hbx2 with h | h <;> rw [he, hb2f] at h <;> exact absurd h (by simp)
    have hxc : x ≠ checksq := fun he => by
      rcases hbx2 with h | h <;> rw [he, hb2c] at h <;> exact absurd h (by simp)
    have hxe : x ≠ e := fun he => by
      rcases hbx2 with h | h <;>
        rw [he, hb2e, Option.some.injEq, Prod.mk.injEq] at h <;>
        exact opposite_ne pos.side_to_move h.1.symm
    have hbxo : pos.board x = pos2.board x := (hb2o x hxf hxc hxe).symm
    rw [bishop_attacks_testBit] at hx1
    obtain ⟨_, hdiag, hseg0⟩ := hx1
    have hbit := (eq_zero_iff_testBit _).mp hsB x
    rw [Nat.testBit_land] at hbit
    have hseg1 : squares_between (pos.king_square pos.side_to_move) x &&&
        clear_bit (clear_bit pos.occupied_squares f) checksq = 0 := by
      apply land_eq_zero_of_pointwise
      intro i hi ho
      have ho2 : pos2.occupied_squares.testBit i = true := by
        rw [testBit_clear_bit, Bool.and_eq_true, Bool.and_eq_true, Bool.not_eq_true',
          decide_eq_true_eq, decide_eq_false_iff_not] at ho
        obtain ⟨⟨ho3, hi64⟩, hic⟩ := ho
        rw [testBit_clear_bit, Bool.and_eq_true, Bool.and_eq_true, Bool.not_eq_true',
          decide_eq_true_eq, decide_eq_false_iff_not] at ho3
        obtain ⟨⟨hocc, _⟩, hif⟩ := ho3
        rw [occupied_squares_testBit] at hocc
        rw [occupied_squares_testBit]
        refine ⟨hi64, ?_⟩
        by_cases hie : i = e
        · rw [hie, hb2e]
          simp
        · rw [hb2o i (fun he => hif he.symm) (fun he => hic he.symm) hie]
          exact hocc.2
      have hi2 : (squares_between s x).testBit i = true := by
        rw [hsk]
        exact hi
      have hland : (squares_between s x &&& pos2.occupied_squares).testBit i = true := by
        rw [Nat.testBit_land, hi2, ho2]
        rfl
      rw [hseg0, Nat.zero_testBit] at hland
      exact absurd hland (by simp)
    have hdiag2 := hdiag
    rw [hsk] at hdiag2
    rw [bishop_attacks_testBit.mpr ⟨hx64, hdiag2, hseg1⟩] at hbit
    have hbq2 : (pos.bishops_and_queens (opposite_color pos.side_to_move)).testBit x = true := by
      rw [bq_testBit]
      exact ⟨hx64, by rw [hbxo]; exact hbx2⟩
    rw [hbq2] at hbit
    exact absurd hbit (by simp)
  · refine land_eq_zero_of_pointwise fun x hx1 hx2 => ?_
    rw [rq_testBit] at hx2
    obtain ⟨hx64, hbx2⟩ := hx2
    have hxf : x ≠ f := fun he => by
      rcases hbx2 with h | h <;> rw [he, hb2f] at h <;> exact absurd h (by simp)
    have hxc : x ≠ checksq := fun he => by
      rcases hbx2 with h | h <;> rw [he, hb2c] at h <;> exact absurd h (by simp)
    have hxe : x ≠ e := fun he => by
      rcases hbx2 with h | h <;>
        rw [he, hb2e, Option.some.injEq, Prod.mk.injEq] at h <;>
        exact opposite_ne pos.side_to_move h.1.symm
    have hbxo : pos.board x = pos2.board x := (hb2o x hxf hxc hxe).symm
    rw [rook_attacks_testBit] at hx1
    obtain ⟨_, hdiag, hseg0⟩ := hx1
    have hbit := (eq_zero_iff_testBit _).mp hsR x
    rw [Nat.testBit_land] at hbit
    have hseg1 : squares_between (pos.king_square pos.side_to_move) x &&&
        clear_bit (clear_bit pos.occupied_squares f) checksq = 0 := by
      apply land_eq_zero_of_pointwise
      intro i hi ho
      have ho2 : pos2.occupied_squares.testBit i = true := by
        rw [testBit_clear_bit, Bool.and_eq_true, Bool.and_eq_true, Bool.not_eq_true',
          decide_eq_true_eq, decide_eq_false_iff_not] at ho
        obtain ⟨⟨ho3, hi64⟩, hic⟩ := ho
        rw [testBit_clear_bit, Bool.and_eq_true, Bool.and_eq_true, Bool.not_eq_true',
          decide_eq_true_eq, decide_eq_false_iff_not] at ho3
        obtain ⟨⟨hocc, _⟩, hif⟩ := ho3
        rw [occupied_squares_testBit] at hocc
        rw [occupied_squares_testBit]
        refine ⟨hi64, ?_⟩
        by_cases hie : i = e
        · rw [hie, hb2e]
          simp
        · rw [hb2o i (fun he => hif he.symm) (fun he => hic he.symm) hie]
          exact hocc.2
      have hi2 : (squares_between s x).testBit i = true := by
        rw [hsk]
        exact hi
      have hland : (squares_between s x &&& pos2.occupied_squares).testBit i = true := by
        rw [Nat.testBit_land, hi2, ho2]
        rfl
      rw [hseg0, Nat.zero_testBit] at hland
      exact absurd hland (by simp)
    have hdiag2 := hdiag
    rw [hsk] at hdiag2
    rw [rook_attacks_testBit.mpr ⟨hx64, hdiag2, hseg1⟩] at hbit
    have hbq2 : (pos.rooks_and_queens (opposite_color pos.side_to_move)).testBit x = true := by
      rw [rq_testBit]
      exact ⟨hx64, by rw [hbxo]; exact hbx2⟩
    rw [hbq2] at hbit
    exact absurd hbit (by simp)

theorem position_after_board (pos : Position) (m : Move) :
    (position_after pos m).board = board_after pos m := rfl

theorem position_after_stm (pos : Position) (m : Move) :
    (position_after pos m).side_to_move = opposite_color pos.side_to_move := rfl

theorem board_after_normal (pos : Position) (a b s : Nat) :
    board_after pos (make_move a b) s =
      (if s = a then none else if s = b then pos.board a else pos.board s) := rfl

theorem board_after_promo (pos : Position) (a b : Nat) (p : PieceType) (s : Nat) :
    board_after pos (make_promotion_move a b p) s =
      (if s = a then none
       else if s = b then some (pos.side_to_move, p)
       else pos.board s) := rfl

theorem board_after_ep (pos : Position) (a b s : Nat) :
    board_after pos (make_ep_move a b) s =
      (if s = a then none
       else if s = (if pos.side_to_move = Color.white then b - 8 else b + 8) then none
       else if s = b then some (pos.side_to_move, PieceType.pawn)
       else pos.board s) := rfl

/-- C2: in a well-formed single-king-per-side position that is in check, and
whose en passant square (when set) is consistent with the double-pushed pawn
being the only pawn checker, every move returned by generate_evasions leaves
the moving side with its king unattacked by the opponent after the move is
applied. -/
theorem c2_evasions_legal (pos : Position) (hok : pos.is_ok = true)
    (hchk : pos.is_check = true)
    (hepc : ∀ e s2, pos.ep_square = some e → pos.checkers.testBit s2 = true →
      (pos.pawns (opposite_color pos.side_to_move)).testBit s2 = true →
      s2 = (if pos.side_to_move = Color.white then e - 8 else e + 8))
    (m : Move) (hm : m ∈ generate_evasions pos) :
    ∀ s, s < 64 →
      (position_after pos m).board s = some (pos.side_to_move, PieceType.king) →
      (position_after pos m).square_is_attacked s
        (opposite_color pos.side_to_move) = false := by
  have hckne : pos.checkers ≠ 0 := by
    rw [Position.is_check] at hchk
    exact of_decide_eq_true hchk
  obtain ⟨i0, hi0⟩ := exists_testBit_of_ne_zero hckne
  have hi064 : i0 < 64 := by
    rw [Position.checkers, testBit_bbOfPred, Bool.and_eq_true, decide_eq_true_eq] at hi0
    exact hi0.1
  obtain ⟨hfbit, hf64c, hfmin⟩ := first_1_spec i0 hi064 hi0
  simp only [generate_evasions, List.mem_append] at hm
  rcases hm with hmk | hmrest
  · simp only [evasion_king_moves, List.mem_filterMap] at hmk
    obtain ⟨t, htmem, htf⟩ := hmk
    rw [mem_bbSquares] at htmem
    obtain ⟨ht64, htbit⟩ := htmem
    by_cases hsafe : evasion_safe pos t = true
    · rw [if_pos hsafe] at htf
      injection htf with htf
      subst htf
      have hkap := king_square_spec hok pos.side_to_move
      have htne : t ≠ pos.king_square pos.side_to_move := by
        rw [Nat.testBit_land, Bool.and_eq_true, Position.king_attacks,
          king_attacks_testBit] at htbit
        have hks := htbit.1.2
        rw [kingStep, Bool.and_eq_true, Bool.and_eq_true, decide_eq_true_eq] at hks
        exact fun he => hks.1.1 he.symm
      intro s hs64 hbs
      refine king_evasion_core pos _ hok t ht64 ?_ ?_ ?_ hsafe s hs64 hbs
      · rw [position_after_board, board_after_normal, if_pos rfl]
      · rw [position_after_board, board_after_normal, if_neg htne, if_pos rfl]
        exact hkap.2
      · intro s2 h2k h2t
        rw [position_after_board, board_after_normal, if_neg h2k, if_neg h2t]
    · rw [if_neg hsafe] at htf
      exact absurd htf (by simp)
  · by_cases hguard : pos.checkers &&& (pos.checkers - 1) = 0
    · rw [if_pos hguard] at hmrest
      have hsingle : ∀ s2, pos.checkers.testBit s2 = true →
          s2 = first_1 pos.checkers :=
        fun s2 hs2 => single_bit_eq hguard hfbit hfmin hs2
      have hcinfo := checkers_testBit.mp hfbit
      rw [List.mem_append, List.mem_append] at hmrest
      rcases hmrest with (hmc | hmb) | hme
      · simp only [evasion_captures, List.mem_append] at hmc
        rcases hmc with ((hp | hn) | hbs2) | hr
        · rw [List.mem_flatMap] at hp
          obtain ⟨f, hfmem, hmt⟩ := hp
          rw [mem_bbSquares] at hfmem
          obtain ⟨hf64, hfb⟩ := hfmem
          rw [Nat.testBit_land, Bool.and_eq_true, Nat.testBit_land,
            Bool.and_eq_true] at hfb
          obtain ⟨⟨hatt, hset⟩, hnp⟩ := hfb
          rw [pawns_testBit] at hset
          rw [testBit_bnot_iff] at hnp
          have hfc : f ≠ first_1 pos.checkers := fun he => by
            have hmap := hcinfo.2.1
            rw [← he, hset.2] at hmap
            injection hmap with hmap
            exact opposite_ne pos.side_to_move hmap.symm
          by_cases hr7 : relative_rank pos.side_to_move (first_1 pos.checkers) = 7
          · rw [if_pos hr7] at hmt
            simp only [List.mem_cons, List.not_mem_nil, or_false] at hmt
            have hcore : ∀ p : PieceType, p ≠ PieceType.king →
                ∀ s, s < 64 →
                (position_after pos
                  (make_promotion_move f (first_1 pos.checkers) p)).board s =
                  some (pos.side_to_move, PieceType.king) →
                (position_after pos
                  (make_promotion_move f (first_1 pos.checkers) p)).square_is_attacked
                  s (opposite_color pos.side_to_move) = false := by
              intro p hp
              refine capture_evasion_core pos _ hok f (first_1 pos.checkers) p hp hf64
                (by rw [hset.2]; rfl) ?_ ?_ ?_ hnp.2 hsingle
              · rw [position_after_board, board_after_promo, if_pos rfl]
              · rw [position_after_board, board_after_promo,
                  if_neg (fun he => hfc he.symm), if_pos rfl]
              · intro s2 h2f h2c
                rw [position_after_board, board_after_promo, if_neg h2f, if_neg h2c]
            rcases hmt with rfl | rfl | rfl | rfl
            · exact hcore PieceType.queen (by simp)
            · exact hcore PieceType.rook (by simp)
            · exact hcore PieceType.bishop (by simp)
            · exact hcore PieceType.knight (by simp)
          · rw [if_neg hr7] at hmt
            rw [List.mem_singleton] at hmt
            subst hmt
            refine capture_evasion_core pos _ hok f (first_1 pos.checkers)
              PieceType.pawn (by simp) hf64 (by rw [hset.2]; rfl)
              ?_ ?_ ?_ hnp.2 hsingle
            · rw [position_after_board, board_after_normal, if_pos rfl]
            · rw [position_after_board, board_after_normal,
                if_neg (fun he => hfc he.symm), if_pos rfl]
              exact hset.2
            · intro s2 h2f h2c
              rw [position_after_board, board_after_normal, if_neg h2f, if_neg h2c]
        · rw [List.mem_map] at hn
          obtain ⟨f, hfmem, hmt⟩ := hn
          rw [mem_bbSquares] at hfmem
          obtain ⟨hf64, hfb⟩ := hfmem
          rw [Nat.testBit_land, Bool.and_eq_true, Nat.testBit_land,
            Bool.and_eq_true] at hfb
          obtain ⟨⟨hatt, hset⟩, hnp⟩ := hfb
          rw [knights_testBit] at hset
          rw [testBit_bnot_iff] at hnp
          subst hmt
          have hfc : f ≠ first_1 pos.checkers := fun he => by
            have hmap := hcinfo.2.1
            rw [← he, hset.2] at hmap
            injection hmap with hmap
            exact opposite_ne pos.side_to_move hmap.symm
          refine capture_evasion_core pos _ hok f (first_1 pos.checkers) PieceType.knight
            (by simp) hf64 (by rw [hset.2]; rfl) ?_ ?_ ?_ hnp.2 hsingle
          · rw [position_after_board, board_after_normal, if_pos rfl]
          · rw [position_after_board, board_after_normal,
              if_neg (fun he => hfc he.symm), if_pos rfl]
            exact hset.2
          · intro s2 h2f h2c
            rw [position_after_board, board_after_normal, if_neg h2f, if_neg h2c]
        · rw [List.mem_map] at hbs2
          obtain ⟨f, hfmem, hmt⟩ := hbs2
          rw [mem_bbSquares] at hfmem
          obtain ⟨hf64, hfb⟩ := hfmem
          rw [Nat.testBit_land, Bool.and_eq_true, Nat.testBit_land,
            Bool.and_eq_true] at hfb
          obtain ⟨⟨hatt, hset⟩, hnp⟩ := hfb
          rw [bq_testBit] at hset
          rw [testBit_bnot_iff] at hnp
          subst hmt
          rcases hset.2 with hbq | hbq
          · have hfc : f ≠ first_1 pos.checkers := fun he => by
              have hmap := hcinfo.2.1
              rw [← he, hbq] at hmap
              injection hmap with hmap
              exact opposite_ne pos.side_to_move hmap.symm
            refine capture_evasion_core pos _ hok f (first_1 pos.checkers) PieceType.bishop
              (by simp) hf64 (by rw [hbq]; rfl) ?_ ?_ ?_ hnp.2 hsingle
            · rw [position_after_board, board_after_normal, if_pos rfl]
            · rw [position_after_board, board_after_normal,
                if_neg (fun he => hfc he.symm), if_pos rfl]
              exact hbq
            · intro s2 h2f h2c
              rw [position_after_board, board_after_normal, if_neg h2f, if_neg h2c]
          · have hfc : f ≠ first_1 pos.checkers := fun he => by
              have hmap := hcinfo.2.1
              rw [← he, hbq] at hmap
              injection hmap with hmap
              exact opposite_ne pos.side_to_move hmap.symm
            refine capture_evasion_core pos _ hok f (first_1 pos.checkers) PieceType.queen
              (by simp) hf64 (by rw [hbq]; rfl) ?_ ?_ ?_ hnp.2 hsingle
            · rw [position_after_board, board_after_normal, if_pos rfl]
            · rw [position_after_board, board_after_normal,
                if_neg (fun he => hfc he.symm), if_pos rfl]
              exact hbq
            · intro s2 h2f h2c
              rw [position_after_board, board_after_normal, if_neg h2f, if_neg h2c]
        · rw [List.mem_map] at hr
          obtain ⟨f, hfmem, hmt⟩ := hr
          rw [mem_bbSquares] at hfmem
          obtain ⟨hf64, hfb⟩ := hfmem
          rw [Nat.testBit_land, Bool.and_eq_true, Nat.testBit_land,
            Bool.and_eq_true] at hfb
          obtain ⟨⟨hatt, hset⟩, hnp⟩ := hfb
          rw [rq_testBit] at hset
          rw [testBit_bnot_iff] at hnp
          subst hmt
          rcases hset.2 with hbq | hbq
          · have hfc : f ≠ first_1 pos.checkers := fun he => by
              have hmap := hcinfo.2.1
              rw [← he, hbq] at hmap
              injection hmap with hmap
              exact opposite_ne pos.side_to_move hmap.symm
            refine capture_evasion_core pos _ hok f (first_1 pos.checkers) PieceType.rook
              (by simp) hf64 (by rw [hbq]; rfl) ?_ ?_ ?_ hnp.2 hsingle
            · rw [position_after_board, board_after_normal, if_pos rfl]
            · rw [position_after_board, board_after_normal,
                if_neg (fun he => hfc he.symm), if_pos rfl]
              exact hbq
            · intro s2 h2f h2c
              rw [position_after_board, board_after_normal, if_neg h2f, if_neg h2c]
          · have hfc : f ≠ first_1 pos.checkers := fun he => by
              have hmap := hcinfo.2.1
              rw [← he, hbq] at hmap
              injection hmap with hmap
              exact opposite_ne pos.side_to_move hmap.symm
            refine capture_evasion_core pos _ hok f (first_1 pos.checkers) PieceType.queen
              (by simp) hf64 (by rw [hbq]; rfl) ?_ ?_ ?_ hnp.2 hsingle
            · rw [position_after_board, board_after_normal, if_pos rfl]
            · rw [position_after_board, board_after_normal,
                if_neg (fun he => hfc he.symm), if_pos rfl]
              exact hbq
            · intro s2 h2f h2c
              rw [position_after_board, board_after_normal, if_neg h2f, if_neg h2c]
      · simp only [evasion_blocks] at hmb
        by_cases hsl : pos.checkers &&& pos.sliders ≠ 0
        · rw [if_pos hsl] at hmb
          have hslid : pos.sliders.testBit (first_1 pos.checkers) = true := by
            obtain ⟨y, hy⟩ := exists_testBit_of_ne_zero hsl
            rw [Nat.testBit_land, Bool.and_eq_true] at hy
            exact (hsingle y hy.1) ▸ hy.2
          have hcslider : pos.board (first_1 pos.checkers) =
              some (opposite_color pos.side_to_move, PieceType.bishop) ∨
              pos.board (first_1 pos.checkers) =
              some (opposite_color pos.side_to_move, PieceType.rook) ∨
              pos.board (first_1 pos.checkers) =
              some (opposite_color pos.side_to_move, PieceType.queen) := by
            rw [Position.sliders, Nat.testBit_or, Bool.or_eq_true, Nat.testBit_or,
              Bool.or_eq_true, Nat.testBit_or, Bool.or_eq_true] at hslid
            have hmap := hcinfo.2.1
            rcases hslid with ((h | h) | h) | h
            · rw [bq_testBit] at h
              rcases h.2 with hb | hb
              · have hceq : Color.white = opposite_color pos.side_to_move := by
                  rw [hb] at hmap
                  injection hmap with hmap
                exact Or.inl (by rw [hb, hceq])
              · have hceq : Color.white = opposite_color pos.side_to_move := by
                  rw [hb] at hmap
                  injection hmap with hmap
                exact Or.inr (Or.inr (by rw [hb, hceq]))
            · rw [rq_testBit] at h
              rcases h.2 with hb | hb
              · have hceq : Color.white = opposite_color pos.side_to_move := by
                  rw [hb] at hmap
                  injection hmap with hmap
                exact Or.inr (Or.inl (by rw [hb, hceq]))
              · have hceq : Color.white = opposite_color pos.side_to_move := by
                  rw [hb] at hmap
                  injection hmap with hmap
                exact Or.inr (Or.inr (by rw [hb, hceq]))
            · rw [bq_testBit] at h
              rcases h.2 with hb | hb
              · have hceq : Color.black = opposite_color pos.side_to_move := by
                  rw [hb] at hmap
                  injection hmap with hmap
                exact Or.inl (by rw [hb, hceq])
              · have hceq : Color.black = opposite_color pos.side_to_move := by
                  rw [hb] at hmap
                  injection hmap with hmap
                exact Or.inr (Or.inr (by rw [hb, hceq]))
            · rw [rq_testBit] at h
              rcases h.2 with hb | hb
              · have hceq : Color.black = opposite_color pos.side_to_move := by
                  rw [hb] at hmap
                  injection hmap with hmap
                exact Or.inr (Or.inl (by rw [hb, hceq]))
              · have hceq : Color.black = opposite_color pos.side_to_move := by
                  rw [hb] at hmap
                  injection hmap with hmap
                exact Or.inr (Or.inr (by rw [hb, hceq]))
          rw [List.mem_append, List.mem_append, List.mem_append,
            List.mem_append] at hmb
          rcases hmb with ((((hp | hn) | hb2) | hr2) | hq2)
          · rcases hcol : pos.side_to_move with _ | _
            · rw [if_pos hcol] at hp
              rw [← hcol]
              rw [List.mem_append] at hp
              rcases hp with hp1 | hp2
              · rw [List.mem_flatMap] at hp1
                obtain ⟨t, htmem, hmt⟩ := hp1
                rw [mem_bbSquares] at htmem
                obtain ⟨ht64, htb⟩ := htmem
                rw [Nat.testBit_land, Bool.and_eq_true] at htb
                obtain ⟨hsh, hblock⟩ := htb
                rw [testBit_shl_iff] at hsh
                obtain ⟨_, ht8, hb1⟩ := hsh
                rw [Nat.testBit_land, Bool.and_eq_true] at hb1
                obtain ⟨hset, hnp⟩ := hb1
                rw [pawns_testBit] at hset
                rw [testBit_bnot_iff] at hnp
                rw [← hcol] at hset
                have hfr : t - 8 = t - 8 := by omega
                rw [hfr] at hset hnp
                have hft : t ≠ t - 8 := by omega
                by_cases hr7 : square_rank t = 7
                · rw [if_pos hr7] at hmt
                  simp only [List.mem_cons, List.not_mem_nil, or_false] at hmt
                  have hcore : ∀ p : PieceType, p ≠ PieceType.king →
                      ∀ s, s < 64 →
                      (position_after pos (make_promotion_move (t - 8) t p)).board s =
                        some (pos.side_to_move, PieceType.king) →
                      (position_after pos
                        (make_promotion_move (t - 8) t p)).square_is_attacked
                        s (opposite_color pos.side_to_move) = false := by
                    intro p hpk
                    refine block_evasion_core pos _ hok (t - 8) t
                      (first_1 pos.checkers) p hpk hset.1 ht64 (by rw [hset.2]; rfl)
                      ?_ ?_ ?_ hnp.2 hsingle hcslider hblock
                    · rw [position_after_board, board_after_promo, if_pos rfl]
                    · rw [position_after_board, board_after_promo, if_neg hft,
                        if_pos rfl]
                    · intro s2 h2f h2t
                      rw [position_after_board, board_after_promo, if_neg h2f,
                        if_neg h2t]
                  rcases hmt with rfl | rfl | rfl | rfl
                  · exact hcore PieceType.queen (by simp)
                  · exact hcore PieceType.rook (by simp)
                  · exact hcore PieceType.bishop (by simp)
                  · exact hcore PieceType.knight (by simp)
                · rw [if_neg hr7] at hmt
                  rw [List.mem_singleton] at hmt
                  subst hmt
                  refine block_evasion_core pos _ hok (t - 8) t
                    (first_1 pos.checkers) PieceType.pawn (by simp) hset.1 ht64
                    (by rw [hset.2]; rfl) ?_ ?_ ?_ hnp.2 hsingle hcslider hblock
                  · rw [position_after_board, board_after_normal, if_pos rfl]
                  · rw [position_after_board, board_after_normal, if_neg hft,
                      if_pos rfl]
                    exact hset.2
                  · intro s2 h2f h2t
                    rw [position_after_board, board_after_normal, if_neg h2f,
                      if_neg h2t]
              · rw [List.mem_map] at hp2
                obtain ⟨t, htmem, hmm⟩ := hp2
                rw [mem_bbSquares] at htmem
                obtain ⟨ht64, htb⟩ := htmem
                rw [Nat.testBit_land, Bool.and_eq_true] at htb
                obtain ⟨hsh, hblock⟩ := htb
                rw [testBit_shl_iff] at hsh
                obtain ⟨_, ht8, hmid⟩ := hsh
                rw [Nat.testBit_land, Bool.and_eq_true, Nat.testBit_land,
                  Bool.and_eq_true] at hmid
                obtain ⟨⟨hsh2, hemp⟩, hr3⟩ := hmid
                rw [testBit_shl_iff] at hsh2
                obtain ⟨_, ht16, hb1⟩ := hsh2
                rw [Nat.testBit_land, Bool.and_eq_true] at hb1
                obtain ⟨hset, hnp⟩ := hb1
                rw [pawns_testBit] at hset
                rw [testBit_bnot_iff] at hnp
                rw [← hcol] at hset
                have hfr : t - 8 - 8 = t - 16 := by omega
                rw [hfr] at hset hnp
                have hft : t ≠ t - 16 := by omega
                subst hmm
                refine block_evasion_core pos _ hok (t - 16) t
                  (first_1 pos.checkers) PieceType.pawn (by simp) hset.1 ht64
                  (by rw [hset.2]; rfl) ?_ ?_ ?_ hnp.2 hsingle hcslider hblock
                · rw [position_after_board, board_after_normal, if_pos rfl]
                · rw [position_after_board, board_after_normal, if_neg hft, if_pos rfl]
                  exact hset.2
                · intro s2 h2f h2t
                  rw [position_after_board, board_after_normal, if_neg h2f, if_neg h2t]
            · rw [if_neg (by rw [hcol]; simp)] at hp
              rw [← hcol]
              rw [List.mem_append] at hp
              rcases hp with hp1 | hp2
              · rw [List.mem_flatMap] at hp1
                obtain ⟨t, htmem, hmt⟩ := hp1
                rw [mem_bbSquares] at htmem
                obtain ⟨ht64, htb⟩ := htmem
                rw [Nat.testBit_land, Bool.and_eq_true] at htb
                obtain ⟨hsh, hblock⟩ := htb
                rw [testBit_shr_iff] at hsh
                have hb1 := hsh
                rw [Nat.testBit_land, Bool.and_eq_true] at hb1
                obtain ⟨hset, hnp⟩ := hb1
                rw [pawns_testBit] at hset
                rw [testBit_bnot_iff] at hnp
                rw [← hcol] at hset
                have hfr : 8 + t = t + 8 := by omega
                rw [hfr] at hset hnp
                have hft : t ≠ t + 8 := by omega
                by_cases hr7 : square_rank t = 0
                · rw [if_pos hr7] at hmt
                  simp only [List.mem_cons, List.not_mem_nil, or_false] at hmt
                  have hcore : ∀ p : PieceType, p ≠ PieceType.king →
                      ∀ s, s < 64 →
                      (position_after pos (make_promotion_move (t + 8) t p)).board s =
                        some (pos.side_to_move, PieceType.king) →
                      (position_after pos
                        (make_promotion_move (t + 8) t p)).square_is_attacked
                        s (opposite_color pos.side_to_move) = false := by
                    intro p hpk
                    refine block_evasion_core pos _ hok (t + 8) t
                      (first_1 pos.checkers) p hpk hset.1 ht64 (by rw [hset.2]; rfl)
                      ?_ ?_ ?_ hnp.2 hsingle hcslider hblock
                    · rw [position_after_board, board_after_promo, if_pos rfl]
                    · rw [position_after_board, board_after_promo, if_neg hft,
                        if_pos rfl]
                    · intro s2 h2f h2t
                      rw [position_after_board, board_after_promo, if_neg h2f,
                        if_neg h2t]
                  rcases hmt with rfl | rfl | rfl | rfl
                  · exact hcore PieceType.queen (by simp)
                  · exact hcore PieceType.rook (by simp)
                  · exact hcore PieceType.bishop (by simp)
                  · exact hcore PieceType.knight (by simp)
                · rw [if_neg hr7] at hmt
                  rw [List.mem_singleton] at hmt
                  subst hmt
                  refine block_evasion_core pos _ hok (t + 8) t
                    (first_1 pos.checkers) PieceType.pawn (by simp) hset.1 ht64
                    (by rw [hset.2]; rfl) ?_ ?_ ?_ hnp.2 hsingle hcslider hblock
                  · rw [position_after_board, board_after_normal, if_pos rfl]
                  · rw [position_after_board, board_after_normal, if_neg hft,
                      if_pos rfl]
                    exact hset.2
                  · intro s2 h2f h2t
                    rw [position_after_board, board_after_normal, if_neg h2f,
                      if_neg h2t]
              · rw [List.mem_map] at hp2
                obtain ⟨t, htmem, hmm⟩ := hp2
                rw [mem_bbSquares] at htmem
                obtain ⟨ht64, htb⟩ := htmem
                rw [Nat.testBit_land, Bool.and_eq_true] at htb
                obtain ⟨hsh, hblock⟩ := htb
                rw [testBit_shr_iff] at hsh
                rw [Nat.testBit_land, Bool.and_eq_true, Nat.testBit_land,
                  Bool.and_eq_true] at hsh
                obtain ⟨⟨hsh2, hemp⟩, hr3⟩ := hsh
                rw [testBit_shr_iff] at hsh2
                have hb1 := hsh2
                rw [Nat.testBit_land, Bool.and_eq_true] at hb1
                obtain ⟨hset, hnp⟩ := hb1
                rw [pawns_testBit] at hset
                rw [testBit_bnot_iff] at hnp
                rw [← hcol] at hset
                have hfr : 8 + (8 + t) = t + 16 := by omega
                rw [hfr] at hset hnp
                have hft : t ≠ t + 16 := by omega
                subst hmm
                refine block_evasion_core pos _ hok (t + 16) t
                  (first_1 pos.checkers) PieceType.pawn (by simp) hset.1 ht64
                  (by rw [hset.2]; rfl) ?_ ?_ ?_ hnp.2 hsingle hcslider hblock
                · rw [position_after_board, board_after_normal, if_pos rfl]
                · rw [position_after_board, board_after_normal, if_neg hft, if_pos rfl]
                  exact hset.2
                · intro s2 h2f h2t
                  rw [position_after_board, board_after_normal, if_neg h2f, if_neg h2t]
          · rw [List.mem_flatMap] at hn
            obtain ⟨f, hfmem, hmt⟩ := hn
            rw [mem_bbSquares] at hfmem
            obtain ⟨hf64, hfb⟩ := hfmem
            rw [Nat.testBit_land, Bool.and_eq_true] at hfb
            obtain ⟨hset, hnp⟩ := hfb
            rw [knights_testBit] at hset
            rw [testBit_bnot_iff] at hnp
            rw [List.mem_map] at hmt
            obtain ⟨t, htmem, hmm⟩ := hmt
            rw [mem_bbSquares] at htmem
            obtain ⟨ht64, htb⟩ := htmem
            rw [Nat.testBit_land, Bool.and_eq_true, Position.knight_attacks, knight_attacks_testBit] at htb
            obtain ⟨hattk, hblock⟩ := htb
            subst hmm
            have hft : t ≠ f := by
              have hks := hattk.2
              rw [knightStep, decide_eq_true_eq] at hks
              intro he
              rw [he] at hks
              simp at hks
            refine block_evasion_core pos _ hok f t (first_1 pos.checkers)
              PieceType.knight (by simp) hf64 ht64 (by rw [hset.2]; rfl)
              ?_ ?_ ?_ hnp.2 hsingle hcslider hblock
            · rw [position_after_board, board_after_normal, if_pos rfl]
            · rw [position_after_board, board_after_normal, if_neg hft, if_pos rfl]
              exact hset.2
            · intro s2 h2f h2t
              rw [position_after_board, board_after_normal, if_neg h2f, if_neg h2t]
          · rw [List.mem_flatMap] at hb2
            obtain ⟨f, hfmem, hmt⟩ := hb2
            rw [mem_bbSquares] at hfmem
            obtain ⟨hf64, hfb⟩ := hfmem
            rw [Nat.testBit_land, Bool.and_eq_true] at hfb
            obtain ⟨hset, hnp⟩ := hfb
            rw [Position.bishops, piecesBB_testBit_iff] at hset
            rw [testBit_bnot_iff] at hnp
            rw [List.mem_map] at hmt
            obtain ⟨t, htmem, hmm⟩ := hmt
            rw [mem_bbSquares] at htmem
            obtain ⟨ht64, htb⟩ := htmem
            rw [Nat.testBit_land, Bool.and_eq_true, Position.bishop_attacks, bishop_attacks_testBit] at htb
            obtain ⟨hattk, hblock⟩ := htb
            subst hmm
            have hft : t ≠ f := by
              have hks := hattk.2.1
              rw [diagAligned, Bool.and_eq_true, decide_eq_true_eq] at hks
              intro he
              rw [he] at hks
              exact hks.1 rfl
            refine block_evasion_core pos _ hok f t (first_1 pos.checkers)
              PieceType.bishop (by simp) hf64 ht64 (by rw [hset.2]; rfl)
              ?_ ?_ ?_ hnp.2 hsingle hcslider hblock
            · rw [position_after_board, board_after_normal, if_pos rfl]
            · rw [position_after_board, board_after_normal, if_neg hft, if_pos rfl]
              exact hset.2
            · intro s2 h2f h2t
              rw [position_after_board, board_after_normal, if_neg h2f, if_neg h2t]
          · rw [List.mem_flatMap] at hr2
            obtain ⟨f, hfmem, hmt⟩ := hr2
            rw [mem_bbSquares] at hfmem
            obtain ⟨hf64, hfb⟩ := hfmem
            rw [Nat.testBit_land, Bool.and_eq_true] at hfb
            obtain ⟨hset, hnp⟩ := hfb
            rw [Position.rooks, piecesBB_testBit_iff] at hset
            rw [testBit_bnot_iff] at hnp
            rw [List.mem_map] at hmt
            obtain ⟨t, htmem, hmm⟩ := hmt
            rw [mem_bbSquares] at htmem
            obtain ⟨ht64, htb⟩ := htmem
            rw [Nat.testBit_land, Bool.and_eq_true, Position.rook_attacks, rook_attacks_testBit] at htb
            obtain ⟨hattk, hblock⟩ := htb
            subst hmm
            have hft : t ≠ f := by
              have hks := hattk.2.1
              rw [rookAligned, Bool.and_eq_true, decide_eq_true_eq] at hks
              intro he
              exact hks.1 (by rw [he])
            refine block_evasion_core pos _ hok f t (first_1 pos.checkers)
              PieceType.rook (by simp) hf64 ht64 (by rw [hset.2]; rfl)
              ?_ ?_ ?_ hnp.2 hsingle hcslider hblock
            · rw [position_after_board, board_after_normal, if_pos rfl]
            · rw [position_after_board, board_after_normal, if_neg hft, if_pos rfl]
              exact hset.2
            · intro s2 h2f h2t
              rw [position_after_board, board_after_normal, if_neg h2f, if_neg h2t]
          · rw [List.mem_flatMap] at hq2
            obtain ⟨f, hfmem, hmt⟩ := hq2
            rw [mem_bbSquares] at hfmem
            obtain ⟨hf64, hfb⟩ := hfmem
            rw [Nat.testBit_land, Bool.and_eq_true] at hfb
            obtain ⟨hset, hnp⟩ := hfb
            rw [Position.queens, piecesBB_testBit_iff] at hset
            rw [testBit_bnot_iff] at hnp
            rw [List.mem_map] at hmt
            obtain ⟨t, htmem, hmm⟩ := hmt
            rw [mem_bbSquares] at htmem
            obtain ⟨ht64, htb⟩ := htmem
            rw [Nat.testBit_land, Bool.and_eq_true, Position.queen_attacks] at htb
            obtain ⟨hattk2, hblock⟩ := htb
            subst hmm
            have hft : t ≠ f := by
              rw [queen_attacks_bb, Nat.testBit_or, Bool.or_eq_true] at hattk2
              intro he
              rcases hattk2 with h | h
              · rw [bishop_attacks_testBit] at h
                have hd := h.2.1
                rw [diagAligned, Bool.and_eq_true, decide_eq_true_eq] at hd
                rw [he] at hd
                exact hd.1 rfl
              · rw [rook_attacks_testBit] at h
                have hd := h.2.1
                rw [rookAligned, Bool.and_eq_true, decide_eq_true_eq] at hd
                exact hd.1 (by rw [he])
            refine block_evasion_core pos _ hok f t (first_1 pos.checkers)
              PieceType.queen (by simp) hf64 ht64 (by rw [hset.2]; rfl)
              ?_ ?_ ?_ hnp.2 hsingle hcslider hblock
            · rw [position_after_board, board_after_normal, if_pos rfl]
            · rw [position_after_board, board_after_normal, if_neg hft, if_pos rfl]
              exact hset.2
            · intro s2 h2f h2t
              rw [position_after_board, board_after_normal, if_neg h2f, if_neg h2t]
        · rw [if_neg hsl] at hmb
          exact absurd hmb (List.not_mem_nil m)
      · simp only [evasion_ep] at hme
        rcases hep : pos.ep_square with _ | e
        · simp only [hep] at hme
          exact absurd hme (List.not_mem_nil m)
        · simp only [hep] at hme
          by_cases hpw : pos.checkers &&&
              pos.pawns (opposite_color pos.side_to_move) ≠ 0
          · rw [if_pos hpw] at hme
            rw [List.mem_filterMap] at hme
            obtain ⟨f, hfmem, hff⟩ := hme
            rw [mem_bbSquares] at hfmem
            obtain ⟨hf64, hfb⟩ := hfmem
            rw [Nat.testBit_land, Bool.and_eq_true, Nat.testBit_land,
              Bool.and_eq_true] at hfb
            obtain ⟨⟨hatt, hset⟩, hnp⟩ := hfb
            rw [pawns_testBit] at hset
            rw [Position.pawn_attacks, pawn_attacks_testBit] at hatt
            by_cases hsafe : evasion_ep_safe pos (first_1 pos.checkers) f = true
            · rw [if_pos hsafe] at hff
              injection hff with hff
              subst hff
              obtain ⟨y, hy⟩ := exists_testBit_of_ne_zero hpw
              rw [Nat.testBit_land, Bool.and_eq_true] at hy
              have hpawnc : (pos.pawns (opposite_color pos.side_to_move)).testBit
                  (first_1 pos.checkers) = true := (hsingle y hy.1) ▸ hy.2
              have hcap := hepc e (first_1 pos.checkers) hep hfbit hpawnc
              have hbc : pos.board (first_1 pos.checkers) =
                  some (opposite_color pos.side_to_move, PieceType.pawn) :=
                (pawns_testBit.mp hpawnc).2
              have hstep := hatt.2
              have hfc : f ≠ first_1 pos.checkers := fun he2 => by
                have hb3 := hset.2
                rw [he2, hbc, Option.some.injEq, Prod.mk.injEq] at hb3
                exact opposite_ne pos.side_to_move hb3.1
              have hcape : (if pos.side_to_move = Color.white then e - 8
                  else e + 8) ≠ e := by
                rcases hcol2 : pos.side_to_move with _ | _
                · rw [if_pos rfl]
                  rw [hcol2] at hstep
                  simp only [opposite_color, pawnStep] at hstep
                  rw [bPawnStep_iff] at hstep
                  omega
                · rw [if_neg (by simp)]
                  omega
              have hfe : e ≠ f := by
                intro h2
                rw [h2] at hstep
                cases hc3 : opposite_color pos.side_to_move <;>
                  rw [hc3] at hstep <;>
                  simp only [pawnStep] at hstep <;>
                  first
                    | (rw [wPawnStep_iff] at hstep; omega)
                    | (rw [bPawnStep_iff] at hstep; omega)
              refine ep_evasion_core pos _ hok f (first_1 pos.checkers) e
                ?_ ?_ ?_ ?_ hsingle hsafe
              · rw [position_after_board, board_after_ep, if_pos rfl]
              · rw [position_after_board, board_after_ep,
                  if_neg (fun h2 => hfc h2.symm), if_pos hcap]
              · rw [position_after_board, board_after_ep, if_neg hfe,
                  if_neg (fun h2 => hcape h2.symm), if_pos rfl]
              · intro s2 h2f h2c h2e
                rw [position_after_board, board_after_ep, if_neg h2f,
                  if_neg (fun h2 => h2c (h2.trans hcap.symm)), if_neg h2e]
            · rw [if_neg hsafe] at hff
              exact absurd hff (by simp)
          · rw [if_neg hpw] at hme
            exact absurd hme (List.not_mem_nil m)
    · rw [if_neg hguard] at hmrest
      exact absurd hmrest (List.not_mem_nil m)

theorem c2_evasions_legal_witness :
    posEpEvasion.is_ok = true ∧ posEpEvasion.is_check = true ∧
    make_ep_move 36 43 ∈ generate_evasions posEpEvasion ∧
    ∀ s, s < 64 →
      (position_after posEpEvasion (make_ep_move 36 43)).board s =
        some (posEpEvasion.side_to_move, PieceType.king) →
      (position_after posEpEvasion (make_ep_move 36 43)).square_is_attacked s
        (opposite_color posEpEvasion.side_to_move) = false :=
  ⟨by decide, by decide, by decide,
    c2_evasions_legal posEpEvasion (by decide) (by decide)
      (by
        intro e s2 he hc hp
        rw [show posEpEvasion.ep_square = some 43 from rfl,
          Option.some.injEq] at he
        subst he
        have hcb : posEpEvasion.checkers = 1 <<< 35 := by decide
        rw [hcb, testBit_one_shl, decide_eq_true_eq] at hc
        subst hc
        decide)
      (make_ep_move 36 43) (by decide)⟩



end Movegen
